import Mathlib

/-!
# MJPEG to AVI muxer (`avi.cpp`): shallow embedding

Bytes are natural numbers below 256, buffers are lists of bytes, and the
file-scope globals together with the function statics of `readClientBuf`
form the record `Muxer`.  Machine integers carry their wrap-around
explicitly (`toInt32`, `% 2 ^ 32`, `% 2 ^ 16`).
-/

namespace Avi

/-! ## Constants -/

/-- The chunk tag `00dc`. -/
def dcBuf : List Nat := [0x30, 0x30, 0x64, 0x63]
/-- The chunk tag `01wb`. -/
def wbBuf : List Nat := [0x30, 0x31, 0x77, 0x62]
/-- The index tag `idx1`. -/
def idx1Buf : List Nat := [0x69, 0x64, 0x78, 0x31]
/-- Four zero bytes. -/
def zeroBuf : List Nat := [0x00, 0x00, 0x00, 0x00]

def AVI_HEADER_LEN : Nat := 310

/-- The AVI header template, the initial value of the global `aviHeader`. -/
def aviHeaderTemplate : List Nat := [
  0x52, 0x49, 0x46, 0x46, 0x00, 0x00, 0x00, 0x00, 0x41, 0x56, 0x49, 0x20, 0x4C, 0x49, 0x53, 0x54,
  0x16, 0x01, 0x00, 0x00, 0x68, 0x64, 0x72, 0x6C, 0x61, 0x76, 0x69, 0x68, 0x38, 0x00, 0x00, 0x00,
  0x00, 0x00, 0x00, 0x00, 0x00, 0x00, 0x00, 0x00, 0x00, 0x00, 0x00, 0x00, 0x10, 0x00, 0x00, 0x00,
  0x00, 0x00, 0x00, 0x00, 0x00, 0x00, 0x00, 0x00, 0x01, 0x00, 0x00, 0x00, 0x00, 0x00, 0x00, 0x00,
  0x00, 0x00, 0x00, 0x00, 0xe0, 0x00, 0x00, 0x00, 0x00, 0x00, 0x00, 0x00, 0x00, 0x00, 0x00, 0x00,
  0x00, 0x00, 0x00, 0x00, 0x00, 0x00, 0x00, 0x00, 0x4C, 0x49, 0x53, 0x54, 0x6C, 0x00, 0x00, 0x00,
  0x73, 0x74, 0x72, 0x6C, 0x73, 0x74, 0x72, 0x68, 0x30, 0x00, 0x00, 0x00, 0x76, 0x69, 0x64, 0x73,
  0x4D, 0x4A, 0x50, 0x47, 0x00, 0x00, 0x00, 0x00, 0x00, 0x00, 0x00, 0x00, 0x00, 0x00, 0x00, 0x00,
  0x01, 0x00, 0x00, 0x00, 0x00, 0x00, 0x00, 0x00, 0x00, 0x00, 0x00, 0x00, 0x0A, 0x00, 0x00, 0x00,
  0x00, 0x00, 0x00, 0x00, 0x00, 0x00, 0x00, 0x00, 0x00, 0x00, 0x00, 0x00, 0x73, 0x74, 0x72, 0x66,
  0x28, 0x00, 0x00, 0x00, 0x28, 0x00, 0x00, 0x00, 0x00, 0x00, 0x00, 0x00, 0x00, 0x00, 0x00, 0x00,
  0x01, 0x00, 0x18, 0x00, 0x4D, 0x4A, 0x50, 0x47, 0x00, 0x00, 0x00, 0x00, 0x00, 0x00, 0x00, 0x00,
  0x00, 0x00, 0x00, 0x00, 0x00, 0x00, 0x00, 0x00, 0x00, 0x00, 0x00, 0x00,
  0x4C, 0x49, 0x53, 0x54, 0x56, 0x00, 0x00, 0x00,
  0x73, 0x74, 0x72, 0x6C, 0x73, 0x74, 0x72, 0x68, 0x30, 0x00, 0x00, 0x00, 0x61, 0x75, 0x64, 0x73,
  0x00, 0x00, 0x00, 0x00, 0x00, 0x00, 0x00, 0x00, 0x00, 0x00, 0x00, 0x00, 0x00, 0x00, 0x00, 0x00,
  0x01, 0x00, 0x00, 0x00, 0x11, 0x2B, 0x00, 0x00, 0x00, 0x00, 0x00, 0x00, 0x00, 0x00, 0x00, 0x00,
  0x11, 0x2B, 0x00, 0x00, 0x00, 0x00, 0x00, 0x00, 0x01, 0x00, 0x00, 0x00, 0x73, 0x74, 0x72, 0x66,
  0x12, 0x00, 0x00, 0x00, 0x01, 0x00, 0x01, 0x00, 0x11, 0x2B, 0x00, 0x00, 0x11, 0x2B, 0x00, 0x00,
  0x01, 0x00, 0x08, 0x00, 0x00, 0x00,
  0x4C, 0x49, 0x53, 0x54, 0x00, 0x00, 0x00, 0x00, 0x6D, 0x6F, 0x76, 0x69]

/-- One row of `frameSizeData`: two bytes of width, two bytes of height. -/
structure frameSizeStruct where
  frameWidth : List Nat
  frameHeight : List Nat
deriving DecidableEq, Repr

/-- The table indexed by frame type (14 rows, `96X96` up to `uxga`). -/
def frameSizeData : List frameSizeStruct := [
  ⟨[0x60, 0x00], [0x60, 0x00]⟩, -- 96X96
  ⟨[0xA0, 0x00], [0x78, 0x00]⟩, -- qqvga
  ⟨[0xB0, 0x00], [0x90, 0x00]⟩, -- qcif
  ⟨[0xF0, 0x00], [0xB0, 0x00]⟩, -- hqvga
  ⟨[0xF0, 0x00], [0xF0, 0x00]⟩, -- 240X240
  ⟨[0x40, 0x01], [0xF0, 0x00]⟩, -- qvga
  ⟨[0x90, 0x01], [0x28, 0x01]⟩, -- cif
  ⟨[0xE0, 0x01], [0x40, 0x01]⟩, -- hvga
  ⟨[0x80, 0x02], [0xE0, 0x01]⟩, -- vga
  ⟨[0x20, 0x03], [0x58, 0x02]⟩, -- svga
  ⟨[0x00, 0x04], [0x00, 0x03]⟩, -- xga
  ⟨[0x00, 0x05], [0xD0, 0x02]⟩, -- hd
  ⟨[0x00, 0x05], [0x00, 0x04]⟩, -- sxga
  ⟨[0x40, 0x06], [0xB0, 0x04]⟩] -- uxga

/-- The bytes of `PART_BOUNDARY` (`app_httpd.cpp`), thirty ASCII digits. -/
def PART_BOUNDARY : List Nat :=
  [49, 50, 51, 52, 53, 54, 55, 56, 57, 48, 48, 48, 48, 48, 48, 48, 48, 48, 48, 48, 48,
   57, 56, 55, 54, 53, 52, 51, 50, 49]

/-- The bytes of `_STREAM_BOUNDARY`: CR LF, two dashes, `PART_BOUNDARY`, CR LF. -/
def _STREAM_BOUNDARY : List Nat := [13, 10, 45, 45] ++ PART_BOUNDARY ++ [13, 10]

/-- The bytes of `_STREAM_PART` before its `%10u` directive:
`Content-Type: image/jpeg`, CR LF, `Content-Length: `. -/
def streamPartHead : List Nat :=
  [67, 111, 110, 116, 101, 110, 116, 45, 84, 121, 112, 101, 58, 32,
   105, 109, 97, 103, 101, 47, 106, 112, 101, 103, 13, 10,
   67, 111, 110, 116, 101, 110, 116, 45, 76, 101, 110, 103, 116, 104, 58, 32]

/-- The bytes of `_STREAM_PART` after its `%10u` directive: CR LF CR LF. -/
def streamPartTail : List Nat := [13, 10, 13, 10]

/-- The format string `_STREAM_PART` itself, with the four characters `%10u`. -/
def _STREAM_PART : List Nat := streamPartHead ++ [37, 49, 48, 117] ++ streamPartTail

def streamBoundaryLen : Nat := _STREAM_BOUNDARY.length
def streamPartLen : Nat := _STREAM_PART.length + 6

def LENGTH_OFFSET : Nat := 78
def REMAINDER_OFFSET : Nat := 14
def MJPEG_HDR : Nat := LENGTH_OFFSET + REMAINDER_OFFSET
def CHUNK_HDR : Nat := 8
def IDX_ENTRY : Nat := 16
def MAX_FRAMES : Nat := 20000
def SAMPLE_RATE : Nat := 11025
def RAMSIZE : Nat := (SAMPLE_RATE + 1) / 2
def WAV_HEADER_LEN : Nat := 44

/-! ## Machine integers and raw memory -/

/-- Conversion to a 32-bit `int`: reduction modulo `2 ^ 32` into the signed range. -/
def toInt32 (x : Int) : Int := (x + 2147483648) % 4294967296 - 2147483648

/-- Conversion to `size_t` / `uint32_t`. -/
def toUInt32 (x : Int) : Nat := (x % 4294967296).toNat

/-- Overwrite `data.length` bytes of `buf` from offset `off` on (`memcpy` into a buffer). -/
def memWrite (buf : List Nat) (off : Nat) (data : List Nat) : List Nat :=
  buf.take off ++ data ++ buf.drop (off + data.length)

/-- The `len` bytes of `buf` from offset `off` on. -/
def memRead (buf : List Nat) (off len : Nat) : List Nat := (buf.drop off).take len

/-- The call `memmove(buf + dst, buf + src, len)`. -/
def memmove (buf : List Nat) (dst src len : Nat) : List Nat :=
  memWrite buf dst (memRead buf src len)

/-- The loop of `littleEndian`: `k` times store `v % 0x100` and shift `v` right by 8. -/
def littleEndianLoop : Nat → Nat → List Nat
  | 0, _ => []
  | k + 1, v => (v % 0x100) :: littleEndianLoop k (v >>> 8)

/-- The four bytes `littleEndian` stores for its `uint32_t` argument. -/
def littleEndian (v : Nat) : List Nat := littleEndianLoop 4 (v % 4294967296)

/-! ## Files -/

/-- An open file: its content and the read position. -/
structure File where
  data : List Nat
  pos : Nat
deriving DecidableEq, Repr

def File.size (f : File) : Nat := f.data.length
def File.available (f : File) : Nat := f.data.length - f.pos
/-- The bytes delivered by `read(buf, n)`, at most `n` and at most what is left. -/
def File.readBytes (f : File) (n : Nat) : List Nat := (f.data.drop f.pos).take n
/-- The file after `read(buf, n)`. -/
def File.advance (f : File) (n : Nat) : File := { f with pos := f.pos + (f.readBytes n).length }
/-- The file after `seek(p, SeekSet)`. -/
def File.seek (f : File) (p : Nat) : File := { f with pos := p }

/-! ## The muxer state -/

/-- The mutable globals of `avi.cpp` that the muxer uses, followed by the
function statics of `readClientBuf`. -/
structure Muxer where
  aviHeader : List Nat
  idxBuf : List Nat
  mjpegHdrStr : List Nat
  doAVI : Bool
  doAVIheader : Bool
  haveSoundFile : Bool
  frameCnt : Nat
  framePtr : Nat
  idxPtr : Nat
  idxOffset : Nat
  frameType : Nat
  FPS : Nat
  fileSize : Nat
  audSize : Nat
  indexLen : Nat
  aviOn : Bool
  wavFile : File
  readLen : Int
  jStart : Int
  jEnd : Int
  iPtr : Int
  hdrOffset : Int
  theEnd : Bool
deriving DecidableEq, Repr

/-- The state at program start: the initialisers of the globals and statics. -/
def Muxer.init : Muxer where
  aviHeader := aviHeaderTemplate
  idxBuf := []
  mjpegHdrStr := List.replicate MJPEG_HDR 0
  doAVI := false
  doAVIheader := false
  haveSoundFile := false
  frameCnt := 0
  framePtr := 0
  idxPtr := 0
  idxOffset := 0
  frameType := 0
  FPS := 0
  fileSize := 0
  audSize := 0
  indexLen := 0
  aviOn := true
  wavFile := ⟨[], 0⟩
  readLen := 0
  jStart := 0
  jEnd := 0
  iPtr := 0
  hdrOffset := 0
  theEnd := false

/-! ## Classification: `soundFile` and `isAVI` -/

/-- The function `soundFile`: `wav` is the companion file when it exists.  Returns the
audio size together with the new state (`wavFile` positioned after the WAV header,
`haveSoundFile`). -/
def soundFile (s : Muxer) (wav : Option File) : Nat × Muxer :=
  match wav with
  | some w =>
    let fileSize := toUInt32 ((w.size : Int) - WAV_HEADER_LEN)
    (fileSize, { s with wavFile := w.seek WAV_HEADER_LEN, haveSoundFile := fileSize != 0 })
  | none => (0, { s with haveSoundFile := false })

/-- The function `isAVI`.  The four integers `meta0 .. meta3` are what `extractMeta`
returned for the file name; `fhSize` is `fh.size()`.  (The assignments to `frameType`,
`FPS`, `fileSize`, `doAVI`, `doAVIheader` precede the call of `soundFile` in the source;
`soundFile` reads none of them.) -/
def isAVI (s : Muxer) (meta0 meta1 _meta2 meta3 : Int) (fhSize : Nat) (wav : Option File) :
    Bool × Muxer :=
  let frameCnt := if !s.aviOn then 0 else (meta3 % 65536).toNat
  if frameCnt > 0 then
    (true, { (soundFile s wav).2 with
               frameCnt := frameCnt, frameType := (meta0 % 256).toNat,
               FPS := (meta1 % 256).toNat, fileSize := fhSize, doAVI := true,
               doAVIheader := true, audSize := (soundFile s wav).1 })
  else
    (false, { s with frameCnt := frameCnt, doAVI := false })

/-! ## Header and index -/

/-- The value `(uint32_t)round(1000000.0f / FPS)`; for `FPS = 0` the source divides by
zero and the value here is 0. -/
def usecsPerFrame (fps : Nat) : Nat := (2 * 1000000 + fps) / (2 * fps)

/-- The row `frameSizeData[frameType]`; a frame type past the table reads a row of zeros
here. -/
def frameSizeRow (frameType : Nat) : frameSizeStruct :=
  frameSizeData.getD frameType ⟨[0, 0], [0, 0]⟩

/-- The number of index entries announced: `frameCnt + (haveSoundFile ? 1 : 0)`. -/
def entryCount (s : Muxer) : Nat := s.frameCnt + (if s.haveSoundFile then 1 else 0)

/-- The header bytes `buildAVIhdr` leaves in the global `aviHeader`. -/
def patchedHeader (s : Muxer) : List Nat :=
  let moviSize := toUInt32 ((s.audSize : Int) + ((s.fileSize : Int)
      - ((streamBoundaryLen + streamPartLen : Nat) : Int) * s.frameCnt - streamBoundaryLen))
  let aviSize := (moviSize + AVI_HEADER_LEN + (CHUNK_HDR + IDX_ENTRY) * entryCount s) % 4294967296
  let h := memWrite s.aviHeader 4 (littleEndian aviSize)
  let h := memWrite h 0x20 (littleEndian (usecsPerFrame s.FPS))
  let h := memWrite h 0x30 (littleEndian s.frameCnt)
  let h := memWrite h 0x8C (littleEndian s.frameCnt)
  let h := memWrite h 0x84 (littleEndian s.FPS)
  let h := memWrite h 0x12E (littleEndian (moviSize + entryCount s * CHUNK_HDR + 4))
  let h := if s.haveSoundFile then memWrite h 0x38 (littleEndian 2) else h
  let h := memWrite h 0x100 (littleEndian s.audSize)
  let h := memWrite h 0x40 (frameSizeRow s.frameType).frameWidth
  let h := memWrite h 0xA8 (frameSizeRow s.frameType).frameWidth
  let h := memWrite h 0x44 (frameSizeRow s.frameType).frameHeight
  memWrite h 0xAC (frameSizeRow s.frameType).frameHeight

/-- The index buffer as `buildAVIhdr` prepares it: the block returned by `ps_malloc`
(read as zero-filled), the tag `idx1`, the size of the index. -/
def freshIdxBuf (s : Muxer) : List Nat :=
  memWrite (memWrite (List.replicate ((MAX_FRAMES + 1) * IDX_ENTRY) 0) 0 idx1Buf) 4
    (littleEndian (entryCount s * IDX_ENTRY))

/-- The function `buildAVIhdr`: returns the byte count, the new state and the client
buffer. -/
def buildAVIhdr (s : Muxer) (clientBuf : List Nat) : Nat × Muxer × List Nat :=
  let clientBuf := memWrite clientBuf 0 (patchedHeader s)
  let idxOffset := 4
  let idxPtr := CHUNK_HDR
  let indexLen := entryCount s * IDX_ENTRY + CHUNK_HDR
  if s.haveSoundFile then
    let clientBuf := memWrite clientBuf AVI_HEADER_LEN wbBuf
    let clientBuf := memWrite clientBuf (AVI_HEADER_LEN + 4) (littleEndian s.audSize)
    let idx := memWrite (freshIdxBuf s) CHUNK_HDR wbBuf
    let idx := memWrite idx (CHUNK_HDR + 4) zeroBuf
    let idx := memWrite idx (CHUNK_HDR + 8) (littleEndian idxOffset)
    let idx := memWrite idx (CHUNK_HDR + 12) (littleEndian s.audSize)
    (AVI_HEADER_LEN + 8,
     { s with aviHeader := patchedHeader s, doAVIheader := false, idxBuf := idx,
              idxOffset := (idxOffset + s.audSize + CHUNK_HDR) % 4294967296,
              idxPtr := (idxPtr + IDX_ENTRY) % 65536, indexLen := indexLen },
     clientBuf)
  else
    (AVI_HEADER_LEN,
     { s with aviHeader := patchedHeader s, doAVIheader := false, idxBuf := freshIdxBuf s,
              idxOffset := idxOffset, idxPtr := idxPtr, indexLen := indexLen },
     clientBuf)

/-- The function `buildIdx`: one 16-byte record at `idxPtr`, then both cursors advance
(`idxOffset` is a `uint32_t`, `idxPtr` a `uint16_t`). -/
def buildIdx (s : Muxer) (dataSize : Nat) : Muxer :=
  let idx := memWrite s.idxBuf s.idxPtr dcBuf
  let idx := memWrite idx (s.idxPtr + 4) zeroBuf
  let idx := memWrite idx (s.idxPtr + 8) (littleEndian s.idxOffset)
  let idx := memWrite idx (s.idxPtr + 12) (littleEndian dataSize)
  { s with idxBuf := idx,
           idxOffset := (s.idxOffset + dataSize + CHUNK_HDR) % 4294967296,
           idxPtr := (s.idxPtr + IDX_ENTRY) % 65536 }

/-! ## `atoi` -/

/-- The C predicate `isspace`. -/
def isSpace (c : Nat) : Bool := c == 32 || (9 ≤ c && c ≤ 13)

/-- The C predicate `isdigit`. -/
def isDigit (c : Nat) : Bool := 48 ≤ c && c ≤ 57

/-- Accumulate decimal digits up to the first byte that is not a digit. -/
def atoiDigits : List Nat → Nat → Nat
  | [], acc => acc
  | c :: cs, acc => if isDigit c then atoiDigits cs (acc * 10 + (c - 48)) else acc

/-- The library function `atoi` on a C string given by its bytes (a zero byte, like any
other non-digit, ends the number): skip white space, read an optional sign, read the
digits.  A value past `INT_MAX` is clamped, as `strtol` does. -/
def atoi (str : List Nat) : Int :=
  let t := str.dropWhile isSpace
  if t.head? = some 45 then -((min (atoiDigits t.tail 0) 2147483648 : Nat) : Int)
  else if t.head? = some 43 then ((min (atoiDigits t.tail 0) 2147483647 : Nat) : Int)
  else ((min (atoiDigits t 0) 2147483647 : Nat) : Int)

/-! ## `readClientBuf` -/

/-- One pass through the body of the `while (true)` loop of `readClientBuf`.  The
Boolean is `true` when the pass leaves the loop through `break`.  The values the
statics take along the way are numbered (`readLen1`, `readLen2`, ...); each exit writes
them back into the state.  Offsets into the client buffer are taken with `Int.toNat`. -/
def videoStep (buffSize : Nat) (s : Muxer) (buf : List Nat) : Bool × Muxer × List Nat :=
  if s.jEnd < s.readLen then
    -- a saved partial mjpeg header is copied in front of the buffer
    let buf1 := if s.hdrOffset > 0 then
        memWrite (memmove buf s.hdrOffset.toNat 0 buffSize) 0
          (memRead s.mjpegHdrStr 0 s.hdrOffset.toNat)
      else buf
    let readLen1 := if s.hdrOffset > 0 then toInt32 (s.readLen + s.hdrOffset) else s.readLen
    let jEnd1 : Int := if s.hdrOffset > 0 then 0 else s.jEnd
    let hdrOffset1 : Int := if s.hdrOffset > 0 then 0 else s.hdrOffset
    -- less than a whole mjpeg header left in the buffer
    let hdrOffset2 := if (MJPEG_HDR : Int) > readLen1 - jEnd1 then toInt32 (readLen1 - jEnd1)
      else hdrOffset1
    if (MJPEG_HDR : Int) > readLen1 - jEnd1 ∧ hdrOffset2 > 0 then
      (true,
       { s with mjpegHdrStr := memWrite s.mjpegHdrStr 0 (memRead buf1 jEnd1.toNat hdrOffset2.toNat),
                readLen := toInt32 (readLen1 - hdrOffset2), hdrOffset := hdrOffset2,
                jEnd := jEnd1 },
       buf1)
    else
      let jStart1 := toInt32 (jEnd1 + LENGTH_OFFSET)
      if jStart1 > readLen1 then
        (true,
         { s with jStart := jStart1, jEnd := toInt32 (readLen1 - jStart1),
                  readLen := toInt32 (readLen1 - jStart1), hdrOffset := hdrOffset2 },
         buf1)
      else
        -- extract jpeg size
        let hdr := memWrite (memWrite s.mjpegHdrStr 0 (memRead buf1 jStart1.toNat 10)) 10 [0]
        let jpegSize := toUInt32 (atoi hdr)
        if jpegSize = 0 then
          (true,
           { s with mjpegHdrStr := hdr, jStart := 0, jEnd := 0, iPtr := 0, hdrOffset := 0,
                    readLen := 0 },
           buf1)
        else
          let jStart2 := toInt32 (jStart1 + REMAINDER_OFFSET)
          -- create AVI header for jpeg
          let buf2 := memWrite (memWrite buf1 jEnd1.toNat dcBuf) (jEnd1.toNat + 4)
            (littleEndian jpegSize)
          -- shift jpeg data so starts after avi header
          let readLen2 := toInt32 (readLen1 - ((MJPEG_HDR - CHUNK_HDR : Nat) : Int))
          let buf3 := memmove buf2 (jEnd1.toNat + CHUNK_HDR) jStart2.toNat
            (readLen2 - jEnd1).toNat
          -- determine end of this jpeg
          let jEnd2 := toInt32 (jEnd1 + CHUNK_HDR + jpegSize)
          (decide (jEnd2 > readLen2),
           { buildIdx s jpegSize with
               mjpegHdrStr := hdr, jStart := jStart2, framePtr := (s.framePtr + 1) % 65536,
               readLen := readLen2, hdrOffset := hdrOffset2,
               jEnd := if jEnd2 > readLen2 then toInt32 (jEnd2 - readLen2) else jEnd2 },
           buf3)
  else
    -- for jpeg bigger than buffer
    (true, { s with jEnd := toInt32 (s.jEnd - s.readLen) }, buf)

/-- The `while (true)` loop of `readClientBuf`, at most `fuel` passes; `none` when the
passes run out before a `break`. -/
def videoLoop (buffSize : Nat) : Nat → Muxer → List Nat → Option (Muxer × List Nat)
  | 0, _, _ => none
  | fuel + 1, s, buf =>
    match videoStep buffSize s buf with
    | (true, s1, buf1) => some (s1, buf1)
    | (false, s1, buf1) => videoLoop buffSize fuel s1 buf1

/-- The end of file branch of `readClientBuf`: the next slice of the index. -/
def indexSlice (s : Muxer) (clientBuf : List Nat) (buffSize : Nat) : Nat × Muxer × List Nat :=
  if toUInt32 ((s.indexLen : Int) - s.iPtr) > buffSize then
    (buffSize, { s with iPtr := toInt32 (s.iPtr + buffSize) },
     memWrite clientBuf 0 (memRead s.idxBuf s.iPtr.toNat buffSize))
  else
    let sendLen := toUInt32 ((s.indexLen : Int) - s.iPtr)
    (sendLen, { s with theEnd := true },
     memWrite clientBuf 0 (memRead s.idxBuf s.iPtr.toNat sendLen))

/-- The result of one call: the returned byte count, the state, the clip file handle and
the client buffer. -/
structure CallResult where
  ret : Nat
  state : Muxer
  fh : File
  clientBuf : List Nat
deriving DecidableEq, Repr

/-- The video part of `readClientBuf` (from `// process video file` on): load a cluster,
then either send index data or run the loop over the cluster.  The loop is given
`cluster.length + MJPEG_HDR` passes, more than it can use on a cluster of that length
while no integer wraps. -/
def processVideo (s : Muxer) (fh : File) (clientBuf : List Nat) (buffSize : Nat) :
    Option CallResult :=
  let cluster := if fh.available != 0 then fh.readBytes buffSize else []
  let fh := if fh.available != 0 then fh.advance buffSize else fh
  let clientBuf := memWrite clientBuf 0 cluster
  let s := { s with readLen := toInt32 cluster.length }
  if toInt32 cluster.length = 0 then
    let r := indexSlice s clientBuf buffSize
    some ⟨r.1, r.2.1, fh, r.2.2⟩
  else
    match videoLoop buffSize (cluster.length + MJPEG_HDR) s clientBuf with
    | none => none
    | some (s, clientBuf) =>
      if s.readLen < 0 then some ⟨toUInt32 (s.jStart - LENGTH_OFFSET), s, fh, clientBuf⟩
      else some ⟨toUInt32 s.readLen, s, fh, clientBuf⟩

/-- The function `readClientBuf`. -/
def readClientBuf (s : Muxer) (fh : File) (clientBuf : List Nat) (buffSize : Nat) :
    Option CallResult :=
  if s.theEnd then
    some ⟨0, { s with theEnd := false, jStart := 0, jEnd := 0, iPtr := 0, hdrOffset := 0 },
          fh, clientBuf⟩
  else if s.doAVI then
    if s.doAVIheader then
      let r := buildAVIhdr { s with framePtr := 0 } clientBuf
      some ⟨r.1, r.2.1, fh, r.2.2⟩
    else if s.haveSoundFile then
      let audio := s.wavFile.readBytes RAMSIZE
      let s := { s with wavFile := s.wavFile.advance RAMSIZE }
      let clientBuf := memWrite clientBuf 0 audio
      if audio.length != 0 then some ⟨audio.length, s, fh, clientBuf⟩
      else processVideo { s with haveSoundFile := false } fh clientBuf buffSize
    else processVideo s fh clientBuf buffSize
  else
    some ⟨(fh.readBytes buffSize).length, s, fh.advance buffSize,
          memWrite clientBuf 0 (fh.readBytes buffSize)⟩

/-! ## Clips as the recorder stores them -/

/-- The number a list of decimal digits (most significant first) denotes, on top of `acc`. -/
def digitsValue (acc : Nat) (ds : List Nat) : Nat := ds.foldl (fun a d => a * 10 + d) acc

/-- The `k` low decimal digits of `n`, most significant first. -/
def decDigits : Nat → Nat → List Nat
  | 0, _ => []
  | k + 1, n => decDigits k (n / 10) ++ [n % 10]

/-- Digits to characters, leading zeros printed as blanks (the last digit always
printed). -/
def blankZeros : List Nat → List Nat
  | [] => []
  | [d] => [48 + d]
  | d :: e :: ds => if d = 0 then 32 :: blankZeros (e :: ds) else (d :: e :: ds).map (48 + ·)

/-- The ten characters that `%10u` prints for a 32-bit value. -/
def format10u (n : Nat) : List Nat := blankZeros (decDigits 10 n)

/-- The text `snprintf(part_buf, 64, _STREAM_PART, jpg_len)` produces. -/
def streamPart (jpgLen : Nat) : List Nat := streamPartHead ++ format10u jpgLen ++ streamPartTail

/-- The framing block in front of a JPEG of `jpgLen` bytes: boundary, then part header. -/
def framingBlock (jpgLen : Nat) : List Nat := _STREAM_BOUNDARY ++ streamPart jpgLen

/-- One stored frame: framing block, then the JPEG. -/
def frameBytes (jpeg : List Nat) : List Nat := framingBlock jpeg.length ++ jpeg

/-- The stored clip: the frames in order, then one trailing boundary. -/
def clipBytes : List (List Nat) → List Nat
  | [] => _STREAM_BOUNDARY
  | jpeg :: rest => frameBytes jpeg ++ clipBytes rest

/-- The AVI chunk for one frame: `00dc`, the size in little endian, the JPEG. -/
def aviChunk (jpeg : List Nat) : List Nat := dcBuf ++ littleEndian jpeg.length ++ jpeg

/-- The `movi` video data for a clip: one chunk per frame, in order. -/
def aviChunks : List (List Nat) → List Nat
  | [] => []
  | jpeg :: rest => aviChunk jpeg ++ aviChunks rest

/-! ## Sessions: successive calls of `readClientBuf` -/

/-- The bytes handed to the caller by a call: the first `ret` bytes of the buffer. -/
def CallResult.output (r : CallResult) : List Nat := r.clientBuf.take r.ret

/-- The results of `n` successive calls of `readClientBuf` (the caller keeps passing the
same buffer); the list stops early at a call whose loop does not come to an end. -/
def runCalls (buffSize : Nat) : Nat → Muxer → File → List Nat → List CallResult
  | 0, _, _, _ => []
  | n + 1, s, fh, clientBuf =>
    match readClientBuf s fh clientBuf buffSize with
    | none => []
    | some r => r :: runCalls buffSize n r.state r.fh r.clientBuf

/-- The session state right after `isAVI` accepted a clip of `fhSize` bytes with the
given metadata and no companion audio, from the program's initial state. -/
def startVideoOnly (frameType fps frameCnt : Int) (fhSize : Nat) : Muxer :=
  (isAVI Muxer.init frameType fps 0 frameCnt fhSize none).2

/-- The returned byte counts of the first `n` calls of an upload of the clip `frames`
(declared frame count `frames.length`, no audio) with cluster size `buffSize`; `cap` is
the size of the caller's buffer. -/
def sessionReturns (frames : List (List Nat)) (buffSize cap n : Nat) : List Nat :=
  (runCalls buffSize n (startVideoOnly 8 25 frames.length (clipBytes frames).length)
    ⟨clipBytes frames, 0⟩ (List.replicate cap 0)).map CallResult.ret

/-! ## Auxiliary notions for the proofs -/

/-- The state after the pass of the loop that turns the framing block of a JPEG of `n`
bytes, found at buffer offset `a` with `y` bytes of the cluster behind it, into a chunk
header. -/
def afterHeader (s : Muxer) (a n y : Nat) : Muxer :=
  { buildIdx s n with
    mjpegHdrStr := memWrite (memWrite s.mjpegHdrStr 0 (format10u n)) 10 [0]
    jStart := ((a + 92 : Nat) : Int)
    framePtr := (s.framePtr + 1) % 65536
    readLen := ((a + 8 + y : Nat) : Int)
    hdrOffset := 0
    jEnd := if n > y then ((n - y : Nat) : Int) else ((a + 8 + n : Nat) : Int) }

/-- The index part of the state: buffer, write cursor, running offset. -/
def idxOf (s : Muxer) : List Nat × Nat × Nat := (s.idxBuf, s.idxPtr, s.idxOffset)

/-- The state after `buildIdx` has been called for each JPEG of `frames`, in order. -/
def buildIdxAll (s : Muxer) : List (List Nat) → Muxer
  | [] => s
  | jpeg :: rest => buildIdxAll (buildIdx s jpeg.length) rest

/-- Two states agree on everything the video loop leaves alone. -/
def SameSession (s t : Muxer) : Prop :=
  t.doAVI = s.doAVI ∧ t.doAVIheader = s.doAVIheader ∧ t.haveSoundFile = s.haveSoundFile ∧
  t.theEnd = s.theEnd ∧ t.iPtr = s.iPtr ∧ t.indexLen = s.indexLen ∧ t.frameCnt = s.frameCnt ∧
  t.aviHeader = s.aviHeader ∧ t.audSize = s.audSize ∧ t.fileSize = s.fileSize ∧
  t.frameType = s.frameType ∧ t.FPS = s.FPS ∧ t.aviOn = s.aviOn ∧ t.wavFile = s.wavFile

/-- A cluster that ends `m` bytes into `clipBytes frames` cuts no framing block and
not the trailing boundary: it ends inside or right behind a JPEG, or at the end of
the clip. -/
def CutOK : Nat → List (List Nat) → Prop
  | m, [] => m = 36
  | m, jpeg :: rest => 92 ≤ m ∧ (m ≤ 92 + jpeg.length ∨ CutOK (m - 92 - jpeg.length) rest)

/-- The video-transform stage: successive calls of `readClientBuf` as long as the clip
file has bytes left (at most `n` calls), with the concatenation of what the calls
handed out.  The result is `none` when `n` calls do not exhaust the file or a call
does not return. -/
def videoStage (buffSize : Nat) :
    Nat → Muxer → File → List Nat → Option (List Nat × Muxer × File × List Nat)
  | 0, s, fh, clientBuf => if fh.available = 0 then some ([], s, fh, clientBuf) else none
  | n + 1, s, fh, clientBuf =>
    if fh.available = 0 then some ([], s, fh, clientBuf)
    else
      match readClientBuf s fh clientBuf buffSize with
      | none => none
      | some r =>
        match videoStage buffSize n r.state r.fh r.clientBuf with
        | none => none
        | some (out, rest) => some (r.output ++ out, rest)

/-- A session that is about to read the first cluster of its clip: AVI conversion on,
header sent, no audio (left), and the statics of `readClientBuf` at their initial
values. -/
def VideoReady (s : Muxer) : Prop :=
  s.theEnd = false ∧ s.doAVI = true ∧ s.doAVIheader = false ∧ s.haveSoundFile = false ∧
  s.jEnd = 0 ∧ s.hdrOffset = 0

/-- With clusters of `b` bytes, no framing block of the frames `frames`, stored from file
offset `off` on, and not the trailing boundary behind them, lies across a cluster
border: the first and the last byte of each are in the same cluster. -/
def NoStraddle (b : Nat) : Nat → List (List Nat) → Prop
  | off, [] => off / b = (off + 35) / b
  | off, jpeg :: rest =>
    off / b = (off + 91) / b ∧ NoStraddle b (off + 92 + jpeg.length) rest

/-- A well-formed clip: every JPEG is non-empty and the stored clip stays
below 2 GB (`readLen`, `jStart`, `jEnd` are 32-bit `int`s). -/
def WellFormed (frames : List (List Nat)) : Prop :=
  (∀ jpeg ∈ frames, 0 < jpeg.length) ∧ (clipBytes frames).length < 2147483000

instance decVideoReady (s : Muxer) : Decidable (VideoReady s) := by
  unfold VideoReady; infer_instance

instance decNoStraddle (b : Nat) : ∀ (off : Nat) (frames : List (List Nat)),
    Decidable (NoStraddle b off frames)
  | off, [] => inferInstanceAs (Decidable (off / b = (off + 35) / b))
  | off, jpeg :: rest =>
    @instDecidableAnd _ _ _ (decNoStraddle b (off + 92 + jpeg.length) rest)

instance decWellFormed (frames : List (List Nat)) : Decidable (WellFormed frames) := by
  unfold WellFormed; infer_instance

/-- The state a session is in after its header call (`framePtr = 0`, then
`buildAVIhdr`). -/
def stateAfterHeader (s : Muxer) (clientBuf : List Nat) : Muxer :=
  (buildAVIhdr { s with framePtr := 0 } clientBuf).2.1

/-- A fresh AVI session without audio for a clip of `F` declared frames: `isAVI` has
accepted the clip and the statics of `readClientBuf` have their initial values. -/
def SessionStart (s : Muxer) (F : Nat) : Prop :=
  s.theEnd = false ∧ s.doAVI = true ∧ s.doAVIheader = true ∧ s.haveSoundFile = false ∧
  s.jEnd = 0 ∧ s.hdrOffset = 0 ∧ s.iPtr = 0 ∧ s.frameCnt = F


instance decSessionStart (s : Muxer) (F : Nat) : Decidable (SessionStart s F) := by
  unfold SessionStart; infer_instance

/-- The JPEG size a pass of the loop parses from the length field, when the pass gets
as far as `atoi` (the conditions of `videoStep` up to there). -/
def parsedSize (buffSize : Nat) (s : Muxer) (buf : List Nat) : Option Nat :=
  if s.jEnd < s.readLen then
    let buf1 := if s.hdrOffset > 0 then
        memWrite (memmove buf s.hdrOffset.toNat 0 buffSize) 0
          (memRead s.mjpegHdrStr 0 s.hdrOffset.toNat)
      else buf
    let readLen1 := if s.hdrOffset > 0 then toInt32 (s.readLen + s.hdrOffset) else s.readLen
    let jEnd1 : Int := if s.hdrOffset > 0 then 0 else s.jEnd
    let hdrOffset1 : Int := if s.hdrOffset > 0 then 0 else s.hdrOffset
    let hdrOffset2 := if (MJPEG_HDR : Int) > readLen1 - jEnd1 then toInt32 (readLen1 - jEnd1)
      else hdrOffset1
    if (MJPEG_HDR : Int) > readLen1 - jEnd1 ∧ hdrOffset2 > 0 then none
    else
      let jStart1 := toInt32 (jEnd1 + LENGTH_OFFSET)
      if jStart1 > readLen1 then none
      else
        some (toUInt32 (atoi
          (memWrite (memWrite s.mjpegHdrStr 0 (memRead buf1 jStart1.toNat 10)) 10 [0])))
  else none

/-- Within `fuel` passes the loop comes to a pass that parses a length field to zero. -/
def meetsZero (buffSize : Nat) : Nat → Muxer → List Nat → Prop
  | 0, _, _ => False
  | fuel + 1, s, buf =>
    parsedSize buffSize s buf = some 0 ∨
    ((videoStep buffSize s buf).1 = false ∧
      meetsZero buffSize fuel (videoStep buffSize s buf).2.1 (videoStep buffSize s buf).2.2)

instance decMeetsZero (buffSize : Nat) : ∀ (fuel : Nat) (s : Muxer) (buf : List Nat),
    Decidable (meetsZero buffSize fuel s buf)
  | 0, _, _ => isFalse (fun h => h)
  | fuel + 1, s, buf =>
    @instDecidableOr _ _ _
      (@instDecidableAnd _ _ _
        (decMeetsZero buffSize fuel (videoStep buffSize s buf).2.1 (videoStep buffSize s buf).2.2))

/-- The scan of the cluster that the call `readClientBuf s fh clientBuf buffSize` loads
comes to a length field that parses to zero. -/
def callMeetsZero (s : Muxer) (fh : File) (clientBuf : List Nat) (buffSize : Nat) : Prop :=
  meetsZero buffSize ((fh.readBytes buffSize).length + MJPEG_HDR)
    { s with readLen := toInt32 (fh.readBytes buffSize).length }
    (memWrite clientBuf 0 (fh.readBytes buffSize))

instance decCallMeetsZero (s : Muxer) (fh : File) (clientBuf : List Nat) (buffSize : Nat) :
    Decidable (callMeetsZero s fh clientBuf buffSize) := by
  unfold callMeetsZero; infer_instance

/-- What the abort leaves behind: nothing to send and the scan cursors at zero. -/
def Aborted (s : Muxer) : Prop :=
  s.readLen = 0 ∧ s.jStart = 0 ∧ s.jEnd = 0 ∧ s.iPtr = 0 ∧ s.hdrOffset = 0

/-- A stored clip of one frame whose length field reads `0000000000`, with five
bytes of data behind the framing block and the trailing boundary. -/
def zeroFieldClip : List Nat :=
  _STREAM_BOUNDARY ++ streamPartHead ++ List.replicate 10 48 ++ streamPartTail
    ++ [1, 2, 3, 4, 5] ++ _STREAM_BOUNDARY

/-- The results of the first `n` calls of an upload of the stored bytes `clip` with
declared frame count `frameCnt` and no audio. -/
def clipSession (clip : List Nat) (frameCnt : Nat) (buffSize cap n : Nat) : List CallResult :=
  runCalls buffSize n (startVideoOnly 8 25 frameCnt clip.length) ⟨clip, 0⟩ (List.replicate cap 0)

/-- The index block for three JPEGs of 1000, 1200 and 900 bytes. -/
def indexBlock3 : List Nat :=
  idx1Buf ++ littleEndian 48
    ++ (dcBuf ++ zeroBuf ++ littleEndian 4 ++ littleEndian 1000)
    ++ (dcBuf ++ zeroBuf ++ littleEndian 1012 ++ littleEndian 1200)
    ++ (dcBuf ++ zeroBuf ++ littleEndian 2220 ++ littleEndian 900)


/-- The sum of the returned byte counts up to the first call that returns 0. -/
def sumUntilZero : List Nat → Nat
  | [] => 0
  | r :: rest => if r = 0 then 0 else r + sumUntilZero rest

/-- The total the header announces for a clip without audio: 310 + 8 F + the JPEG sizes
+ 8 + 16 F. -/
def expectedTotal (frames : List (List Nat)) : Nat :=
  310 + 8 * frames.length + (frames.map List.length).sum + 8 + 16 * frames.length

/-- The output of the video stage of an upload of `frames` without audio, in clusters of
`buffSize` bytes into a buffer of `cap` bytes. -/
def videoStageOutput (frames : List (List Nat)) (buffSize cap : Nat) : Option (List Nat) :=
  (videoStage buffSize (clipBytes frames).length
    (stateAfterHeader (startVideoOnly 8 25 frames.length (clipBytes frames).length)
      (List.replicate cap 0))
    ⟨clipBytes frames, 0⟩ (List.replicate cap 0)).map Prod.fst

/-- The state a one-frame upload is in after the call that sent the last slice of its
index. -/
def stateAfterIndex : Muxer :=
  match (clipSession (clipBytes [[7]]) 1 200 300 3).getLast? with
  | some r => r.state
  | none => Muxer.init

/-! ## The AVI header fields -/

/-- A sequence of `memcpy`-style writes into one buffer, applied in order. -/
def applyWrites (buf : List Nat) (ws : List (Nat × List Nat)) : List Nat :=
  ws.foldl (fun b w => memWrite b w.1 w.2) buf

/-- The value `moviSize` of `buildAVIhdr` (a `size_t`). -/
def moviSize (s : Muxer) : Nat :=
  toUInt32 ((s.audSize : Int) + ((s.fileSize : Int)
      - ((streamBoundaryLen + streamPartLen : Nat) : Int) * s.frameCnt - streamBoundaryLen))

/-- The value `aviSize` of `buildAVIhdr` (a `size_t`). -/
def aviSize (s : Muxer) : Nat :=
  (moviSize s + AVI_HEADER_LEN + (CHUNK_HDR + IDX_ENTRY) * entryCount s) % 4294967296

/-- The writes of `buildAVIhdr` into the global `aviHeader`, in source order: offset and
bytes. -/
def headerWrites (s : Muxer) : List (Nat × List Nat) :=
  [(4, littleEndian (aviSize s)),
   (0x20, littleEndian (usecsPerFrame s.FPS)),
   (0x30, littleEndian s.frameCnt),
   (0x8C, littleEndian s.frameCnt),
   (0x84, littleEndian s.FPS),
   (0x12E, littleEndian (moviSize s + entryCount s * CHUNK_HDR + 4))]
  ++ (if s.haveSoundFile then [(0x38, littleEndian 2)] else [])
  ++ [(0x100, littleEndian s.audSize),
      (0x40, (frameSizeRow s.frameType).frameWidth),
      (0xA8, (frameSizeRow s.frameType).frameWidth),
      (0x44, (frameSizeRow s.frameType).frameHeight),
      (0xAC, (frameSizeRow s.frameType).frameHeight)]

/-- The number that a little-endian byte string denotes. -/
def leValue (bytes : List Nat) : Nat := bytes.foldr (fun b acc => b + 256 * acc) 0

/-- A one-frame upload with companion audio (six bytes of samples), run to its end, and
then the header call of a second upload of the same clip without audio. -/
def headerOfSecondUpload : Option CallResult :=
  match (runCalls 200 5 (isAVI Muxer.init 8 25 0 1 129 (some ⟨List.replicate 50 0, 0⟩)).2
      ⟨clipBytes [[7]], 0⟩ (List.replicate 300 0)).getLast? with
  | some r => readClientBuf (isAVI r.state 8 25 0 1 129 none).2 ⟨clipBytes [[7]], 0⟩ r.clientBuf 200
  | none => none

/-! ## Sound recording: `onSampleISR` and `noiseFilter` -/

/-- The part of the recorder's state that the timer interrupt touches: the ring `ramBuf`
(`RAMSIZE` slots) and its write cursor `ramPtr` (a `uint32_t`). -/
structure SampleRing where
  ramBuf : List Nat
  ramPtr : Nat
deriving DecidableEq, Repr

/-- The value `ramPtr` has after `if (ramPtr++ >= RAMSIZE) ramPtr = 0;`, which is the slot
the tick then writes. -/
def nextSlot (ramPtr : Nat) : Nat :=
  if ramPtr ≥ RAMSIZE then 0 else (ramPtr + 1) % 4294967296

/-- The function `onSampleISR`, one timer tick; `raw` is what `adc1_get_raw` returned.
The result is `none` when the slot written lies outside `ramBuf`. -/
def onSampleISR (r : SampleRing) (raw : Nat) : Option SampleRing :=
  let ramPtr := nextSlot r.ramPtr
  if ramPtr < r.ramBuf.length then
    some { ramBuf := r.ramBuf.set ramPtr ((raw >>> 4) % 256), ramPtr := ramPtr }
  else none

/-- The ring as `startAudio` leaves it: `ramPtr = 0`. -/
def SampleRing.start : SampleRing := ⟨List.replicate RAMSIZE 0, 0⟩

/-- Successive timer ticks, one per raw sample. -/
def sampleTicks : List Nat → SampleRing → Option SampleRing
  | [], r => some r
  | raw :: rest, r =>
    match onSampleISR r raw with
    | some r1 => sampleTicks rest r1
    | none => none

/-- The state of `noiseFilter`: the sample buffer `psramBuf`, the global `bufferPointer`
(a `uint8_t` that keeps its value between recordings) and the local
`integratingBuffer` of `bins - 1 = 7` bytes, which the function does not initialise. -/
structure FilterState where
  psramBuf : List Nat
  bufferPointer : Nat
  integratingBuffer : List Nat
deriving DecidableEq, Repr

/-- The constant `bins` of `noiseFilter`. -/
def bins : Nat := 8

/-- The body of the `for` loop of `noiseFilter` for the sample index `s`.
`filteredSample` is a `uint16_t`, the stored value a `uint8_t`. -/
def noiseFilterStep (f : FilterState) (s : Nat) : FilterState :=
  let bufferPointer := (f.bufferPointer + 1) % (bins - 1)
  let integratingBuffer := f.integratingBuffer.set bufferPointer (f.psramBuf.getD s 0)
  let filteredSample := (List.range (bins - 1)).foldl
    (fun acc k => (acc + integratingBuffer.getD k 0) % 65536)
    (integratingBuffer.getD bufferPointer 0)
  { psramBuf := f.psramBuf.set s ((filteredSample / bins) % 256),
    bufferPointer := bufferPointer,
    integratingBuffer := integratingBuffer }

/-- The `for` loop of `noiseFilter`: `n` passes from the sample index `s` on. -/
def noiseFilterLoop : Nat → Nat → FilterState → FilterState
  | 0, _, f => f
  | n + 1, s, f => noiseFilterLoop n (s + 1) (noiseFilterStep f s)

/-- The function `noiseFilter`: the loop runs for `s` from `WAV_HEADER_LEN` up to
`psramPtr - 1`. -/
def noiseFilter (psramPtr : Nat) (f : FilterState) : FilterState :=
  noiseFilterLoop (psramPtr - WAV_HEADER_LEN) WAV_HEADER_LEN f

/-- The weighted window sum of the raw samples `x` at index `s`: the current
sample twice, the six before it once. -/
def windowSum (x : List Nat) (s : Nat) : Nat :=
  2 * x.getD s 0 + x.getD (s - 1) 0 + x.getD (s - 2) 0 + x.getD (s - 3) 0 + x.getD (s - 4) 0
    + x.getD (s - 5) 0 + x.getD (s - 6) 0

/-- What the loop maintains before the pass for index `s`: the samples from `s` on are
still raw, and the integrating buffer holds the raw samples before `s` (as far back as
the loop has run, at most seven) behind the cursor. -/
def FilterInv (x : List Nat) (s : Nat) (f : FilterState) : Prop :=
  f.integratingBuffer.length = 7 ∧ f.psramBuf.length = x.length ∧
  (∀ j, s ≤ j → f.psramBuf.getD j 0 = x.getD j 0) ∧
  (∀ d, d < 7 → 44 + d < s →
    f.integratingBuffer.getD ((f.bufferPointer + 7 - d) % 7) 0 = x.getD (s - 1 - d) 0)

/-- The byte stream a session hands to the caller in its first `n` calls: the outputs of
the calls, one after the other (clip `frames`, declared frame count `frames.length`, no
audio, cluster size `buffSize`, caller's buffer of `cap` bytes). -/
def sessionStream (frames : List (List Nat)) (buffSize cap n : Nat) : List Nat :=
  ((runCalls buffSize n (startVideoOnly 8 25 frames.length (clipBytes frames).length)
    ⟨clipBytes frames, 0⟩ (List.replicate cap 0)).map CallResult.output).flatten

/-! # Lemmas and theorems -/

/-! ## Machine integers -/

theorem toInt32_eq (x : Int) (h1 : -2147483648 ≤ x) (h2 : x < 2147483648) : toInt32 x = x := by
  unfold toInt32; omega

theorem toUInt32_natCast (n : Nat) (h : n < 4294967296) : toUInt32 (n : Int) = n := by
  unfold toUInt32; omega

/-! ## Raw memory -/

theorem memWrite_mid (A B C D : List Nat) (h : B.length = D.length) :
    memWrite (A ++ B ++ C) A.length D = A ++ D ++ C := by
  simp [memWrite, ← h]

theorem memRead_mid (A B C : List Nat) : memRead (A ++ B ++ C) A.length B.length = B := by
  simp [memRead]

theorem length_littleEndian (v : Nat) : (littleEndian v).length = 4 := by
  simp [littleEndian, littleEndianLoop]

/-! ## The length field: `%10u` against `atoi` -/

theorem length_decDigits (k n : Nat) : (decDigits k n).length = k := by
  induction k generalizing n with
  | zero => rfl
  | succ k ih => simp [decDigits, ih]

theorem length_blankZeros : ∀ ds : List Nat, (blankZeros ds).length = ds.length
  | [] => rfl
  | [_] => rfl
  | d :: e :: ds => by
    unfold blankZeros
    split
    · simp [length_blankZeros (e :: ds)]
    · simp

theorem length_format10u (n : Nat) : (format10u n).length = 10 := by
  simp [format10u, length_blankZeros, length_decDigits]

theorem decDigits_lt (k n : Nat) : ∀ d ∈ decDigits k n, d < 10 := by
  induction k generalizing n with
  | zero => simp [decDigits]
  | succ k ih =>
    intro d hd
    simp only [decDigits, List.mem_append, List.mem_singleton] at hd
    rcases hd with hd | hd
    · exact ih _ d hd
    · omega

theorem digitsValue_decDigits (k n : Nat) : digitsValue 0 (decDigits k n) = n % 10 ^ k := by
  induction k generalizing n with
  | zero => simp [decDigits, digitsValue, Nat.mod_one]
  | succ k ih =>
    simp only [decDigits, digitsValue, List.foldl_append, List.foldl_cons, List.foldl_nil]
    have := ih (n / 10)
    simp only [digitsValue] at this
    rw [this, Nat.pow_succ', Nat.mod_mul]
    omega

theorem atoiDigits_digits (ds : List Nat) (h : ∀ d ∈ ds, d < 10) (acc : Nat) (t : List Nat) :
    atoiDigits (ds.map (48 + ·) ++ 0 :: t) acc = digitsValue acc ds := by
  induction ds generalizing acc with
  | nil => simp [atoiDigits, isDigit, digitsValue]
  | cons d ds ih =>
    have hd : d < 10 := h d (List.mem_cons_self _ _)
    have hdig : isDigit (48 + d) = true := by simp [isDigit]; omega
    rw [List.map_cons, List.cons_append, atoiDigits, if_pos hdig,
      ih (fun e he => h e (List.mem_cons_of_mem _ he))]
    simp [digitsValue]

theorem digitsValue_zero_cons (e : Nat) (ds : List Nat) :
    digitsValue 0 (0 :: e :: ds) = digitsValue 0 (e :: ds) := by
  simp [digitsValue]

theorem atoi_blankZeros :
    ∀ (ds : List Nat), (∀ d ∈ ds, d < 10) → ∀ t : List Nat,
      atoi (blankZeros ds ++ 0 :: t) = ((min (digitsValue 0 ds) 2147483647 : Nat) : Int)
  | [], _, t => by
    simp [blankZeros, atoi, isSpace, atoiDigits, isDigit, digitsValue]
  | [d], h, t => by
    have hd : d < 10 := h d (List.mem_cons_self _ _)
    have h1 : isSpace (48 + d) = false := by simp [isSpace]; omega
    have h2 : isDigit (48 + d) = true := by simp [isDigit]; omega
    have h3 : ¬ (48 + d = 45) := by omega
    have h4 : ¬ (48 + d = 43) := by omega
    have h5 : 48 + d ≤ 57 := by omega
    simp [blankZeros, atoi, List.dropWhile, h1, h2, h3, h4, h5, atoiDigits, isDigit, digitsValue]
  | d :: e :: ds, h, t => by
    unfold blankZeros
    split
    · next hz =>
      subst hz
      have ih := atoi_blankZeros (e :: ds) (fun x hx => h x (List.mem_cons_of_mem _ hx)) t
      have hs : isSpace 32 = true := by decide
      rw [digitsValue_zero_cons, ← ih]
      simp [atoi, List.dropWhile, hs]
    · next hz =>
      have hd : d < 10 := h d (List.mem_cons_self _ _)
      have h1 : isSpace (48 + d) = false := by simp [isSpace]; omega
      have h3 : ¬ (48 + d = 45) := by omega
      have h4 : ¬ (48 + d = 43) := by omega
      have key := atoiDigits_digits (d :: e :: ds) h 0 t
      simp only [List.map_cons, List.cons_append] at key
      simp only [atoi, List.map_cons, List.cons_append, List.dropWhile, h1, List.head?_cons,
        Option.some.injEq, h3, h4, if_false, List.append_eq, key]

theorem atoi_format10u (n : Nat) (h : n < 2147483648) (t : List Nat) :
    atoi (format10u n ++ 0 :: t) = (n : Int) := by
  rw [format10u, atoi_blankZeros _ (decDigits_lt 10 n), digitsValue_decDigits]
  have : n % 10 ^ 10 = n := Nat.mod_eq_of_lt (by omega)
  rw [this]
  have : min n 2147483647 = n := by omega
  rw [this]

theorem memWrite_at (A C D : List Nat) (off : Nat) (h : off = A.length) :
    memWrite (A ++ C) off D = A ++ D ++ C.drop D.length := by
  subst h
  simp [memWrite, List.take_append_eq_append_take, List.drop_append_eq_append_drop]

theorem memRead_at (A C : List Nat) (off k : Nat) (h : off = A.length) :
    memRead (A ++ C) off k = C.take k := by
  subst h
  simp [memRead]

theorem memWrite_twice (A C D E : List Nat) :
    memWrite (memWrite (A ++ C) A.length D) (A.length + D.length) E
      = memWrite (A ++ C) A.length (D ++ E) := by
  rw [memWrite_at A C D A.length rfl,
    memWrite_at (A ++ D) (C.drop D.length) E (A.length + D.length) (by simp),
    memWrite_at A C (D ++ E) A.length rfl]
  simp [Nat.add_comm]

/-- Writing the 8-byte chunk header over the start of a 92-byte block `F` and moving
what follows up behind it. -/
theorem buf_header (A F Y R hd8 : List Nat) (hF : F.length = 92) (h8 : hd8.length = 8) :
    ∃ R', memmove (memWrite (A ++ F ++ Y ++ R) A.length hd8) (A.length + 8) (A.length + 92)
        (Y.length + 8) = A ++ hd8 ++ Y ++ R' ∧ R'.length = R.length + 84 := by
  have e1 : memWrite (A ++ F ++ Y ++ R) A.length hd8 = (A ++ hd8) ++ (F.drop 8 ++ Y ++ R) := by
    have := memWrite_at A (F ++ Y ++ R) hd8 A.length rfl
    simp only [List.append_assoc] at this ⊢
    rw [this, h8]
    simp [List.drop_append_eq_append_drop, hF]
  rw [e1]
  unfold memmove
  have e2 : memRead (A ++ hd8 ++ (F.drop 8 ++ Y ++ R)) (A.length + 92) (Y.length + 8)
      = Y ++ R.take 8 := by
    have : A ++ hd8 ++ (F.drop 8 ++ Y ++ R) = (A ++ hd8 ++ F.drop 8) ++ (Y ++ R) := by simp
    rw [this, memRead_at _ _ _ _ (by simp [h8, hF])]
    simp [List.take_append_eq_append_take]
  rw [e2]
  have e3 := memWrite_at (A ++ hd8) (F.drop 8 ++ Y ++ R) (Y ++ R.take 8) (A.length + 8)
    (by simp [h8])
  rw [e3]
  refine ⟨R.take 8 ++ (F.drop 8 ++ Y ++ R).drop (Y ++ R.take 8).length, by simp, ?_⟩
  simp [hF]
  omega

/-! ## The framing block -/

theorem length_framingBlock (n : Nat) : (framingBlock n).length = 92 := by
  simp [framingBlock, streamPart, _STREAM_BOUNDARY, streamPartHead, PART_BOUNDARY,
    streamPartTail, length_format10u]

theorem framingBlock_field (n : Nat) (Y R : List Nat) (A : List Nat) :
    memRead (A ++ framingBlock n ++ Y ++ R) (A.length + 78) 10 = format10u n := by
  have : A ++ framingBlock n ++ Y ++ R
      = (A ++ (_STREAM_BOUNDARY ++ streamPartHead))
          ++ (format10u n ++ (streamPartTail ++ Y ++ R)) := by
    simp [framingBlock, streamPart]
  rw [this, memRead_at _ _ _ _ (by simp [_STREAM_BOUNDARY, streamPartHead, PART_BOUNDARY])]
  simp [List.take_append_eq_append_take, length_format10u]

theorem atoi_field (str : List Nat) (n : Nat) (h : n < 2147483648) :
    atoi (memWrite (memWrite str 0 (format10u n)) 10 [0]) = (n : Int) := by
  have : memWrite (memWrite str 0 (format10u n)) 10 [0]
      = format10u n ++ 0 :: (memWrite str 0 (format10u n)).drop 11 := by
    simp [memWrite, List.take_append_eq_append_take, length_format10u]
  rw [this, atoi_format10u n h]

/-! ## One pass of the loop -/

/-- A pass that finds a whole framing block at `jEnd`, with a non-zero length field,
writes the chunk header, records the index entry and closes the gap. -/
theorem videoStep_header (b : Nat) (s : Muxer) (A Y R : List Nat) (n : Nat)
    (hj : s.jEnd = (A.length : Int)) (hr : s.readLen = ((A.length + 92 + Y.length : Nat) : Int))
    (hh : s.hdrOffset = 0) (hn0 : 0 < n)
    (hb : A.length + 92 + Y.length < 2147483000) (hb2 : A.length + n < 2147483000) :
    ∃ R', videoStep b s (A ++ framingBlock n ++ Y ++ R)
        = (decide (n > Y.length), afterHeader s A.length n Y.length,
           A ++ (dcBuf ++ littleEndian n) ++ Y ++ R') ∧ R'.length = R.length + 84 := by
  have c1 : s.jEnd < s.readLen := by rw [hj, hr]; push_cast; omega
  have c2 : ¬ (s.hdrOffset > 0) := by rw [hh]; decide
  have c3 : ¬ ((MJPEG_HDR : Int) > s.readLen - s.jEnd) := by
    rw [hj, hr]; simp only [MJPEG_HDR, LENGTH_OFFSET, REMAINDER_OFFSET]; push_cast; omega
  have c4 : toInt32 (s.jEnd + (LENGTH_OFFSET : Nat)) = ((A.length + 78 : Nat) : Int) := by
    rw [hj, toInt32_eq] <;> simp only [LENGTH_OFFSET] <;> push_cast <;> omega
  have c5 : toUInt32 (n : Int) = n := toUInt32_natCast n (by omega)
  have c6 : toInt32 (((A.length + 78 : Nat) : Int) + (REMAINDER_OFFSET : Nat))
      = ((A.length + 92 : Nat) : Int) := by
    clear c4
    rw [toInt32_eq] <;> simp only [REMAINDER_OFFSET] <;> push_cast <;> omega
  have c7 : toInt32 (s.readLen - ((MJPEG_HDR - CHUNK_HDR : Nat) : Int))
      = ((A.length + 8 + Y.length : Nat) : Int) := by
    clear c4 c6
    rw [hr, toInt32_eq] <;> simp only [MJPEG_HDR, LENGTH_OFFSET, REMAINDER_OFFSET, CHUNK_HDR]
      <;> push_cast <;> omega
  have c8 : toInt32 (s.jEnd + (CHUNK_HDR : Nat) + (n : Nat))
      = ((A.length + 8 + n : Nat) : Int) := by
    clear c4 c6 c7
    rw [hj, toInt32_eq] <;> simp only [CHUNK_HDR] <;> push_cast <;> omega
  have c9 : ¬ (((A.length + 78 : Nat) : Int) > s.readLen) := by
    clear c4 c6 c7 c8
    rw [hr]; push_cast; omega
  have c10 : s.jEnd.toNat = A.length := by rw [hj]; simp
  have c11 : (((A.length + 8 + Y.length : Nat) : Int) - s.jEnd).toNat = Y.length + 8 := by
    clear c4 c6 c7 c8
    rw [hj]; push_cast; omega
  have c12 : (((A.length + 8 + n : Nat) : Int) > ((A.length + 8 + Y.length : Nat) : Int))
      ↔ n > Y.length := by
    clear c4 c6 c7 c8
    push_cast; omega
  have c13 : toInt32 (((A.length + 8 + n : Nat) : Int) - ((A.length + 8 + Y.length : Nat) : Int))
      = if n > Y.length then ((n - Y.length : Nat) : Int)
        else ((A.length + 8 + n : Nat) : Int) - ((A.length + 8 + Y.length : Nat) : Int) := by
    clear c4 c6 c7 c8
    split
    · rw [toInt32_eq] <;> push_cast <;> omega
    · rw [toInt32_eq] <;> push_cast <;> omega
  have hn0' : n ≠ 0 := by clear c4 c6 c7 c8 c13; omega
  have hF := length_framingBlock n
  obtain ⟨R', hR', hlen⟩ := buf_header A (framingBlock n) Y R (dcBuf ++ littleEndian n)
    hF (by simp [dcBuf, length_littleEndian])
  refine ⟨R', ?_, hlen⟩
  have hfield := framingBlock_field n Y R A
  have hatoi := atoi_field s.mjpegHdrStr n (by clear c4 c6 c7 c8 c13; omega)
  have hw : memWrite (memWrite (A ++ framingBlock n ++ Y ++ R) A.length dcBuf) (A.length + 4)
        (littleEndian n)
      = memWrite (A ++ framingBlock n ++ Y ++ R) A.length (dcBuf ++ littleEndian n) := by
    have e0 : A ++ framingBlock n ++ Y ++ R = A ++ (framingBlock n ++ Y ++ R) := by simp
    rw [e0]
    exact memWrite_twice A _ dcBuf (littleEndian n)
  unfold videoStep
  rw [if_pos c1]
  simp only [if_neg c2]
  simp only [c3, false_and, if_false, c4, c9, Int.toNat_ofNat, hfield, hatoi, c5, hn0', c6, c7,
    c8, c10, c11, c12, hw, afterHeader, hh]
  simp only [CHUNK_HDR, hR', c13]
  by_cases hny : n > Y.length
  · simp only [hny, if_true]
  · simp only [hny, if_false]

/-- A pass with `jEnd` at or past the end of the cluster: the whole cluster is JPEG data. -/
theorem videoStep_payload (b : Nat) (s : Muxer) (buf : List Nat) (h : ¬ s.jEnd < s.readLen) :
    videoStep b s buf = (true, { s with jEnd := toInt32 (s.jEnd - s.readLen) }, buf) := by
  unfold videoStep
  rw [if_neg h]

/-- A pass that finds fewer than 92 bytes left at `jEnd` saves them and leaves the loop. -/
theorem videoStep_carry (b : Nat) (s : Muxer) (buf : List Nat) (a m : Nat)
    (hj : s.jEnd = (a : Int)) (hr : s.readLen = ((a + m : Nat) : Int))
    (hh : s.hdrOffset = 0) (hm0 : 0 < m) (hm : m < 92) (hb : a + m < 2147483000) :
    videoStep b s buf
      = (true,
         { s with mjpegHdrStr := memWrite s.mjpegHdrStr 0 (memRead buf a m),
                  readLen := (a : Int), hdrOffset := (m : Int), jEnd := (a : Int) },
         buf) := by
  have c1 : s.jEnd < s.readLen := by rw [hj, hr]; push_cast; omega
  have c2 : ¬ (s.hdrOffset > 0) := by rw [hh]; decide
  have c3 : (MJPEG_HDR : Int) > s.readLen - s.jEnd := by
    rw [hj, hr]; simp only [MJPEG_HDR, LENGTH_OFFSET, REMAINDER_OFFSET]; push_cast; omega
  have c4 : toInt32 (s.readLen - s.jEnd) = (m : Int) := by
    clear c3
    rw [hj, hr, toInt32_eq] <;> push_cast <;> omega
  have c5 : (m : Int) > 0 := by clear c3 c4; omega
  have c6 : toInt32 (s.readLen - (m : Int)) = (a : Int) := by
    clear c3 c4
    rw [hr, toInt32_eq] <;> push_cast <;> omega
  have c7 : s.jEnd.toNat = a := by rw [hj]; simp
  unfold videoStep
  rw [if_pos c1]
  simp only [if_neg c2]
  simp only [c3, c4, c5, and_self, if_true, c6, c7, Int.toNat_ofNat]
  simp only [hj]

theorem afterHeader_readLen (s : Muxer) (a n y : Nat) :
    (afterHeader s a n y).readLen = ((a + 8 + y : Nat) : Int) := rfl

theorem afterHeader_hdrOffset (s : Muxer) (a n y : Nat) : (afterHeader s a n y).hdrOffset = 0 :=
  rfl

theorem afterHeader_jEnd_gt (s : Muxer) (a n y : Nat) (h : n > y) :
    (afterHeader s a n y).jEnd = ((n - y : Nat) : Int) := by
  simp [afterHeader, h]

theorem afterHeader_jEnd_le (s : Muxer) (a n y : Nat) (h : ¬ n > y) :
    (afterHeader s a n y).jEnd = ((a + 8 + n : Nat) : Int) := by
  simp only [afterHeader, h, if_false]

theorem afterHeader_idx (s : Muxer) (a n y : Nat) :
    idxOf (afterHeader s a n y) = idxOf (buildIdx s n) := rfl

theorem SameSession.refl (s : Muxer) : SameSession s s := by
  simp [SameSession]

theorem SameSession.trans {s t u : Muxer} (h1 : SameSession s t) (h2 : SameSession t u) :
    SameSession s u := by
  simp only [SameSession] at *
  obtain ⟨a1, a2, a3, a4, a5, a6, a7, a8, a9, a10, a11, a12, a13, a14⟩ := h1
  obtain ⟨b1, b2, b3, b4, b5, b6, b7, b8, b9, b10, b11, b12, b13, b14⟩ := h2
  exact ⟨b1.trans a1, b2.trans a2, b3.trans a3, b4.trans a4, b5.trans a5, b6.trans a6,
    b7.trans a7, b8.trans a8, b9.trans a9, b10.trans a10, b11.trans a11, b12.trans a12,
    b13.trans a13, b14.trans a14⟩

theorem afterHeader_same (s : Muxer) (a n y : Nat) : SameSession s (afterHeader s a n y) := by
  simp [SameSession, afterHeader, buildIdx]

theorem idxOf_buildIdx_congr {s t : Muxer} (h : idxOf s = idxOf t) (n : Nat) :
    idxOf (buildIdx s n) = idxOf (buildIdx t n) := by
  simp only [idxOf, Prod.mk.injEq] at h
  obtain ⟨h1, h2, h3⟩ := h
  simp only [idxOf, buildIdx, h1, h2, h3]

theorem idxOf_buildIdxAll_congr {s t : Muxer} (h : idxOf s = idxOf t) (fs : List (List Nat)) :
    idxOf (buildIdxAll s fs) = idxOf (buildIdxAll t fs) := by
  induction fs generalizing s t with
  | nil => simpa [buildIdxAll] using h
  | cons j rest ih => exact ih (idxOf_buildIdx_congr h j.length)

theorem length_clipBytes_cons (j : List Nat) (rest : List (List Nat)) :
    (clipBytes (j :: rest)).length = 92 + j.length + (clipBytes rest).length := by
  simp [clipBytes, frameBytes, length_framingBlock]
  omega

theorem length_clipBytes_nil : (clipBytes []).length = 36 := by
  simp [clipBytes, _STREAM_BOUNDARY, PART_BOUNDARY]

theorem clipBytes_take (j : List Nat) (rest : List (List Nat)) (m : Nat) (h : 92 ≤ m) :
    (clipBytes (j :: rest)).take m
      = framingBlock j.length ++ (j ++ clipBytes rest).take (m - 92) := by
  have h1 : (framingBlock j.length).take m = framingBlock j.length :=
    List.take_of_length_le (by rw [length_framingBlock]; exact h)
  simp only [clipBytes, frameBytes, List.append_assoc]
  rw [List.take_append_eq_append_take, h1, length_framingBlock]

/-! ## The loop over one cluster -/

theorem videoLoop_break {b f : Nat} {s s1 : Muxer} {buf buf1 : List Nat}
    (h : videoStep b s buf = (true, s1, buf1)) : videoLoop b (f + 1) s buf = some (s1, buf1) := by
  simp only [videoLoop, h]

theorem videoLoop_continue {b f : Nat} {s s1 : Muxer} {buf buf1 : List Nat}
    (h : videoStep b s buf = (false, s1, buf1)) :
    videoLoop b (f + 1) s buf = videoLoop b f s1 buf1 := by
  simp only [videoLoop, h]

theorem clipBytes_drop (j : List Nat) (rest : List (List Nat)) (m : Nat) (h : 92 ≤ m) :
    (clipBytes (j :: rest)).drop m = (j ++ clipBytes rest).drop (m - 92) := by
  have h1 : (framingBlock j.length).drop m = [] :=
    List.drop_of_length_le (by rw [length_framingBlock]; exact h)
  simp only [clipBytes, frameBytes, List.append_assoc]
  rw [List.drop_append_eq_append_drop, h1, length_framingBlock, List.nil_append]

theorem SameSession.setJEnd {s t : Muxer} (h : SameSession s t) (x : Int) :
    SameSession s { t with jEnd := x } := by
  simpa [SameSession] using h

theorem length_clipBytes_ge (fs : List (List Nat)) : 36 ≤ (clipBytes fs).length := by
  cases fs with
  | nil => rw [length_clipBytes_nil]
  | cons j rest => rw [length_clipBytes_cons]; omega

theorem videoLoop_frames (b : Nat) :
    ∀ (fs : List (List Nat)) (m : Nat) (A R : List Nat) (s : Muxer) (fuel : Nat),
      (∀ j ∈ fs, 0 < j.length) →
      CutOK m fs → 1 ≤ m → m ≤ (clipBytes fs).length → m < fuel →
      s.jEnd = (A.length : Int) → s.readLen = ((A.length + m : Nat) : Int) → s.hdrOffset = 0 →
      A.length + (clipBytes fs).length < 2147483000 →
      ∃ (s' : Muxer) (out pend R' : List Nat) (k : Nat),
        videoLoop b fuel s (A ++ (clipBytes fs).take m ++ R) = some (s', A ++ out ++ R') ∧
        s'.readLen = ((A.length + out.length : Nat) : Int) ∧
        out ++ pend ++ aviChunks (fs.drop k) = aviChunks fs ∧
        idxOf s' = idxOf (buildIdxAll s (fs.take k)) ∧
        SameSession s s' ∧
        out.length + R'.length = m + R.length ∧ out.length ≤ m ∧
        ((m = (clipBytes fs).length ∧ pend = [] ∧ k = fs.length) ∨
         (m < (clipBytes fs).length ∧ s'.hdrOffset = 0 ∧ s'.jEnd = (pend.length : Int) ∧
           (clipBytes fs).drop m = pend ++ clipBytes (fs.drop k))) := by
  intro fs
  induction fs with
  | nil =>
    intro m A R s fuel _ hcut hm1 hm hfuel hj hr hh hb
    simp only [CutOK] at hcut
    subst hcut
    obtain ⟨fuel', rfl⟩ : ∃ f, fuel = f + 1 := ⟨fuel - 1, by omega⟩
    have hstep := videoStep_carry b s (A ++ (clipBytes []).take 36 ++ R) A.length 36 hj hr hh
      (by omega) (by omega) (by omega)
    refine ⟨(videoStep b s (A ++ (clipBytes []).take 36 ++ R)).2.1, [], [],
      (clipBytes []).take 36 ++ R, 0, ?_, ?_, ?_, ?_, ?_, ?_, ?_, ?_⟩
    · rw [videoLoop_break hstep, hstep]; simp
    · rw [hstep]; simp
    · simp
    · rw [hstep]; simp [buildIdxAll, idxOf]
    · rw [hstep]; simp [SameSession]
    · simp [length_clipBytes_nil]
    · simp
    · left
      simp [length_clipBytes_nil]
  | cons j rest ih =>
    intro m A R s fuel hpos hcut hm1 hm hfuel hj hr hh hb
    simp only [CutOK] at hcut
    obtain ⟨h92, hcut'⟩ := hcut
    have hjpos : 0 < j.length := hpos j (List.mem_cons_self _ _)
    have hposr : ∀ x ∈ rest, 0 < x.length := fun x hx => hpos x (List.mem_cons_of_mem _ hx)
    have hlen := length_clipBytes_cons j rest
    have hrest36 := length_clipBytes_ge rest
    obtain ⟨fuel', rfl⟩ : ∃ f, fuel = f + 1 := ⟨fuel - 1, by omega⟩
    obtain ⟨Y, hY⟩ : ∃ Y, Y = (j ++ clipBytes rest).take (m - 92) := ⟨_, rfl⟩
    have hYlen : Y.length = m - 92 := by
      rw [hY, List.length_take, List.length_append]; omega
    have hbuf : A ++ (clipBytes (j :: rest)).take m ++ R
        = A ++ framingBlock j.length ++ Y ++ R := by
      rw [clipBytes_take j rest m h92, hY]; simp
    have hr' : s.readLen = ((A.length + 92 + Y.length : Nat) : Int) := by
      rw [hr, hYlen]; congr 1; omega
    obtain ⟨R1, hstep, hR1⟩ := videoStep_header b s A Y R j.length hj hr' hh hjpos (by omega) (by omega)
    rw [hbuf]
    have h1r := afterHeader_readLen s A.length j.length Y.length
    have h1h := afterHeader_hdrOffset s A.length j.length Y.length
    have h1g := afterHeader_jEnd_gt s A.length j.length Y.length
    have h1l := afterHeader_jEnd_le s A.length j.length Y.length
    have h1i := afterHeader_idx s A.length j.length Y.length
    have h1s := afterHeader_same s A.length j.length Y.length
    generalize afterHeader s A.length j.length Y.length = s1 at hstep h1r h1h h1g h1l h1i h1s
    have hout : (dcBuf ++ littleEndian j.length ++ Y).length = 8 + Y.length := by
      simp [dcBuf, length_littleEndian]; omega
    by_cases hc1 : j.length > Y.length
    · -- the JPEG runs past the end of the cluster
      have hYj : Y = j.take (m - 92) := by
        rw [hY, List.take_append_of_le_length (by omega)]
      simp only [hc1, decide_True] at hstep
      refine ⟨s1, dcBuf ++ littleEndian j.length ++ Y,
        j.drop (m - 92), R1, 1, ?_, ?_, ?_, ?_, ?_, ?_, ?_, ?_⟩
      · rw [videoLoop_break hstep]; simp
      · rw [h1r, hout]; congr 1; omega
      · simp [aviChunks, aviChunk, hYj]
      · rw [h1i]; simp [buildIdxAll]
      · exact h1s
      · rw [hout]; omega
      · rw [hout]; omega
      · right
        refine ⟨by omega, h1h, ?_, ?_⟩
        · rw [h1g hc1, List.length_drop, hYlen]
        · rw [clipBytes_drop j rest m h92, List.drop_append_of_le_length (by omega)]
          simp
    · by_cases hc2 : j.length = Y.length
      · -- the JPEG ends with the cluster
        have hYj : Y = j := by
          rw [hY, List.take_append_of_le_length (by omega), List.take_of_length_le (by omega)]
        simp only [hc1, decide_False] at hstep
        obtain ⟨fuel'', rfl⟩ : ∃ f, fuel' = f + 1 := ⟨fuel' - 1, by omega⟩
        have hlt : ¬ s1.jEnd < s1.readLen := by
          rw [h1l hc1, h1r]; push_cast; omega
        have hstep2 := videoStep_payload b s1 (A ++ (dcBuf ++ littleEndian j.length) ++ Y ++ R1) hlt
        have hz : toInt32 (s1.jEnd - s1.readLen) = 0 := by
          rw [h1l hc1, h1r, hc2]; simp [toInt32]
        rw [hz] at hstep2
        clear hz hlt
        refine ⟨{ s1 with jEnd := 0 },
          dcBuf ++ littleEndian j.length ++ Y, [], R1, 1, ?_, ?_, ?_, ?_, ?_, ?_, ?_, ?_⟩
        · rw [videoLoop_continue hstep, videoLoop_break hstep2]; simp
        · show s1.readLen = _
          rw [h1r, hout]; congr 1; omega
        · simp [aviChunks, aviChunk, hYj]
        · show idxOf s1 = _
          rw [h1i]; simp [buildIdxAll]
        · exact h1s.setJEnd 0
        · rw [hout]; omega
        · rw [hout]; omega
        · right
          refine ⟨by omega, h1h, by simp, ?_⟩
          rw [clipBytes_drop j rest m h92, List.drop_append_eq_append_drop,
            List.drop_of_length_le (by omega)]
          have : m - 92 - j.length = 0 := by omega
          simp [this]
      · -- the next framing block starts inside the cluster
        have hm' : 1 ≤ m - 92 - j.length := by omega
        have hcut2 : CutOK (m - 92 - j.length) rest := by
          rcases hcut' with h | h
          · omega
          · exact h
        have hYj : Y = j ++ (clipBytes rest).take (m - 92 - j.length) := by
          rw [hY, List.take_append_eq_append_take, List.take_of_length_le (by omega)]
        simp only [hc1, decide_False] at hstep
        have hA' : (A ++ (dcBuf ++ littleEndian j.length) ++ j).length = A.length + 8 + j.length := by
          simp [dcBuf, length_littleEndian]; omega
        obtain ⟨s', out1, pend, R', k1, hrun, hrl, hcons, hidx, hsame, hlenR, hle, hfin⟩ :=
          ih (m - 92 - j.length) (A ++ (dcBuf ++ littleEndian j.length) ++ j) R1 s1 fuel' hposr hcut2
            hm' (by omega) (by omega) (by rw [h1l hc1, hA']) (by rw [h1r, hA']; congr 1; omega) h1h
            (by rw [hA']; omega)
        have hbuf1 : A ++ (dcBuf ++ littleEndian j.length) ++ Y ++ R1
            = A ++ (dcBuf ++ littleEndian j.length) ++ j
                ++ (clipBytes rest).take (m - 92 - j.length) ++ R1 := by
          rw [hYj]; simp
        refine ⟨s', dcBuf ++ littleEndian j.length ++ j ++ out1, pend, R', k1 + 1,
          ?_, ?_, ?_, ?_, ?_, ?_, ?_, ?_⟩
        · rw [videoLoop_continue hstep, hbuf1, hrun]; simp
        · rw [hrl, hA']; simp [dcBuf, length_littleEndian]; omega
        · simp only [List.drop_succ_cons, aviChunks, aviChunk, List.append_assoc] at hcons ⊢
          rw [hcons]
        · rw [hidx]
          simp only [List.take_succ_cons, buildIdxAll]
          exact idxOf_buildIdxAll_congr h1i _
        · exact h1s.trans hsame
        · simp [dcBuf, length_littleEndian] at hlenR ⊢; omega
        · simp [dcBuf, length_littleEndian]; omega
        · rcases hfin with ⟨h1, h2, h3⟩ | ⟨h1, h2, h3, h4⟩
          · left
            refine ⟨by omega, h2, by simp [h3]⟩
          · right
            refine ⟨by omega, h2, h3, ?_⟩
            rw [clipBytes_drop j rest m h92, List.drop_append_eq_append_drop,
              List.drop_of_length_le (by omega), List.nil_append, h4]
            simp

/-! ## One call on one cluster -/

/-- In the video stage `readClientBuf` is `processVideo`. -/
theorem readClientBuf_video (s : Muxer) (fh : File) (buf : List Nat) (b : Nat)
    (h1 : s.theEnd = false) (h2 : s.doAVI = true) (h3 : s.doAVIheader = false)
    (h4 : s.haveSoundFile = false) :
    readClientBuf s fh buf b = processVideo s fh buf b := by
  simp [readClientBuf, h1, h2, h3, h4]

/-- The outcome of `processVideo` on a non-empty cluster, from the outcome of the loop. -/
theorem processVideo_of_loop (s s' : Muxer) (D : List Nat) (pos : Nat) (buf buf' : List Nat)
    (b n : Nat) (cluster : List Nat)
    (hc : cluster = (D.drop pos).take b) (hc0 : cluster ≠ []) (hcl : cluster.length < 2147483000)
    (hloop : videoLoop b (cluster.length + MJPEG_HDR) { s with readLen := (cluster.length : Int) }
      (cluster ++ buf.drop cluster.length) = some (s', buf'))
    (hn : s'.readLen = (n : Int)) (hn' : n < 2147483648) :
    processVideo s ⟨D, pos⟩ buf b = some ⟨n, s', ⟨D, pos + cluster.length⟩, buf'⟩ := by
  have hlen0 : cluster.length ≠ 0 := fun h => hc0 (List.length_eq_zero.mp h)
  have hav : (File.mk D pos).available ≠ 0 := by
    intro h
    apply hlen0
    have : D.drop pos = [] := by
      apply List.drop_of_length_le
      simp only [File.available] at h
      omega
    rw [hc, this]; simp
  have ht : toInt32 (cluster.length : Int) = (cluster.length : Int) := by
    rw [toInt32_eq] <;> omega
  have hrb : (File.mk D pos).readBytes b = cluster := by rw [hc]; rfl
  have hmw : memWrite buf 0 cluster = cluster ++ buf.drop cluster.length := by
    simp [memWrite]
  have hne : ¬ ((cluster.length : Int) = 0) := by omega
  have hnn : ¬ (s'.readLen < 0) := by rw [hn]; omega
  have hu : toUInt32 s'.readLen = n := by rw [hn]; exact toUInt32_natCast n (by omega)
  unfold processVideo
  simp only [bne_iff_ne, ne_eq, hav, not_false_eq_true, if_true, hrb, File.advance, ht, hne,
    if_false, hmw, hloop, hnn, hu]

theorem SameSession.setReadLen (s : Muxer) (x : Int) : SameSession s { s with readLen := x } := by
  simp [SameSession]

theorem readClientBuf_cluster (b : Nat) (s : Muxer) (D : List Nat) (pos : Nat) (pend : List Nat)
    (fs : List (List Nat)) (buf : List Nat)
    (h1 : s.theEnd = false) (h2 : s.doAVI = true) (h3 : s.doAVIheader = false)
    (h4 : s.haveSoundFile = false)
    (hj : s.jEnd = (pend.length : Int)) (hh : s.hdrOffset = 0)
    (hD : D.drop pos = pend ++ clipBytes fs) (hb : 1 ≤ b) (hDl : D.length < 2147483000)
    (hpos : ∀ j ∈ fs, 0 < j.length)
    (L : Nat) (hL : L = min b (pend.length + (clipBytes fs).length))
    (hcut : L ≤ pend.length ∨ CutOK (L - pend.length) fs) :
    ∃ (r : CallResult) (pend' : List Nat) (k : Nat),
      readClientBuf s ⟨D, pos⟩ buf b = some r ∧ r.fh = ⟨D, pos + L⟩ ∧
      r.ret = r.output.length ∧
      r.output ++ pend' ++ aviChunks (fs.drop k) = pend ++ aviChunks fs ∧
      idxOf r.state = idxOf (buildIdxAll s (fs.take k)) ∧ SameSession s r.state ∧
      (pos + L < D.length → r.state.hdrOffset = 0 ∧ r.state.jEnd = (pend'.length : Int) ∧
          D.drop (pos + L) = pend' ++ clipBytes (fs.drop k)) ∧
      (pos + L = D.length → pend' = [] ∧ k = fs.length) := by
  have h36 := length_clipBytes_ge fs
  have hDlen : D.length - pos = pend.length + (clipBytes fs).length := by
    have := congrArg List.length hD
    simpa using this
  obtain ⟨cluster, hc⟩ : ∃ c, c = (D.drop pos).take b := ⟨_, rfl⟩
  have hclen : cluster.length = L := by
    rw [hc, List.length_take, List.length_drop, hL, hDlen]
  have hc0 : cluster ≠ [] := by
    intro h
    rw [h] at hclen
    simp at hclen
    omega
  rw [readClientBuf_video s _ buf b h1 h2 h3 h4]
  obtain ⟨s1, hs1⟩ : ∃ s1 : Muxer, s1 = { s with readLen := (cluster.length : Int) } := ⟨_, rfl⟩
  have s1j : s1.jEnd = (pend.length : Int) := by rw [hs1]; exact hj
  have s1r : s1.readLen = (L : Int) := by rw [hs1, ← hclen]
  have s1h : s1.hdrOffset = 0 := by rw [hs1]; exact hh
  have s1s : SameSession s s1 := by rw [hs1]; exact SameSession.setReadLen s _
  have s1i : idxOf s1 = idxOf s := by rw [hs1]; rfl
  have hpv := fun s' buf' n => processVideo_of_loop s s' D pos buf buf' b n cluster hc hc0
    (by omega)
  rw [← hs1] at hpv
  clear hs1
  by_cases hA : L ≤ pend.length
  · -- the whole cluster is JPEG data
    have hLb : L = b := by omega
    have hcp : cluster = pend.take L := by
      rw [hc, hD, List.take_append_of_le_length (by omega), hLb]
    have hlt : ¬ s1.jEnd < s1.readLen := by rw [s1j, s1r]; omega
    have hstep := videoStep_payload b s1 (cluster ++ buf.drop cluster.length) hlt
    have hz : toInt32 (s1.jEnd - s1.readLen) = ((pend.length - L : Nat) : Int) := by
      rw [s1j, s1r, toInt32_eq] <;> omega
    rw [hz] at hstep
    clear hz hlt
    have hloop := videoLoop_break (f := cluster.length + 91) hstep
    have hpv' := hpv _ _ L hloop s1r (by omega)
    refine ⟨_, pend.drop L, 0, hpv', by rw [hclen], ?_, ?_, ?_, ?_, ?_, ?_⟩
    · simp [CallResult.output, hclen]
    · show (cluster ++ buf.drop cluster.length).take L ++ pend.drop L ++ aviChunks (fs.drop 0)
          = _
      rw [List.take_left' hclen, hcp, List.take_append_drop, List.drop_zero]
    · show idxOf s1 = _
      rw [s1i]; simp [buildIdxAll]
    · exact s1s.setJEnd _
    · intro _
      refine ⟨s1h, ?_, ?_⟩
      · show ((pend.length - L : Nat) : Int) = _
        rw [List.length_drop]
      · rw [← List.drop_drop, hD, List.drop_append_of_le_length hA]
        simp
    · intro h
      omega
  · -- a framing block starts inside the cluster
    have hcut2 : CutOK (L - pend.length) fs := by
      rcases hcut with h | h
      · exact absurd h hA
      · exact h
    have hcp : cluster = pend ++ (clipBytes fs).take (L - pend.length) := by
      have e : (pend ++ clipBytes fs).take b = (pend ++ clipBytes fs).take L := by
        rw [List.take_eq_take, List.length_append]; omega
      rw [hc, hD, e, List.take_append_eq_append_take, List.take_of_length_le (by omega)]
    obtain ⟨s', out, pend', R', k, hrun, hrl, hcons, hidx, hsame, hlenR, hle, hfin⟩ :=
      videoLoop_frames b fs (L - pend.length) pend (buf.drop cluster.length) s1
        (cluster.length + MJPEG_HDR) hpos hcut2 (by omega) (by omega)
        (by simp only [MJPEG_HDR, LENGTH_OFFSET, REMAINDER_OFFSET]; omega) s1j
        (by rw [s1r]; congr 1; omega) s1h (by omega)
    rw [← hcp] at hrun
    have hbuflen : (buf.drop cluster.length).length ≤ buf.length := by
      rw [List.length_drop]; omega
    have hpv' := hpv _ _ (pend.length + out.length) hrun hrl (by clear hrl; omega)
    refine ⟨_, pend', k, hpv', by rw [hclen], ?_, ?_, ?_, ?_, ?_, ?_⟩
    · simp [CallResult.output]
    · show (pend ++ out ++ R').take (pend.length + out.length) ++ pend' ++ aviChunks (fs.drop k)
          = _
      rw [List.take_left' (by simp), List.append_assoc, List.append_assoc, ← List.append_assoc out,
        hcons]
    · show idxOf s' = _
      rw [hidx]
      exact idxOf_buildIdxAll_congr s1i _
    · exact s1s.trans hsame
    · intro hlt
      rcases hfin with ⟨h1, _, _⟩ | ⟨_, h2, h3, h4⟩
      · omega
      · refine ⟨h2, h3, ?_⟩
        have : pos + L = pos + pend.length + (L - pend.length) := by omega
        rw [this, ← List.drop_drop, ← List.drop_drop, hD, List.drop_left, h4]
    · intro heq
      rcases hfin with ⟨_, h2, h3⟩ | ⟨h1, _, _, _⟩
      · exact ⟨h2, h3⟩
      · omega

/-! ## The whole video stage -/

theorem buildIdxAll_append (s : Muxer) (l1 l2 : List (List Nat)) :
    buildIdxAll s (l1 ++ l2) = buildIdxAll (buildIdxAll s l1) l2 := by
  induction l1 generalizing s with
  | nil => rfl
  | cons j rest ih => simp [buildIdxAll, ih]

theorem cutOK_of_noStraddle (b c : Nat) :
    ∀ (fs : List (List Nat)) (off m : Nat), c * b ≤ off → off < c * b + b →
      NoStraddle b off fs → 1 ≤ m → off + m = min (c * b + b) (off + (clipBytes fs).length) →
      CutOK m fs := by
  intro fs
  induction fs with
  | nil =>
    intro off m h1 h2 hns hm hmin
    simp only [NoStraddle] at hns
    simp only [CutOK]
    have hb : 0 < b := by
      rcases Nat.eq_zero_or_pos b with h | h
      · subst h; omega
      · exact h
    have hc : off / b = c := Nat.div_eq_of_lt_le h1 (by rw [Nat.succ_mul]; exact h2)
    have h35 : (off + 35) / b < c + 1 := by omega
    rw [Nat.div_lt_iff_lt_mul hb] at h35
    rw [length_clipBytes_nil] at hmin
    have : (c + 1) * b = c * b + b := Nat.succ_mul c b
    omega
  | cons j rest ih =>
    intro off m h1 h2 hns hm hmin
    simp only [NoStraddle] at hns
    obtain ⟨hns1, hns2⟩ := hns
    simp only [CutOK]
    have hb : 0 < b := by
      rcases Nat.eq_zero_or_pos b with h | h
      · subst h; omega
      · exact h
    have hc : off / b = c := Nat.div_eq_of_lt_le h1 (by rw [Nat.succ_mul]; exact h2)
    have h91 : (off + 91) / b < c + 1 := by omega
    rw [Nat.div_lt_iff_lt_mul hb] at h91
    have hsm : (c + 1) * b = c * b + b := Nat.succ_mul c b
    rw [length_clipBytes_cons] at hmin
    have h36 := length_clipBytes_ge rest
    refine ⟨by omega, ?_⟩
    by_cases hle : m ≤ 92 + j.length
    · exact Or.inl hle
    · right
      apply ih (off + 92 + j.length) (m - 92 - j.length) (by omega) (by omega) hns2 (by omega)
      omega

theorem noStraddle_single (B : Nat) :
    ∀ (fs : List (List Nat)) (off : Nat), off + (clipBytes fs).length ≤ B →
      NoStraddle B off fs := by
  intro fs
  induction fs with
  | nil =>
    intro off h
    rw [length_clipBytes_nil] at h
    simp only [NoStraddle]
    rw [Nat.div_eq_of_lt (by omega), Nat.div_eq_of_lt (by omega)]
  | cons j rest ih =>
    intro off h
    rw [length_clipBytes_cons] at h
    have h36 := length_clipBytes_ge rest
    simp only [NoStraddle]
    refine ⟨?_, ih _ (by omega)⟩
    rw [Nat.div_eq_of_lt (by omega), Nat.div_eq_of_lt (by omega)]

theorem length_aviChunks (fs : List (List Nat)) :
    (aviChunks fs).length = (fs.map (fun jpeg => 8 + jpeg.length)).sum := by
  induction fs with
  | nil => rfl
  | cons j rest ih =>
    simp [aviChunks, aviChunk, dcBuf, length_littleEndian, ih]
    omega

/-- The video call on a clip that fits in one cluster. -/
theorem readClientBuf_whole_clip (frames : List (List Nat)) (buffSize : Nat) (s : Muxer)
    (clientBuf : List Nat) (hwf : WellFormed frames) (hs : VideoReady s)
    (hfit : (clipBytes frames).length ≤ buffSize) :
    ∃ r : CallResult,
      readClientBuf s ⟨clipBytes frames, 0⟩ clientBuf buffSize = some r ∧
      r.ret = (aviChunks frames).length ∧
      r.clientBuf.take r.ret = aviChunks frames ∧
      r.fh = ⟨clipBytes frames, (clipBytes frames).length⟩ ∧
      SameSession s r.state ∧ idxOf r.state = idxOf (buildIdxAll s frames) := by
  obtain ⟨hpos, hlen⟩ := hwf
  obtain ⟨h1, h2, h3, h4, hj, hh⟩ := hs
  have h36 := length_clipBytes_ge frames
  have hL : (clipBytes frames).length
      = min buffSize (([] : List Nat).length + (clipBytes frames).length) := by
    simp only [List.length_nil]; omega
  have hcut : CutOK ((clipBytes frames).length - ([] : List Nat).length) frames :=
    cutOK_of_noStraddle buffSize 0 frames 0 _ (by omega) (by omega)
      (noStraddle_single buffSize frames 0 (by omega)) (by simp only [List.length_nil]; omega)
      (by simp only [List.length_nil]; omega)
  obtain ⟨r, pend', k, hcall, hfh, hret, hcons, hidx, hsame, -, hlast⟩ :=
    readClientBuf_cluster buffSize s (clipBytes frames) 0 [] frames clientBuf h1 h2 h3 h4
      (by rw [hj]; rfl) hh (by simp) (by omega) hlen hpos _ hL (Or.inr hcut)
  obtain ⟨hp, hk⟩ := hlast (by omega)
  rw [hp, hk] at hcons
  rw [hk, List.take_length] at hidx
  simp only [List.drop_length, aviChunks, List.append_nil, List.nil_append] at hcons
  refine ⟨r, hcall, ?_, hcons, ?_, hsame, hidx⟩
  · rw [hret, hcons]
  · rw [hfh]; simp

/-! ## C3: a clip that fits in one cluster -/

/-- The header call. -/
theorem readClientBuf_header (s : Muxer) (fh : File) (buf : List Nat) (b : Nat)
    (h1 : s.theEnd = false) (h2 : s.doAVI = true) (h3 : s.doAVIheader = true) :
    readClientBuf s fh buf b
      = some ⟨(buildAVIhdr { s with framePtr := 0 } buf).1, stateAfterHeader s buf, fh,
              (buildAVIhdr { s with framePtr := 0 } buf).2.2⟩ := by
  simp [readClientBuf, h1, h2, h3, stateAfterHeader]

theorem buildAVIhdr_ret (s : Muxer) (buf : List Nat) (h : s.haveSoundFile = false) :
    (buildAVIhdr s buf).1 = 310 := by
  simp [buildAVIhdr, h, AVI_HEADER_LEN]

theorem stateAfterHeader_noAudio (s : Muxer) (buf : List Nat) (h : s.haveSoundFile = false) :
    stateAfterHeader s buf
      = { s with framePtr := 0, aviHeader := patchedHeader s, doAVIheader := false,
                 idxBuf := freshIdxBuf s, idxOffset := 4, idxPtr := 8,
                 indexLen := s.frameCnt * 16 + 8 } := by
  simp [stateAfterHeader, buildAVIhdr, h, patchedHeader, freshIdxBuf, entryCount, CHUNK_HDR,
    IDX_ENTRY]

/-- The call that follows the last slice of the index. -/
theorem readClientBuf_end (s : Muxer) (fh : File) (buf : List Nat) (b : Nat)
    (h : s.theEnd = true) :
    readClientBuf s fh buf b
      = some ⟨0, { s with theEnd := false, jStart := 0, jEnd := 0, iPtr := 0, hdrOffset := 0 },
              fh, buf⟩ := by
  simp [readClientBuf, h]

/-- The call that finds the clip exhausted and the rest of the index no longer than the
buffer: it sends that rest and sets `theEnd`. -/
theorem readClientBuf_index_last (s : Muxer) (fh : File) (buf : List Nat) (b : Nat)
    (h1 : s.theEnd = false) (h2 : s.doAVI = true) (h3 : s.doAVIheader = false)
    (h4 : s.haveSoundFile = false) (hav : fh.available = 0) (i : Nat) (hi : s.iPtr = (i : Int))
    (hle : i ≤ s.indexLen) (hfit : s.indexLen - i ≤ b) (hlen : s.indexLen < 2147483648) :
    readClientBuf s fh buf b
      = some ⟨s.indexLen - i, { s with readLen := 0, theEnd := true }, fh,
              memWrite buf 0 (memRead s.idxBuf i (s.indexLen - i))⟩ := by
  have e : toUInt32 ((s.indexLen : Int) - s.iPtr) = s.indexLen - i := by
    rw [hi]
    have : ((s.indexLen : Int) - (i : Int)) = ((s.indexLen - i : Nat) : Int) := by omega
    rw [this, toUInt32_natCast _ (by omega)]
  have hgt : ¬ (s.indexLen - i > b) := by omega
  have hto : s.iPtr.toNat = i := by rw [hi]; simp
  rw [readClientBuf_video s fh buf b h1 h2 h3 h4]
  have ht : toInt32 (([] : List Nat).length : Int) = 0 := by simp [toInt32]
  simp only [processVideo, hav, bne_self_eq_false, Bool.false_eq_true, if_false, ht, if_true,
    indexSlice, e, hgt, hto]
  simp [memWrite]

theorem length_memWrite (buf : List Nat) (off : Nat) (d : List Nat)
    (h : off + d.length ≤ buf.length) : (memWrite buf off d).length = buf.length := by
  simp [memWrite]
  omega

theorem length_buildIdx (s : Muxer) (n : Nat) (h : s.idxPtr + 16 ≤ s.idxBuf.length) :
    (buildIdx s n).idxBuf.length = s.idxBuf.length := by
  have e1 : (memWrite s.idxBuf s.idxPtr dcBuf).length = s.idxBuf.length :=
    length_memWrite _ _ _ (by simp [dcBuf]; omega)
  have e2 : (memWrite (memWrite s.idxBuf s.idxPtr dcBuf) (s.idxPtr + 4) zeroBuf).length
      = s.idxBuf.length := by
    rw [length_memWrite _ _ _ (by rw [e1]; simp [zeroBuf]; omega), e1]
  have e3 : (memWrite (memWrite (memWrite s.idxBuf s.idxPtr dcBuf) (s.idxPtr + 4) zeroBuf)
      (s.idxPtr + 8) (littleEndian s.idxOffset)).length = s.idxBuf.length := by
    rw [length_memWrite _ _ _ (by rw [e2, length_littleEndian]; omega), e2]
  simp only [buildIdx]
  rw [length_memWrite _ _ _ (by rw [e3, length_littleEndian]; omega), e3]

theorem length_buildIdxAll (fs : List (List Nat)) (s : Muxer) (h1 : s.idxPtr < 65536)
    (h2 : 65552 ≤ s.idxBuf.length) :
    (buildIdxAll s fs).idxBuf.length = s.idxBuf.length := by
  induction fs generalizing s with
  | nil => rfl
  | cons j rest ih =>
    simp only [buildIdxAll]
    have hl := length_buildIdx s j.length (by omega)
    rw [ih (buildIdx s j.length) (by simp only [buildIdx]; omega) (by rw [hl]; exact h2), hl]

theorem length_freshIdxBuf (s : Muxer) : (freshIdxBuf s).length = 320016 := by
  have h0 : (List.replicate ((MAX_FRAMES + 1) * IDX_ENTRY) 0).length = 320016 := by
    rw [List.length_replicate]; rfl
  have h1 : (memWrite (List.replicate ((MAX_FRAMES + 1) * IDX_ENTRY) 0) 0 idx1Buf).length
      = 320016 := by
    rw [length_memWrite _ _ _ (by rw [h0]; decide), h0]
  unfold freshIdxBuf
  rw [length_memWrite _ _ _ (by rw [h1, length_littleEndian]; decide), h1]

theorem runCalls_succ {b n : Nat} {s : Muxer} {fh : File} {buf : List Nat} {r : CallResult}
    (h : readClientBuf s fh buf b = some r) :
    runCalls b (n + 1) s fh buf = r :: runCalls b n r.state r.fh r.clientBuf := by
  simp [runCalls, h]

theorem take_memWrite_zero (buf d : List Nat) : (memWrite buf 0 d).take d.length = d := by
  simp [memWrite]

/-- The four calls of a session whose clip fits in one cluster and whose index fits
in one buffer: header, video, index, end. -/
theorem session_one_cluster (frames : List (List Nat)) (b : Nat) (s0 : Muxer) (buf : List Nat)
    (hs : SessionStart s0 frames.length) (hwf : WellFormed frames)
    (hfit : (clipBytes frames).length ≤ b) (hidx : 16 * frames.length + 8 ≤ b)
    (hF : frames.length ≤ 20000) :
    ∃ r1 r2 r3 r4 : CallResult,
      runCalls b 4 s0 ⟨clipBytes frames, 0⟩ buf = [r1, r2, r3, r4] ∧
      r1.ret = 310 ∧
      r2.ret = (aviChunks frames).length ∧ r2.output = aviChunks frames ∧
      r3.ret = 16 * frames.length + 8 ∧
      r3.output = memRead (buildIdxAll (stateAfterHeader s0 buf) frames).idxBuf 0
        (16 * frames.length + 8) ∧
      r3.state.theEnd = true ∧
      r4.ret = 0 := by
  obtain ⟨h1, h2, h3, h4, hj, hh, hi, hf⟩ := hs
  obtain ⟨n1, buf1, hc1, hret1⟩ : ∃ (n1 : Nat) (buf1 : List Nat),
      readClientBuf s0 ⟨clipBytes frames, 0⟩ buf b
        = some ⟨n1, stateAfterHeader s0 buf, ⟨clipBytes frames, 0⟩, buf1⟩ ∧ n1 = 310 :=
    ⟨_, _, readClientBuf_header s0 ⟨clipBytes frames, 0⟩ buf b h1 h2 h3,
      buildAVIhdr_ret { s0 with framePtr := 0 } buf h4⟩
  have hs1 := stateAfterHeader_noAudio s0 buf h4
  obtain ⟨s1, hs1'⟩ : ∃ s1, s1 = stateAfterHeader s0 buf := ⟨_, rfl⟩
  rw [← hs1'] at hc1 hs1
  have v1 : VideoReady s1 := by
    rw [hs1]; exact ⟨h1, h2, rfl, h4, hj, hh⟩
  have i1 : s1.iPtr = 0 := by rw [hs1]; exact hi
  have l1 : s1.indexLen = 16 * frames.length + 8 := by
    rw [hs1]; show s0.frameCnt * 16 + 8 = _; rw [hf]; omega
  have p1 : s1.idxPtr < 65536 := by rw [hs1]; show 8 < 65536; omega
  have b1 : s1.idxBuf.length = 320016 := by rw [hs1]; exact length_freshIdxBuf s0
  clear hs1
  obtain ⟨r2, hc2, hret2, hout2, hfh2, hsame2, hidx2⟩ :=
    readClientBuf_whole_clip frames b s1 buf1 hwf v1 hfit
  obtain ⟨q1, q2, q3, q4, q5, q6, -⟩ := hsame2
  have hib : r2.state.idxBuf = (buildIdxAll s1 frames).idxBuf := by
    have := congrArg Prod.fst hidx2
    exact this
  obtain ⟨s3, hc3, e3⟩ : ∃ s3 : Muxer,
      readClientBuf r2.state r2.fh r2.clientBuf b
        = some ⟨r2.state.indexLen - 0, s3, r2.fh,
            memWrite r2.clientBuf 0 (memRead r2.state.idxBuf 0 (r2.state.indexLen - 0))⟩
      ∧ s3.theEnd = true :=
    ⟨_, readClientBuf_index_last r2.state r2.fh r2.clientBuf b (q4.trans v1.1)
      (q1.trans v1.2.1) (q2.trans v1.2.2.1) (q3.trans v1.2.2.2.1)
      (by rw [hfh2]; simp [File.available]) 0 (by rw [q5, i1]; rfl) (by omega)
      (by rw [q6, l1]; omega) (by rw [q6, l1]; omega), rfl⟩
  rw [q6, l1, Nat.sub_zero] at hc3
  obtain ⟨buf3, hb3⟩ : ∃ c : List Nat,
      c = memWrite r2.clientBuf 0 (memRead r2.state.idxBuf 0 (16 * frames.length + 8)) :=
    ⟨_, rfl⟩
  rw [← hb3] at hc3
  obtain ⟨s4, hc4⟩ : ∃ s4 : Muxer, readClientBuf s3 r2.fh buf3 b = some ⟨0, s4, r2.fh, buf3⟩ :=
    ⟨_, readClientBuf_end s3 r2.fh buf3 b e3⟩
  refine ⟨⟨n1, s1, ⟨clipBytes frames, 0⟩, buf1⟩, r2, ⟨16 * frames.length + 8, s3, r2.fh, buf3⟩,
    ⟨0, s4, r2.fh, buf3⟩, ?_, hret1, hret2, ?_, rfl, ?_, e3, rfl⟩
  · rw [runCalls_succ hc1, runCalls_succ hc2, runCalls_succ hc3, runCalls_succ hc4]
    rfl
  · rw [CallResult.output, hout2]
  · have hlen : (memRead r2.state.idxBuf 0 (16 * frames.length + 8)).length
        = 16 * frames.length + 8 := by
      rw [hib, memRead, List.length_take, List.drop_zero, length_buildIdxAll frames s1 p1
        (by rw [b1]; norm_num), b1]
      exact Nat.min_eq_left (by omega)
    show buf3.take (16 * frames.length + 8) = _
    rw [hb3, ← hs1', ← hib]
    have := take_memWrite_zero r2.clientBuf (memRead r2.state.idxBuf 0 (16 * frames.length + 8))
    rw [hlen] at this
    exact this

/-! ## The abort on a zero length field -/

theorem videoStep_zero (b : Nat) (s : Muxer) (buf : List Nat)
    (h : parsedSize b s buf = some 0) :
    (videoStep b s buf).1 = true ∧ Aborted (videoStep b s buf).2.1 ∧
      (videoStep b s buf).2.1.theEnd = s.theEnd ∧
      (videoStep b s buf).2.1.doAVI = s.doAVI ∧
      (videoStep b s buf).2.1.doAVIheader = s.doAVIheader ∧
      (videoStep b s buf).2.1.haveSoundFile = s.haveSoundFile := by
  unfold parsedSize at h
  unfold videoStep
  by_cases c1 : s.jEnd < s.readLen
  · rw [if_pos c1] at h ⊢
    simp only [] at h ⊢
    by_cases c0 : s.hdrOffset > 0
    · simp only [if_pos c0] at h ⊢
      by_cases c2 : (MJPEG_HDR : Int) > toInt32 (s.readLen + s.hdrOffset) - 0 ∧
          (if (MJPEG_HDR : Int) > toInt32 (s.readLen + s.hdrOffset) - 0
            then toInt32 (toInt32 (s.readLen + s.hdrOffset) - 0) else 0) > 0
      · rw [if_pos c2] at h
        exact absurd h (by simp)
      · rw [if_neg c2] at h ⊢
        by_cases c3 : toInt32 (0 + (LENGTH_OFFSET : Int)) > toInt32 (s.readLen + s.hdrOffset)
        · rw [if_pos c3] at h
          exact absurd h (by simp)
        · rw [if_neg c3] at h ⊢
          rw [if_pos (Option.some.inj h)]
          simp [Aborted]
    · simp only [if_neg c0] at h ⊢
      by_cases c2 : (MJPEG_HDR : Int) > s.readLen - s.jEnd ∧
          (if (MJPEG_HDR : Int) > s.readLen - s.jEnd
            then toInt32 (s.readLen - s.jEnd) else s.hdrOffset) > 0
      · rw [if_pos c2] at h
        exact absurd h (by simp)
      · rw [if_neg c2] at h ⊢
        by_cases c3 : toInt32 (s.jEnd + (LENGTH_OFFSET : Int)) > s.readLen
        · rw [if_pos c3] at h
          exact absurd h (by simp)
        · rw [if_neg c3] at h ⊢
          rw [if_pos (Option.some.inj h)]
          simp [Aborted]
  · rw [if_neg c1] at h
    exact absurd h (by simp)

theorem ite_cases {α : Type} (P : α → Prop) (c : Prop) [Decidable c] (a b : α) (ha : P a)
    (hb : P b) : P (if c then a else b) := by
  split
  · exact ha
  · exact hb

theorem videoStep_flags (b : Nat) (s : Muxer) (buf : List Nat) :
    (videoStep b s buf).2.1.theEnd = s.theEnd ∧ (videoStep b s buf).2.1.doAVI = s.doAVI ∧
    (videoStep b s buf).2.1.doAVIheader = s.doAVIheader ∧
    (videoStep b s buf).2.1.haveSoundFile = s.haveSoundFile := by
  unfold videoStep
  simp only []
  apply ite_cases (fun x : Bool × Muxer × List Nat => x.2.1.theEnd = s.theEnd ∧
    x.2.1.doAVI = s.doAVI ∧ x.2.1.doAVIheader = s.doAVIheader ∧
    x.2.1.haveSoundFile = s.haveSoundFile)
  · apply ite_cases (fun x : Bool × Muxer × List Nat => x.2.1.theEnd = s.theEnd ∧
      x.2.1.doAVI = s.doAVI ∧ x.2.1.doAVIheader = s.doAVIheader ∧
      x.2.1.haveSoundFile = s.haveSoundFile)
    · exact ⟨rfl, rfl, rfl, rfl⟩
    · apply ite_cases (fun x : Bool × Muxer × List Nat => x.2.1.theEnd = s.theEnd ∧
        x.2.1.doAVI = s.doAVI ∧ x.2.1.doAVIheader = s.doAVIheader ∧
        x.2.1.haveSoundFile = s.haveSoundFile)
      · exact ⟨rfl, rfl, rfl, rfl⟩
      · apply ite_cases (fun x : Bool × Muxer × List Nat => x.2.1.theEnd = s.theEnd ∧
          x.2.1.doAVI = s.doAVI ∧ x.2.1.doAVIheader = s.doAVIheader ∧
          x.2.1.haveSoundFile = s.haveSoundFile)
        · exact ⟨rfl, rfl, rfl, rfl⟩
        · exact ⟨rfl, rfl, rfl, rfl⟩
  · exact ⟨rfl, rfl, rfl, rfl⟩

theorem videoLoop_meetsZero (b : Nat) :
    ∀ (fuel : Nat) (s : Muxer) (buf : List Nat), meetsZero b fuel s buf →
      ∃ (s' : Muxer) (buf' : List Nat), videoLoop b fuel s buf = some (s', buf') ∧ Aborted s' ∧
        s'.theEnd = s.theEnd ∧ s'.doAVI = s.doAVI ∧ s'.doAVIheader = s.doAVIheader ∧
        s'.haveSoundFile = s.haveSoundFile := by
  intro fuel
  induction fuel with
  | zero => intro s buf h; exact absurd h (by simp [meetsZero])
  | succ f ih =>
    intro s buf h
    simp only [meetsZero] at h
    rcases h with h | ⟨hc, h⟩
    · obtain ⟨e1, e2, e3⟩ := videoStep_zero b s buf h
      refine ⟨(videoStep b s buf).2.1, (videoStep b s buf).2.2, ?_, e2, e3⟩
      exact videoLoop_break (by rw [← e1])
    · obtain ⟨s', buf', hrun, ha, g1, g2, g3, g4⟩ := ih _ _ h
      obtain ⟨f1, f2, f3, f4⟩ := videoStep_flags b s buf
      refine ⟨s', buf', ?_, ha, g1.trans f1, g2.trans f2, g3.trans f3, g4.trans f4⟩
      rw [← hrun]
      exact videoLoop_continue (by rw [← hc])

/-! ## C6: a length field that parses to zero -/

/-- C6, as amended.  In the video stage of an AVI session (header sent, audio, if any,
sent), the call of `readClientBuf` whose scan of the loaded cluster comes to a length
field that parses to zero returns 0 and leaves `jStart`, `jEnd`, `iPtr` and `hdrOffset`
at 0.  It sets no end flag: `theEnd` stays false, the session stays an AVI session past
its header, so the next call of the session is again a call of the video part (next
cluster or index). -/
theorem zero_length_field_aborts_call (s : Muxer) (fh : File) (clientBuf : List Nat)
    (buffSize : Nat) (h1 : s.theEnd = false) (h2 : s.doAVI = true) (h3 : s.doAVIheader = false)
    (h4 : s.haveSoundFile = false) (hav : fh.available ≠ 0) (hb : 1 ≤ buffSize)
    (hsz : fh.size < 2147483648) (hz : callMeetsZero s fh clientBuf buffSize) :
    ∃ r : CallResult,
      readClientBuf s fh clientBuf buffSize = some r ∧ r.ret = 0 ∧
      r.state.jStart = 0 ∧ r.state.jEnd = 0 ∧ r.state.iPtr = 0 ∧ r.state.hdrOffset = 0 ∧
      r.state.theEnd = false ∧
      ∀ (fh' : File) (buf' : List Nat) (b' : Nat),
        readClientBuf r.state fh' buf' b' = processVideo r.state fh' buf' b' := by
  obtain ⟨s', buf', hrun, ⟨a1, a2, a3, a4, a5⟩, g1, g2, g3, g4⟩ :=
    videoLoop_meetsZero buffSize _ _ _ hz
  have hlen : (fh.readBytes buffSize).length ≠ 0 := by
    simp only [File.readBytes, List.length_take, List.length_drop]
    simp only [File.available] at hav
    omega
  have hlt : (fh.readBytes buffSize).length < 2147483648 := by
    simp only [File.readBytes, List.length_take, List.length_drop]
    simp only [File.size] at hsz
    omega
  have ht : toInt32 ((fh.readBytes buffSize).length : Int) = ((fh.readBytes buffSize).length : Int) := by
    rw [toInt32_eq] <;> omega
  have hne : ¬ (((fh.readBytes buffSize).length : Int) = 0) := by omega
  have hav' : (fh.available != 0) = true := by simpa using hav
  have hnn : ¬ (s'.readLen < 0) := by rw [a1]; decide
  have hu : toUInt32 s'.readLen = 0 := by rw [a1]; rfl
  refine ⟨⟨0, s', fh.advance buffSize, buf'⟩, ?_, rfl, a2, a3, a4, a5, g1.trans h1, ?_⟩
  · rw [readClientBuf_video s fh clientBuf buffSize h1 h2 h3 h4]
    unfold processVideo
    simp only [hav', if_true, ht, hne, if_false]
    rw [ht] at hrun
    simp only [hrun, hnn, if_false, hu]
  · intro fh' buf' b'
    exact readClientBuf_video _ _ _ _ (g1.trans h1) (g2.trans h2) (g3.trans h3) (g4.trans h4)

set_option maxRecDepth 100000 in
theorem zero_length_field_aborts_call_witness :
    (stateAfterHeader (startVideoOnly 8 25 1 133) (List.replicate 300 0)).theEnd = false ∧
    (stateAfterHeader (startVideoOnly 8 25 1 133) (List.replicate 300 0)).doAVI = true ∧
    (stateAfterHeader (startVideoOnly 8 25 1 133) (List.replicate 300 0)).doAVIheader = false ∧
    (stateAfterHeader (startVideoOnly 8 25 1 133) (List.replicate 300 0)).haveSoundFile = false ∧
    (File.mk zeroFieldClip 0).available ≠ 0 ∧ 1 ≤ 200 ∧
    (File.mk zeroFieldClip 0).size < 2147483648 ∧
    callMeetsZero (stateAfterHeader (startVideoOnly 8 25 1 133) (List.replicate 300 0))
      ⟨zeroFieldClip, 0⟩ (List.replicate 300 0) 200 ∧
    ∃ r : CallResult,
      readClientBuf (stateAfterHeader (startVideoOnly 8 25 1 133) (List.replicate 300 0))
        ⟨zeroFieldClip, 0⟩ (List.replicate 300 0) 200 = some r ∧ r.ret = 0 ∧
      r.state.jStart = 0 ∧ r.state.jEnd = 0 ∧ r.state.iPtr = 0 ∧ r.state.hdrOffset = 0 ∧
      r.state.theEnd = false ∧
      ∀ (fh' : File) (buf' : List Nat) (b' : Nat),
        readClientBuf r.state fh' buf' b' = processVideo r.state fh' buf' b' :=
  ⟨by decide, by decide, by decide, by decide, by decide, by decide, by decide, by decide,
   zero_length_field_aborts_call _ ⟨zeroFieldClip, 0⟩ (List.replicate 300 0) 200 (by decide)
     (by decide) (by decide) (by decide) (by decide) (by decide) (by decide) (by decide)⟩

set_option maxRecDepth 100000 in
/-- C6, counterexample.  One frame whose length field is `0000000000`, one cluster of 200
bytes: the second call meets the field and returns 0, the third call of the same
session returns the 24 bytes of the index. -/
theorem calls_after_abort_send_index :
    (clipSession zeroFieldClip 1 200 300 4).map CallResult.ret = [310, 0, 24, 0] ∧
    ((clipSession zeroFieldClip 1 200 300 3).map CallResult.output).getLast?
      = some (idx1Buf ++ littleEndian 16 ++ List.replicate 16 0) := by
  decide

/-! ## The example session of three frames -/

theorem idxOf_stateAfterHeader (s : Muxer) (buf : List Nat) (h : s.haveSoundFile = false) :
    idxOf (stateAfterHeader s buf) = (freshIdxBuf s, 8, 4) := by
  rw [stateAfterHeader_noAudio s buf h]; rfl


set_option maxRecDepth 100000 in
theorem indexBlock3_eval :
    memRead (buildIdx (buildIdx (buildIdx
      (stateAfterHeader (startVideoOnly 8 25 3 3412) []) 1000) 1200) 900).idxBuf 0 56
      = indexBlock3 := by
  decide

/-- The session of the example: three JPEGs of 1000, 1200 and 900 bytes, one cluster. -/
theorem session_example (j1 j2 j3 : List Nat) (h1 : j1.length = 1000) (h2 : j2.length = 1200)
    (h3 : j3.length = 900) (b : Nat) (hb : 3412 ≤ b) (buf : List Nat) :
    ∃ r1 r2 r3 r4 : CallResult,
      runCalls b 4 (startVideoOnly 8 25 3 3412) ⟨clipBytes [j1, j2, j3], 0⟩ buf
        = [r1, r2, r3, r4] ∧
      r1.ret = 310 ∧ r2.ret = 3124 ∧ r3.ret = 56 ∧ r4.ret = 0 ∧
      r3.output = indexBlock3 := by
  have hlen : (clipBytes [j1, j2, j3]).length = 3412 := by
    simp [length_clipBytes_cons, length_clipBytes_nil, h1, h2, h3]
  have hwf : WellFormed [j1, j2, j3] := by
    refine ⟨?_, by rw [hlen]; norm_num⟩
    intro j hj
    simp only [List.mem_cons, List.mem_singleton, List.not_mem_nil, or_false] at hj
    rcases hj with rfl | rfl | rfl <;> omega
  have hs : SessionStart (startVideoOnly 8 25 3 3412) [j1, j2, j3].length := by
    show SessionStart (startVideoOnly 8 25 3 3412) 3
    decide
  obtain ⟨r1, r2, r3, r4, hrun, e1, e2, -, e3, e3o, -, e4⟩ :=
    session_one_cluster [j1, j2, j3] b (startVideoOnly 8 25 3 3412) buf hs hwf
      (by rw [hlen]; exact hb) (by simp only [List.length_cons, List.length_nil]; omega)
      (by simp)
  refine ⟨r1, r2, r3, r4, hrun, e1, ?_, by rw [e3]; rfl, e4, ?_⟩
  · rw [e2, length_aviChunks]
    simp [h1, h2, h3]
  · rw [e3o]
    have hfl : SessionStart (startVideoOnly 8 25 3 3412) 3 := by decide
    have hi : idxOf (buildIdxAll (stateAfterHeader (startVideoOnly 8 25 3 3412) buf) [j1, j2, j3])
        = idxOf (buildIdxAll (stateAfterHeader (startVideoOnly 8 25 3 3412) []) [j1, j2, j3]) :=
      idxOf_buildIdxAll_congr
        ((idxOf_stateAfterHeader _ buf hfl.2.2.2.1).trans
          (idxOf_stateAfterHeader _ [] hfl.2.2.2.1).symm) _
    have hb' := congrArg Prod.fst hi
    simp only [idxOf] at hb'
    rw [hb']
    simp only [buildIdxAll, h1, h2, h3, List.length_cons, List.length_nil]
    exact indexBlock3_eval

/-! ## C10, C9: the index cursors -/

theorem memRead_memWrite_self (buf : List Nat) (off : Nat) (d : List Nat)
    (h : off ≤ buf.length) : memRead (memWrite buf off d) off d.length = d := by
  simp [memRead, memWrite, List.drop_append_eq_append_drop, List.length_take,
    Nat.min_eq_left h]

/-- The four writes of `buildIdx` amount to one write of the 16-byte record. -/
theorem buildIdx_idxBuf (s : Muxer) (n : Nat) (h : s.idxPtr + 16 ≤ s.idxBuf.length) :
    (buildIdx s n).idxBuf
      = memWrite s.idxBuf s.idxPtr
          (dcBuf ++ zeroBuf ++ littleEndian s.idxOffset ++ littleEndian n) := by
  obtain ⟨A, C, hAC, hA⟩ : ∃ A C, s.idxBuf = A ++ C ∧ A.length = s.idxPtr :=
    ⟨s.idxBuf.take s.idxPtr, s.idxBuf.drop s.idxPtr, (List.take_append_drop _ _).symm, by
      rw [List.length_take]; omega⟩
  simp only [buildIdx]
  rw [hAC, ← hA]
  have e1 := memWrite_twice A C dcBuf zeroBuf
  have e2 := memWrite_twice A C (dcBuf ++ zeroBuf) (littleEndian s.idxOffset)
  have e3 := memWrite_twice A C (dcBuf ++ zeroBuf ++ littleEndian s.idxOffset) (littleEndian n)
  simp only [List.length_append, length_littleEndian, dcBuf, zeroBuf, List.length_cons,
    List.length_nil] at e1 e2 e3
  simp only [dcBuf, zeroBuf]
  rw [e1, e2, e3]

theorem buildIdx_record (s : Muxer) (n : Nat) (h : s.idxPtr + 16 ≤ s.idxBuf.length) :
    memRead (buildIdx s n).idxBuf s.idxPtr 16
      = dcBuf ++ zeroBuf ++ littleEndian s.idxOffset ++ littleEndian n := by
  rw [buildIdx_idxBuf s n h]
  have := memRead_memWrite_self s.idxBuf s.idxPtr
    (dcBuf ++ zeroBuf ++ littleEndian s.idxOffset ++ littleEndian n) (by omega)
  simpa [dcBuf, zeroBuf, length_littleEndian] using this

theorem idxPtr_buildIdxAll (fs : List (List Nat)) (s : Muxer) (h : s.idxPtr < 65536) :
    (buildIdxAll s fs).idxPtr = (s.idxPtr + 16 * fs.length) % 65536 := by
  induction fs generalizing s with
  | nil => simp [buildIdxAll]; omega
  | cons j rest ih =>
    simp only [buildIdxAll, List.length_cons]
    rw [ih (buildIdx s j.length) (by simp only [buildIdx]; omega)]
    simp only [buildIdx, IDX_ENTRY]
    omega

theorem idxPtr_lt_buildIdxAll (fs : List (List Nat)) (s : Muxer) (h : s.idxPtr < 65536) :
    (buildIdxAll s fs).idxPtr < 65536 := by
  rw [idxPtr_buildIdxAll fs s h]
  exact Nat.mod_lt _ (by norm_num)

theorem buildIdxAll_take_succ (s : Muxer) (frames : List (List Nat)) (k : Nat) (jpeg : List Nat)
    (hk : frames[k]? = some jpeg) :
    buildIdxAll s (frames.take (k + 1)) = buildIdx (buildIdxAll s (frames.take k)) jpeg.length := by
  have : frames.take (k + 1) = frames.take k ++ [jpeg] := by
    rw [List.take_succ, hk]; rfl
  rw [this, buildIdxAll_append]
  rfl

/-- The audio entry that `buildAVIhdr` writes, as one record. -/
theorem buildAVIhdr_audio_idx (s : Muxer) (buf : List Nat) (h : s.haveSoundFile = true) :
    (buildAVIhdr s buf).2.1.idxBuf
        = memWrite (freshIdxBuf s) 8 (wbBuf ++ zeroBuf ++ littleEndian 4 ++ littleEndian s.audSize) ∧
    (buildAVIhdr s buf).2.1.idxPtr = 24 ∧
    (buildAVIhdr s buf).2.1.idxOffset = (4 + s.audSize + 8) % 4294967296 := by
  have hl := length_freshIdxBuf s
  obtain ⟨A, C, hAC, hA⟩ : ∃ A C, freshIdxBuf s = A ++ C ∧ A.length = 8 :=
    ⟨(freshIdxBuf s).take 8, (freshIdxBuf s).drop 8, (List.take_append_drop _ _).symm, by
      rw [List.length_take, hl]; rfl⟩
  have e1 := memWrite_twice A C wbBuf zeroBuf
  have e2 := memWrite_twice A C (wbBuf ++ zeroBuf) (littleEndian 4)
  have e3 := memWrite_twice A C (wbBuf ++ zeroBuf ++ littleEndian 4) (littleEndian s.audSize)
  simp only [List.length_append, length_littleEndian, wbBuf, zeroBuf, List.length_cons,
    List.length_nil, hA] at e1 e2 e3
  simp only [buildAVIhdr, h, if_true, CHUNK_HDR, IDX_ENTRY]
  refine ⟨?_, by trivial, by trivial⟩
  rw [hAC]
  simp only [wbBuf, zeroBuf]
  rw [e1, e2, e3]

theorem buildAVIhdr_idx_bounds (s : Muxer) (buf : List Nat) :
    (buildAVIhdr s buf).2.1.idxPtr < 65536 ∧ (buildAVIhdr s buf).2.1.idxBuf.length = 320016 := by
  have hl := length_freshIdxBuf s
  by_cases h : s.haveSoundFile = true
  · obtain ⟨e1, e2, -⟩ := buildAVIhdr_audio_idx s buf h
    rw [e1, e2]
    refine ⟨by norm_num, ?_⟩
    rw [length_memWrite _ _ _ (by
      simp only [List.length_append, length_littleEndian, wbBuf, zeroBuf, List.length_cons,
        List.length_nil, hl]; norm_num), hl]
  · have h' : s.haveSoundFile = false := by simpa using h
    simp only [buildAVIhdr, h', Bool.false_eq_true, if_false, CHUNK_HDR]
    exact ⟨by norm_num, hl⟩

/-! ## C10: the running offset -/

/-- C10.  In every session each index append records the running offset and then
advances it by the chunk's size plus 8.  With `s` the state `buildAVIhdr` leaves:
without audio the running offset starts at 4; with audio `buildAVIhdr` has written the
record `01wb`, 0, offset 4, `audSize` at the first slot and advanced the offset to
`4 + audSize + 8`; and the `k`-th call of `buildIdx`, for the JPEG `jpeg`, writes the
record `00dc`, 0, running offset, size at the write cursor and leaves the running offset
larger by `jpeg.length + 8`, hence strictly larger, as long as the sums stay below
`2 ^ 32`. -/
theorem index_append_records_offset_then_advances (s0 : Muxer) (clientBuf : List Nat)
    (frames : List (List Nat)) (k : Nat) (jpeg : List Nat)
    (hk : frames[k]? = some jpeg)
    (hno : (buildIdxAll (buildAVIhdr s0 clientBuf).2.1 (frames.take k)).idxOffset
      + jpeg.length + 8 < 4294967296) :
    (s0.haveSoundFile = false → (buildAVIhdr s0 clientBuf).2.1.idxOffset = 4) ∧
    (s0.haveSoundFile = true → 4 + s0.audSize + 8 < 4294967296 →
      memRead (buildAVIhdr s0 clientBuf).2.1.idxBuf 8 16
          = wbBuf ++ zeroBuf ++ littleEndian 4 ++ littleEndian s0.audSize ∧
      (buildAVIhdr s0 clientBuf).2.1.idxOffset = 4 + s0.audSize + 8) ∧
    memRead (buildIdxAll (buildAVIhdr s0 clientBuf).2.1 (frames.take (k + 1))).idxBuf
        (buildIdxAll (buildAVIhdr s0 clientBuf).2.1 (frames.take k)).idxPtr 16
      = dcBuf ++ zeroBuf
          ++ littleEndian (buildIdxAll (buildAVIhdr s0 clientBuf).2.1 (frames.take k)).idxOffset
          ++ littleEndian jpeg.length ∧
    (buildIdxAll (buildAVIhdr s0 clientBuf).2.1 (frames.take (k + 1))).idxOffset
      = (buildIdxAll (buildAVIhdr s0 clientBuf).2.1 (frames.take k)).idxOffset
          + jpeg.length + 8 ∧
    (buildIdxAll (buildAVIhdr s0 clientBuf).2.1 (frames.take k)).idxOffset
      < (buildIdxAll (buildAVIhdr s0 clientBuf).2.1 (frames.take (k + 1))).idxOffset := by
  obtain ⟨hp, hl⟩ := buildAVIhdr_idx_bounds s0 clientBuf
  obtain ⟨s, hs⟩ : ∃ s, s = (buildAVIhdr s0 clientBuf).2.1 := ⟨_, rfl⟩
  rw [← hs] at hp hl hno ⊢
  have hstep := buildIdxAll_take_succ s frames k jpeg hk
  obtain ⟨t, ht⟩ : ∃ t, t = buildIdxAll s (frames.take k) := ⟨_, rfl⟩
  have tp : t.idxPtr < 65536 := by rw [ht]; exact idxPtr_lt_buildIdxAll _ s hp
  have tl : t.idxBuf.length = 320016 := by
    rw [ht, length_buildIdxAll _ s hp (by rw [hl]; norm_num), hl]
  rw [← ht] at hstep hno ⊢
  rw [hstep]
  have hoff : (buildIdx t jpeg.length).idxOffset = t.idxOffset + jpeg.length + 8 := by
    simp only [buildIdx, CHUNK_HDR]
    exact Nat.mod_eq_of_lt hno
  refine ⟨?_, ?_, buildIdx_record t jpeg.length (by rw [tl]; omega), hoff, by rw [hoff]; omega⟩
  · intro h
    rw [hs]
    simp [buildAVIhdr, h]
  · intro h haud
    obtain ⟨e1, -, e3⟩ := buildAVIhdr_audio_idx s0 clientBuf h
    rw [hs, e1, e3]
    refine ⟨?_, Nat.mod_eq_of_lt haud⟩
    have := memRead_memWrite_self (freshIdxBuf s0) 8
      (wbBuf ++ zeroBuf ++ littleEndian 4 ++ littleEndian s0.audSize)
      (by rw [length_freshIdxBuf]; norm_num)
    simpa [wbBuf, zeroBuf, length_littleEndian] using this

set_option maxRecDepth 100000 in
theorem index_append_records_offset_then_advances_witness :
    [[1, 2, 3], [4, 5]][1]? = some [4, 5] ∧
    (buildIdxAll (buildAVIhdr (isAVI Muxer.init 8 25 0 2 200 (some ⟨List.replicate 50 0, 0⟩)).2
        []).2.1 (List.take 1 [[1, 2, 3], [4, 5]])).idxOffset + [4, 5].length + 8 < 4294967296 ∧
    (isAVI Muxer.init 8 25 0 2 200 (some ⟨List.replicate 50 0, 0⟩)).2.haveSoundFile = true ∧
    memRead (buildIdxAll (buildAVIhdr (isAVI Muxer.init 8 25 0 2 200
          (some ⟨List.replicate 50 0, 0⟩)).2 []).2.1 (List.take (1 + 1) [[1, 2, 3], [4, 5]])).idxBuf
        (buildIdxAll (buildAVIhdr (isAVI Muxer.init 8 25 0 2 200
          (some ⟨List.replicate 50 0, 0⟩)).2 []).2.1 (List.take 1 [[1, 2, 3], [4, 5]])).idxPtr 16
      = dcBuf ++ zeroBuf
          ++ littleEndian (buildIdxAll (buildAVIhdr (isAVI Muxer.init 8 25 0 2 200
              (some ⟨List.replicate 50 0, 0⟩)).2 []).2.1
              (List.take 1 [[1, 2, 3], [4, 5]])).idxOffset
          ++ littleEndian [4, 5].length :=
  ⟨by decide, by decide, by decide,
   (index_append_records_offset_then_advances
      (isAVI Muxer.init 8 25 0 2 200 (some ⟨List.replicate 50 0, 0⟩)).2 []
      [[1, 2, 3], [4, 5]] 1 [4, 5] (by decide) (by decide)).2.2.1⟩

/-! ## C9: the 16-bit write cursor -/

theorem idxOffset_buildIdxAll (fs : List (List Nat)) (s : Muxer) :
    (buildIdxAll s fs).idxOffset
      = if fs = [] then s.idxOffset
        else (s.idxOffset + (fs.map (fun j => j.length + 8)).sum) % 4294967296 := by
  induction fs generalizing s with
  | nil => simp [buildIdxAll]
  | cons j rest ih =>
    simp only [buildIdxAll, List.map_cons, List.sum_cons, reduceCtorEq, if_false]
    rw [ih (buildIdx s j.length)]
    split
    · next h => subst h; simp [buildIdx, CHUNK_HDR, Nat.add_assoc]
    · simp only [buildIdx, CHUNK_HDR]
      omega

/-- The record that the append number 4097 writes lands on the first record. -/
theorem buildIdxAll_wraps (s : Muxer) (frames : List (List Nat)) (last : List Nat)
    (hp : s.idxPtr = 8) (hl : s.idxBuf.length = 320016) (hn : frames.length = 4096) :
    (buildIdxAll s frames).idxPtr = 8 ∧
    memRead (buildIdxAll s (frames ++ [last])).idxBuf 8 16
      = dcBuf ++ zeroBuf ++ littleEndian (buildIdxAll s frames).idxOffset
          ++ littleEndian last.length := by
  have hptr : (buildIdxAll s frames).idxPtr = 8 := by
    rw [idxPtr_buildIdxAll frames s (by rw [hp]; norm_num), hp, hn]
  refine ⟨hptr, ?_⟩
  rw [buildIdxAll_append]
  have hlen : (buildIdxAll s frames).idxBuf.length = 320016 := by
    rw [length_buildIdxAll frames s (by rw [hp]; norm_num) (by rw [hl]; norm_num), hl]
  have := buildIdx_record (buildIdxAll s frames) last.length (by rw [hptr, hlen]; norm_num)
  rw [hptr] at this
  exact this

theorem startVideoOnly_noAudio (ft fps fc : Int) (n : Nat) :
    (startVideoOnly ft fps fc n).haveSoundFile = false := by
  by_cases h : (fc % 65536).toNat > 0 <;>
    simp [startVideoOnly, isAVI, Muxer.init, soundFile, h]

/-- C9. An append overwrites an earlier record at 4097 index records, well below
`MAX_FRAMES`: `idxPtr` is a 16-bit cursor, so after 4096 appends it is back at byte 8, and append number 4097 (running
offset `4 + 9 * 4096 = 36868`) is written over the first record (offset 4) although
`idxBuf` has room for 20001 records. -/
theorem index_cursor_wraps_onto_first_record :
    memRead (buildIdxAll (stateAfterHeader (startVideoOnly 8 25 4097 381057) [])
        (List.replicate 1 [0])).idxBuf 8 16
      = dcBuf ++ zeroBuf ++ littleEndian 4 ++ littleEndian 1 ∧
    (buildIdxAll (stateAfterHeader (startVideoOnly 8 25 4097 381057) [])
        (List.replicate 4096 [0])).idxPtr = 8 ∧
    memRead (buildIdxAll (stateAfterHeader (startVideoOnly 8 25 4097 381057) [])
        (List.replicate 4097 [0])).idxBuf 8 16
      = dcBuf ++ zeroBuf ++ littleEndian 36868 ++ littleEndian 1 ∧
    memRead (buildIdxAll (stateAfterHeader (startVideoOnly 8 25 4097 381057) [])
        (List.replicate 4097 [0])).idxBuf 8 16
      ≠ memRead (buildIdxAll (stateAfterHeader (startVideoOnly 8 25 4097 381057) [])
        (List.replicate 1 [0])).idxBuf 8 16 := by
  obtain ⟨S, hS⟩ : ∃ S, S = stateAfterHeader (startVideoOnly 8 25 4097 381057) [] := ⟨_, rfl⟩
  have hna := startVideoOnly_noAudio 8 25 4097 381057
  have hidx := idxOf_stateAfterHeader (startVideoOnly 8 25 4097 381057) [] hna
  rw [← hS] at hidx ⊢
  have hp : S.idxPtr = 8 := congrArg (fun t => t.2.1) hidx
  have ho : S.idxOffset = 4 := congrArg (fun t => t.2.2) hidx
  have hb : S.idxBuf = freshIdxBuf (startVideoOnly 8 25 4097 381057) := congrArg (fun t => t.1) hidx
  have hl : S.idxBuf.length = 320016 := by rw [hb, length_freshIdxBuf]
  have first : memRead (buildIdxAll S (List.replicate 1 [0])).idxBuf 8 16
      = dcBuf ++ zeroBuf ++ littleEndian 4 ++ littleEndian 1 := by
    have := buildIdx_record S 1 (by rw [hp, hl]; norm_num)
    rw [hp, ho] at this
    exact this
  have hlen : (List.replicate 4096 [0] : List (List Nat)).length = 4096 := List.length_replicate _ _
  obtain ⟨w1, w2⟩ := buildIdxAll_wraps S (List.replicate 4096 [0]) [0] hp hl hlen
  have hoff : (buildIdxAll S (List.replicate 4096 [0])).idxOffset = 36868 := by
    rw [idxOffset_buildIdxAll,
      if_neg (by intro h; have := congrArg List.length h; rw [hlen] at this; simp at this), ho,
      List.map_replicate, List.sum_replicate]
    rfl
  have last : memRead (buildIdxAll S (List.replicate 4097 [0])).idxBuf 8 16
      = dcBuf ++ zeroBuf ++ littleEndian 36868 ++ littleEndian 1 := by
    have e : (List.replicate (4096 + 1) [0] : List (List Nat)) = List.replicate 4096 [0] ++ [[0]] :=
      List.replicate_succ' _ _
    show memRead (buildIdxAll S (List.replicate (4096 + 1) [0])).idxBuf 8 16 = _
    rw [e, w2, hoff]
    rfl
  refine ⟨first, w1, last, ?_⟩
  rw [first, last]
  decide

/-! ## C1, C2, C5: clusters that end inside the trailing boundary -/

set_option maxRecDepth 100000 in
/-- C1. The bytes a session returns do not always add up to 310 + 8 F + the JPEG sizes
+ 8 + 16 F. For a one-frame clip (a 50-byte JPEG, 178 clip bytes) read in clusters of 150
bytes the calls return 310, 58, 28, 24 and then 0, which sums to 420, while the formula
(and the size the header announces) gives 392. The 28
extra bytes are the part of the trailing boundary that fell into the second cluster;
they are returned as if they were video data. -/
theorem trailing_boundary_sent_as_data :
    sessionReturns [List.replicate 50 7] 150 300 5 = [310, 58, 28, 24, 0] ∧
    sumUntilZero (sessionReturns [List.replicate 50 7] 150 300 5) = 420 ∧
    expectedTotal [List.replicate 50 7] = 392 := by
  decide

set_option maxRecDepth 100000 in
/-- C2. The output of the video stage depends on the cluster size when the trailing
boundary straddles two clusters: the one-frame
clip with a 50-byte JPEG gives the AVI chunk alone when read in clusters of 200 bytes, and
the AVI chunk followed by the last 28 bytes of the boundary when read in clusters of 150
bytes. -/
theorem cluster_size_changes_output :
    videoStageOutput [List.replicate 50 7] 200 300 = some (aviChunks [List.replicate 50 7]) ∧
    videoStageOutput [List.replicate 50 7] 150 300
      = some (aviChunks [List.replicate 50 7] ++ _STREAM_BOUNDARY.drop 8) ∧
    videoStageOutput [List.replicate 50 7] 150 300
      ≠ videoStageOutput [List.replicate 50 7] 200 300 := by
  decide

set_option maxRecDepth 100000 in
/-- C5. A call returns 0 before the index when a cluster holds nothing but the trailing
boundary: for the
one-frame clip with an 8-byte JPEG (136 clip bytes, no framing block straddles a cluster)
read in clusters of 100 bytes the calls return 310, 16, 0, 24, 0. The third call returns 0
with `theEnd` still false and no index byte sent; the index follows in the fourth. -/
theorem zero_returned_before_index :
    sessionReturns [[1, 2, 3, 4, 5, 6, 7, 8]] 100 300 5 = [310, 16, 0, 24, 0] ∧
    NoStraddle 100 0 [[1, 2, 3, 4, 5, 6, 7, 8]] ∧
    ((runCalls 100 3 (startVideoOnly 8 25 1 136) ⟨clipBytes [[1, 2, 3, 4, 5, 6, 7, 8]], 0⟩
        (List.replicate 300 0)).map (fun r => (r.ret, r.state.theEnd, r.state.iPtr, r.fh.available)))
      = [(310, false, 0, 136), (16, false, 0, 36), (0, false, 0, 0)] := by
  decide

/-! ## C7: the call after the index -/

theorem isAVI_accepts (s : Muxer) (m0 m1 m2 m3 : Int) (size : Nat) (wav : Option File)
    (h : (isAVI s m0 m1 m2 m3 size wav).1 = true) :
    (isAVI s m0 m1 m2 m3 size wav).2.doAVI = true ∧
    (isAVI s m0 m1 m2 m3 size wav).2.doAVIheader = true ∧
    (isAVI s m0 m1 m2 m3 size wav).2.theEnd = s.theEnd := by
  unfold isAVI at h ⊢
  dsimp only at h ⊢
  by_cases hc : (if !s.aviOn then 0 else (m3 % 65536).toNat) > 0
  · rw [if_pos hc]
    cases wav <;> simp [soundFile]
  · rw [if_neg hc] at h
    simp at h

/-- C7 (amended). The call that follows the last slice of the index (`theEnd` is set)
returns 0, clears `theEnd` and sets `jStart`, `jEnd`, `iPtr` and `hdrOffset` to 0; it
leaves `doAVI` and `doAVIheader` as they were. The header becomes pending when `isAVI`
accepts the next clip: the call after that is the header call, it returns the 310 bytes of
the header (318 with audio) and leaves the state of `buildAVIhdr`. -/
theorem end_call_resets_cursors_isAVI_rearms_header (s : Muxer) (fh : File) (buf : List Nat)
    (b : Nat) (h : s.theEnd = true) :
    ∃ r : CallResult, readClientBuf s fh buf b = some r ∧ r.ret = 0 ∧
      r.state.jStart = 0 ∧ r.state.jEnd = 0 ∧ r.state.iPtr = 0 ∧ r.state.hdrOffset = 0 ∧
      r.state.theEnd = false ∧
      r.state.doAVI = s.doAVI ∧ r.state.doAVIheader = s.doAVIheader ∧
      ∀ (m0 m1 m2 m3 : Int) (size : Nat) (wav : Option File) (fh2 : File) (buf2 : List Nat)
        (b2 : Nat), (isAVI r.state m0 m1 m2 m3 size wav).1 = true →
        ∃ r2 : CallResult,
          readClientBuf (isAVI r.state m0 m1 m2 m3 size wav).2 fh2 buf2 b2 = some r2 ∧
          r2.ret = (if (isAVI r.state m0 m1 m2 m3 size wav).2.haveSoundFile then 318 else 310) ∧
          r2.state = stateAfterHeader (isAVI r.state m0 m1 m2 m3 size wav).2 buf2 ∧
          r2.state.doAVIheader = false ∧ r2.state.framePtr = 0 := by
  refine ⟨_, readClientBuf_end s fh buf b h, rfl, rfl, rfl, rfl, rfl, rfl, rfl, rfl, ?_⟩
  intro m0 m1 m2 m3 size wav fh2 buf2 b2 hacc
  obtain ⟨a1, a2, a3⟩ := isAVI_accepts _ m0 m1 m2 m3 size wav hacc
  refine ⟨_, readClientBuf_header _ fh2 buf2 b2 (by rw [a3]) a1 a2, ?_, rfl, ?_, ?_⟩
  · show (buildAVIhdr _ buf2).1 = _
    unfold buildAVIhdr
    split <;> simp_all [AVI_HEADER_LEN]
  · show (buildAVIhdr _ buf2).2.1.doAVIheader = false
    unfold buildAVIhdr
    split <;> rfl
  · show (buildAVIhdr _ buf2).2.1.framePtr = 0
    unfold buildAVIhdr
    split <;> rfl

set_option maxRecDepth 100000 in
theorem end_call_resets_cursors_isAVI_rearms_header_witness :
    stateAfterIndex.theEnd = true ∧
    ∃ r : CallResult,
      readClientBuf stateAfterIndex ⟨clipBytes [[7]], 129⟩ (List.replicate 300 0) 200 = some r ∧
      r.ret = 0 ∧ r.state.theEnd = false ∧ r.state.doAVIheader = stateAfterIndex.doAVIheader ∧
      ∃ r2 : CallResult,
        readClientBuf (isAVI r.state 8 25 0 2 222 none).2 ⟨clipBytes [[7], [8]], 0⟩
          (List.replicate 300 0) 200 = some r2 ∧
        r2.ret = (if (isAVI r.state 8 25 0 2 222 none).2.haveSoundFile then 318 else 310) :=
  ⟨by decide, by
    obtain ⟨r, hr, h0, -, -, -, -, hte, -, hd, hnext⟩ :=
      end_call_resets_cursors_isAVI_rearms_header stateAfterIndex ⟨clipBytes [[7]], 129⟩
        (List.replicate 300 0) 200 (by decide)
    have hacc : (isAVI r.state 8 25 0 2 222 none).1 = true := by
      rw [readClientBuf_end _ _ _ _ (by decide)] at hr
      cases hr
      decide
    obtain ⟨r2, hr2, hret2, -⟩ :=
      hnext 8 25 0 2 222 none ⟨clipBytes [[7], [8]], 0⟩ (List.replicate 300 0) 200 hacc
    exact ⟨r, hr, h0, hte, hd, r2, hr2, hret2⟩⟩

set_option maxRecDepth 100000 in
/-- C7, counterexample. A one-frame upload in one cluster: the calls return 310, 9, 24 and
0; the call that returned 0 leaves `doAVIheader` false, and the call after it returns the
24 bytes of the index again, not a header. -/
theorem call_after_end_sends_index_not_header :
    sessionReturns [[7]] 200 300 5 = [310, 9, 24, 0, 24] ∧
    ((clipSession (clipBytes [[7]]) 1 200 300 4).drop 3).map
        (fun r => (r.ret, r.state.theEnd, r.state.doAVI, r.state.doAVIheader, r.fh.available))
      = [(0, false, true, false, 0)] := by
  decide

/-! ## C8: the example session -/

/-- C8 (amended). The example clip (frame type 8, 25 fps, declared frame count 3, JPEGs of
1000, 1200 and 900 bytes, no audio) in one cluster: the calls return 310, 3124 and 56 bytes,
3490 in total, and then 0; the index block is `idx1`, the size 48 and three `00dc` records
with the offsets 4, 1012, 2220 (counted from the `movi` tag) and the sizes 1000, 1200,
900. -/
theorem example_session_total_and_index (j1 j2 j3 : List Nat) (h1 : j1.length = 1000)
    (h2 : j2.length = 1200) (h3 : j3.length = 900) (b : Nat) (hb : 3412 ≤ b) (buf : List Nat) :
    ∃ r1 r2 r3 r4 : CallResult,
      runCalls b 4 (startVideoOnly 8 25 3 3412) ⟨clipBytes [j1, j2, j3], 0⟩ buf
        = [r1, r2, r3, r4] ∧
      r1.ret + r2.ret + r3.ret = 3490 ∧ r4.ret = 0 ∧
      r3.output = idx1Buf ++ littleEndian 48
        ++ (dcBuf ++ zeroBuf ++ littleEndian 4 ++ littleEndian 1000)
        ++ (dcBuf ++ zeroBuf ++ littleEndian 1012 ++ littleEndian 1200)
        ++ (dcBuf ++ zeroBuf ++ littleEndian 2220 ++ littleEndian 900) := by
  obtain ⟨r1, r2, r3, r4, hrun, e1, e2, e3, e4, eo⟩ := session_example j1 j2 j3 h1 h2 h3 b hb buf
  exact ⟨r1, r2, r3, r4, hrun, by rw [e1, e2, e3], e4, eo⟩

theorem example_session_total_and_index_witness :
    (List.replicate 1000 1).length = 1000 ∧ (List.replicate 1200 2).length = 1200 ∧
    (List.replicate 900 3).length = 900 ∧ 3412 ≤ 4000 ∧
    ∃ r1 r2 r3 r4 : CallResult,
      runCalls 4000 4 (startVideoOnly 8 25 3 3412)
          ⟨clipBytes [List.replicate 1000 1, List.replicate 1200 2, List.replicate 900 3], 0⟩
          (List.replicate 8000 0)
        = [r1, r2, r3, r4] ∧
      r1.ret + r2.ret + r3.ret = 3490 ∧ r4.ret = 0 :=
  ⟨List.length_replicate _ _, List.length_replicate _ _, List.length_replicate _ _, by decide,
   (example_session_total_and_index (List.replicate 1000 1) (List.replicate 1200 2)
      (List.replicate 900 3) (List.length_replicate _ _) (List.length_replicate _ _)
      (List.length_replicate _ _) 4000 (by decide) (List.replicate 8000 0)).imp
    (fun _ h1 => h1.imp (fun _ h2 => h2.imp (fun _ h3 => h3.imp
      (fun _ h4 => ⟨h4.1, h4.2.1, h4.2.2.1⟩))))⟩

/-- C8, counterexample. In the index block of the example session the three offset fields
(bytes 16, 32 and 48 of the block) hold 4, 1012 and 2220, not 0, 1008 and 2208. -/
theorem example_index_offsets_start_at_four :
    ∃ r1 r2 r3 r4 : CallResult,
      runCalls 4000 4 (startVideoOnly 8 25 3 3412)
          ⟨clipBytes [List.replicate 1000 1, List.replicate 1200 2, List.replicate 900 3], 0⟩
          (List.replicate 8000 0)
        = [r1, r2, r3, r4] ∧
      memRead r3.output 16 4 = littleEndian 4 ∧ memRead r3.output 32 4 = littleEndian 1012 ∧
      memRead r3.output 48 4 = littleEndian 2220 ∧
      memRead r3.output 16 4 ≠ littleEndian 0 ∧ memRead r3.output 32 4 ≠ littleEndian 1008 ∧
      memRead r3.output 48 4 ≠ littleEndian 2208 := by
  obtain ⟨r1, r2, r3, r4, hrun, -, -, -, -, eo⟩ :=
    session_example (List.replicate 1000 1) (List.replicate 1200 2) (List.replicate 900 3)
      (List.length_replicate _ _) (List.length_replicate _ _) (List.length_replicate _ _)
      4000 (by decide) (List.replicate 8000 0)
  refine ⟨r1, r2, r3, r4, hrun, ?_⟩
  rw [eo]
  decide

/-! ## The fields of the AVI header -/

theorem patchedHeader_eq_applyWrites (s : Muxer) :
    patchedHeader s = applyWrites s.aviHeader (headerWrites s) := by
  unfold patchedHeader headerWrites applyWrites aviSize moviSize
  cases s.haveSoundFile <;> rfl

theorem memRead_memWrite_of_disjoint (buf : List Nat) (off : Nat) (d : List Nat) (o n : Nat)
    (hoff : off ≤ buf.length) (h : o + n ≤ off ∨ off + d.length ≤ o) :
    memRead (memWrite buf off d) o n = memRead buf o n := by
  unfold memRead memWrite
  rcases h with h | h
  · have e : buf.take off ++ d ++ buf.drop (off + d.length)
        = buf.take off ++ (d ++ buf.drop (off + d.length)) := by simp
    have l1 : (buf.take off).length = off := by simp [hoff]
    rw [e, List.drop_append_eq_append_drop, List.take_append_eq_append_take]
    have : n - (List.drop o (buf.take off)).length = 0 := by
      simp [l1]; omega
    rw [this, List.take_zero, List.append_nil, List.drop_take]
    rw [List.take_take]
    congr 1
    omega
  · have l1 : (buf.take off ++ d).length = off + d.length := by simp [hoff]
    rw [List.drop_append_eq_append_drop, l1]
    have : List.drop o (buf.take off ++ d) = [] := by
      apply List.drop_eq_nil_of_le; omega
    rw [this, List.nil_append, List.drop_drop]
    congr 2
    omega

theorem applyWrites_cons (buf : List Nat) (w : Nat × List Nat) (ws : List (Nat × List Nat)) :
    applyWrites buf (w :: ws) = applyWrites (memWrite buf w.1 w.2) ws := rfl

theorem length_applyWrites (ws : List (Nat × List Nat)) (buf : List Nat)
    (h : ∀ w ∈ ws, w.1 + w.2.length ≤ buf.length) :
    (applyWrites buf ws).length = buf.length := by
  induction ws generalizing buf with
  | nil => rfl
  | cons w ws ih =>
    have hw := h w (List.mem_cons_self _ _)
    have hl := length_memWrite buf w.1 w.2 hw
    rw [applyWrites_cons, ih _ (fun v hv => by rw [hl]; exact h v (List.mem_cons_of_mem _ hv)), hl]

theorem memRead_applyWrites_of_disjoint (ws : List (Nat × List Nat)) (buf : List Nat)
    (o n : Nat) (h : ∀ w ∈ ws, w.1 + w.2.length ≤ buf.length)
    (hd : ∀ w ∈ ws, o + n ≤ w.1 ∨ w.1 + w.2.length ≤ o) :
    memRead (applyWrites buf ws) o n = memRead buf o n := by
  induction ws generalizing buf with
  | nil => rfl
  | cons w ws ih =>
    have hw := h w (List.mem_cons_self _ _)
    have hl := length_memWrite buf w.1 w.2 hw
    rw [applyWrites_cons,
      ih _ (fun v hv => by rw [hl]; exact h v (List.mem_cons_of_mem _ hv))
        (fun v hv => hd v (List.mem_cons_of_mem _ hv)),
      memRead_memWrite_of_disjoint _ _ _ _ _ (by omega) (hd w (List.mem_cons_self _ _))]

/-- Writes to pairwise disjoint ranges inside the buffer: each range holds afterwards what
was written to it. -/
theorem memRead_applyWrites_mem (ws : List (Nat × List Nat)) (buf : List Nat)
    (h : ∀ w ∈ ws, w.1 + w.2.length ≤ buf.length)
    (hp : ws.Pairwise (fun a b => b.1 + b.2.length ≤ a.1 ∨ a.1 + a.2.length ≤ b.1))
    (w : Nat × List Nat) (hw : w ∈ ws) :
    memRead (applyWrites buf ws) w.1 w.2.length = w.2 := by
  induction ws generalizing buf with
  | nil => simp at hw
  | cons v ws ih =>
    have hv := h v (List.mem_cons_self _ _)
    have hl := length_memWrite buf v.1 v.2 hv
    rw [List.pairwise_cons] at hp
    rw [applyWrites_cons]
    rcases List.mem_cons.1 hw with rfl | hmem
    · rw [memRead_applyWrites_of_disjoint ws _ _ _
        (fun u hu => by rw [hl]; exact h u (List.mem_cons_of_mem _ hu))
        (fun u hu => by have := hp.1 u hu; omega)]
      exact memRead_memWrite_self _ _ _ (by omega)
    · exact ih _ (fun u hu => by rw [hl]; exact h u (List.mem_cons_of_mem _ hu)) hp.2 hmem

theorem length_frameSizeRow (t : Nat) :
    (frameSizeRow t).frameWidth.length = 2 ∧ (frameSizeRow t).frameHeight.length = 2 := by
  unfold frameSizeRow
  rcases Nat.lt_or_ge t 14 with h | h
  · interval_cases t <;> exact ⟨rfl, rfl⟩
  · rw [List.getD_eq_default _ _ (by simpa [frameSizeData] using h)]
    exact ⟨rfl, rfl⟩

theorem headerWrites_inBounds (s : Muxer) :
    ∀ w ∈ headerWrites s, w.1 + w.2.length ≤ 310 := by
  obtain ⟨w2, h2⟩ := length_frameSizeRow s.frameType
  intro w hw
  unfold headerWrites at hw
  cases hs : s.haveSoundFile
  · simp only [hs, if_false, Bool.false_eq_true, List.append_nil, List.cons_append,
      List.nil_append, List.mem_cons, List.mem_singleton, List.not_mem_nil, or_false] at hw
    rcases hw with rfl | rfl | rfl | rfl | rfl | rfl | rfl | rfl | rfl | rfl | rfl <;>
      simp [length_littleEndian, w2, h2]
  · simp only [hs, if_true, List.cons_append,
      List.nil_append, List.mem_cons, List.mem_singleton, List.not_mem_nil, or_false] at hw
    rcases hw with rfl | rfl | rfl | rfl | rfl | rfl | rfl | rfl | rfl | rfl | rfl | rfl <;>
      simp [length_littleEndian, w2, h2]

theorem headerWrites_pairwise (s : Muxer) :
    (headerWrites s).Pairwise (fun a b => b.1 + b.2.length ≤ a.1 ∨ a.1 + a.2.length ≤ b.1) := by
  obtain ⟨w2, h2⟩ := length_frameSizeRow s.frameType
  unfold headerWrites
  cases hs : s.haveSoundFile <;>
    simp [hs, length_littleEndian, w2, h2]

/-- Each field that `buildAVIhdr` writes is found in the header it leaves. -/
theorem patchedHeader_field (s : Muxer) (hl : s.aviHeader.length = 310)
    (w : Nat × List Nat) (hw : w ∈ headerWrites s) :
    memRead (patchedHeader s) w.1 w.2.length = w.2 := by
  rw [patchedHeader_eq_applyWrites]
  exact memRead_applyWrites_mem _ _ (by rw [hl]; exact headerWrites_inBounds s)
    (headerWrites_pairwise s) w hw

theorem length_patchedHeader (s : Muxer) (hl : s.aviHeader.length = 310) :
    (patchedHeader s).length = 310 := by
  rw [patchedHeader_eq_applyWrites, length_applyWrites _ _
    (by rw [hl]; exact headerWrites_inBounds s), hl]

theorem memRead_append_left (P X : List Nat) (o n : Nat) (h : o + n ≤ P.length) :
    memRead (P ++ X) o n = memRead P o n := by
  unfold memRead
  rw [List.drop_append_of_le_length (by omega), List.take_append_of_le_length]
  rw [List.length_drop]; omega

/-- The first 310 bytes that `buildAVIhdr` puts into the client buffer are the patched
header. -/
theorem memRead_buildAVIhdr (s : Muxer) (buf : List Nat) (o n : Nat)
    (hl : s.aviHeader.length = 310) (h : o + n ≤ 310) :
    memRead (buildAVIhdr s buf).2.2 o n = memRead (patchedHeader s) o n := by
  have hP := length_patchedHeader s hl
  have e0 : memWrite buf 0 (patchedHeader s) = patchedHeader s ++ buf.drop 310 := by
    simp [memWrite, hP]
  have base : memRead (memWrite buf 0 (patchedHeader s)) o n = memRead (patchedHeader s) o n := by
    rw [e0, memRead_append_left _ _ _ _ (by omega)]
  have l0 : 310 ≤ (memWrite buf 0 (patchedHeader s)).length := by
    rw [e0, List.length_append, hP]; omega
  cases hs : s.haveSoundFile
  · simp only [buildAVIhdr, hs, Bool.false_eq_true, if_false]
    exact base
  · simp only [buildAVIhdr, hs, if_true, AVI_HEADER_LEN]
    have l1 : 310 + 4 ≤ (memWrite (memWrite buf 0 (patchedHeader s)) 310 wbBuf).length := by
      simp only [memWrite, List.length_append, List.length_take, List.length_drop, wbBuf,
        List.length_cons, List.length_nil] at l0 ⊢
      omega
    rw [memRead_memWrite_of_disjoint _ _ _ _ _ l1 (Or.inl (by omega)),
      memRead_memWrite_of_disjoint _ _ _ _ _ l0 (Or.inl (by omega))]
    exact base

theorem littleEndian_mod (v : Nat) : littleEndian (v % 4294967296) = littleEndian v := by
  simp [littleEndian]

theorem leValue_littleEndian (v : Nat) : leValue (littleEndian v) = v % 4294967296 := by
  have hlt : v % 4294967296 < 4294967296 := Nat.mod_lt _ (by norm_num)
  unfold littleEndian
  generalize v % 4294967296 = w at hlt
  simp only [littleEndianLoop, leValue, List.foldr, Nat.shiftRight_eq_div_pow]
  omega

theorem streamLens : streamBoundaryLen = 36 ∧ streamPartLen = 56 := by
  constructor <;> rfl

theorem moviSize_eq (s : Muxer) (hsz : 92 * s.frameCnt + 36 ≤ s.fileSize) :
    moviSize s = (s.audSize + s.fileSize - 92 * s.frameCnt - 36) % 4294967296 := by
  unfold moviSize toUInt32
  rw [streamLens.1, streamLens.2]
  omega

/-- The container size field at offset 4, whatever the sizes: the low 32 bits of
`moviSize + 310 + 24 * (F + audio)`. -/
theorem aviSize_field (s : Muxer) (buf : List Nat) (hl : s.aviHeader.length = 310)
    (hsz : 92 * s.frameCnt + 36 ≤ s.fileSize) :
    memRead (buildAVIhdr s buf).2.2 4 4
      = littleEndian (s.audSize + s.fileSize - 92 * s.frameCnt - 36 + 310
          + 24 * (s.frameCnt + (if s.haveSoundFile then 1 else 0))) := by
  rw [memRead_buildAVIhdr s buf 4 4 hl (by norm_num)]
  have hw : ((4 : Nat), littleEndian (aviSize s)) ∈ headerWrites s := by
    unfold headerWrites
    simp only [List.mem_append, List.mem_cons, true_or, or_true]
  have hf := patchedHeader_field s hl _ hw
  rw [length_littleEndian] at hf
  have hv : aviSize s = (s.audSize + s.fileSize - 92 * s.frameCnt - 36 + 310
      + 24 * (s.frameCnt + (if s.haveSoundFile then 1 else 0))) % 4294967296 := by
    unfold aviSize
    rw [moviSize_eq s hsz]
    simp only [AVI_HEADER_LEN, CHUNK_HDR, IDX_ENTRY, entryCount]
    omega
  rw [hf, hv, littleEndian_mod]

/-! ## C11: the size of the index block against the allocation -/

/-- C11. The index block can be longer than the buffer `buildAVIhdr` allocates, and the
session goes on all the same. For a clip of 20000 frames (`MAX_FRAMES`) with audio the
header call returns its 318 bytes and sets `indexLen` to `8 + 16 * 20001 = 320024`,
while `idxBuf` has `(MAX_FRAMES + 1) * 16 = 320016` bytes: the allocation leaves out the
8 bytes of the `idx1` header. The same holds for 20001 frames without audio; no frame
count is ever refused. -/
theorem index_block_longer_than_idxBuf (fh : File) (buf : List Nat) (b : Nat) :
    (∃ r : CallResult,
      readClientBuf (isAVI Muxer.init 8 25 0 20000 1860036 (some ⟨List.replicate 50 0, 0⟩)).2
        fh buf b = some r ∧
      r.ret = 318 ∧ r.state.frameCnt = 20000 ∧ r.state.haveSoundFile = true ∧
      r.state.indexLen = 320024 ∧ r.state.idxBuf.length = 320016) ∧
    (∃ r : CallResult,
      readClientBuf (startVideoOnly 8 25 20001 1860129) fh buf b = some r ∧
      r.ret = 310 ∧ r.state.frameCnt = 20001 ∧ r.state.haveSoundFile = false ∧
      r.state.indexLen = 320024 ∧ r.state.idxBuf.length = 320016) := by
  constructor
  · obtain ⟨s, hs⟩ : ∃ s, s = (isAVI Muxer.init 8 25 0 20000 1860036
      (some ⟨List.replicate 50 0, 0⟩)).2 := ⟨_, rfl⟩
    have h1 : s.theEnd = false := by rw [hs]; decide
    have h2 : s.doAVI = true := by rw [hs]; decide
    have h3 : s.doAVIheader = true := by rw [hs]; decide
    have h4 : s.haveSoundFile = true := by rw [hs]; decide
    have h5 : s.frameCnt = 20000 := by rw [hs]; decide
    rw [← hs]
    refine ⟨_, readClientBuf_header s fh buf b h1 h2 h3, ?_, ?_, ?_, ?_, ?_⟩
    · simp [buildAVIhdr, h4, AVI_HEADER_LEN]
    · simp [stateAfterHeader, buildAVIhdr, h4, h5]
    · simp [stateAfterHeader, buildAVIhdr, h4]
    · simp [stateAfterHeader, buildAVIhdr, h4, h5, entryCount, IDX_ENTRY, CHUNK_HDR]
    · exact (buildAVIhdr_idx_bounds _ buf).2
  · obtain ⟨s, hs⟩ : ∃ s, s = startVideoOnly 8 25 20001 1860129 := ⟨_, rfl⟩
    have h1 : s.theEnd = false := by rw [hs]; decide
    have h2 : s.doAVI = true := by rw [hs]; decide
    have h3 : s.doAVIheader = true := by rw [hs]; decide
    have h4 : s.haveSoundFile = false := by rw [hs]; decide
    have h5 : s.frameCnt = 20001 := by rw [hs]; decide
    rw [← hs]
    refine ⟨_, readClientBuf_header s fh buf b h1 h2 h3, ?_, ?_, ?_, ?_, ?_⟩
    · simp [buildAVIhdr, h4, AVI_HEADER_LEN]
    · simp [stateAfterHeader, buildAVIhdr, h4, h5]
    · simp [stateAfterHeader, buildAVIhdr, h4]
    · simp [stateAfterHeader, buildAVIhdr, h4, h5, entryCount, IDX_ENTRY, CHUNK_HDR]
    · exact (buildAVIhdr_idx_bounds _ buf).2

/-! ## C12: the container size field -/

/-- C12 (amended). For a clip with declared frame count `F`, audio payload size `A` and clip
size `fileSize ≥ 92 F + 36`, provided the value `moviSize + 310 + 24 (F + audio)` with
`moviSize = A + fileSize - 92 F - 36` is below `2 ^ 32`, the header that `buildAVIhdr`
puts into the client buffer carries that value at offset 4 as a 4-byte little-endian
integer. -/
theorem container_size_field (s : Muxer) (buf : List Nat) (hl : s.aviHeader.length = 310)
    (hsz : 92 * s.frameCnt + 36 ≤ s.fileSize)
    (hfit : s.audSize + s.fileSize - 92 * s.frameCnt - 36 + 310
      + 24 * (s.frameCnt + (if s.haveSoundFile then 1 else 0)) < 4294967296) :
    memRead (buildAVIhdr s buf).2.2 4 4
      = littleEndian (s.audSize + s.fileSize - 92 * s.frameCnt - 36 + 310
          + 24 * (s.frameCnt + (if s.haveSoundFile then 1 else 0))) ∧
    leValue (memRead (buildAVIhdr s buf).2.2 4 4)
      = s.audSize + s.fileSize - 92 * s.frameCnt - 36 + 310
          + 24 * (s.frameCnt + (if s.haveSoundFile then 1 else 0)) := by
  have h := aviSize_field s buf hl hsz
  refine ⟨h, ?_⟩
  rw [h, leValue_littleEndian, Nat.mod_eq_of_lt hfit]

set_option maxRecDepth 100000 in
theorem container_size_field_witness :
    (startVideoOnly 8 25 3 3412).aviHeader.length = 310 ∧
    92 * (startVideoOnly 8 25 3 3412).frameCnt + 36 ≤ (startVideoOnly 8 25 3 3412).fileSize ∧
    leValue (memRead (buildAVIhdr (startVideoOnly 8 25 3 3412) []).2.2 4 4)
      = (startVideoOnly 8 25 3 3412).audSize + (startVideoOnly 8 25 3 3412).fileSize
          - 92 * (startVideoOnly 8 25 3 3412).frameCnt - 36 + 310
          + 24 * ((startVideoOnly 8 25 3 3412).frameCnt
              + (if (startVideoOnly 8 25 3 3412).haveSoundFile then 1 else 0)) :=
  ⟨by decide, by decide,
   (container_size_field (startVideoOnly 8 25 3 3412) [] (by decide) (by decide)
      (by decide)).2⟩

set_option maxRecDepth 100000 in
/-- C12, counterexample. A clip of one frame and 4294967295 bytes without audio: the value
of the formula is 4294967501, the field at offset 4 holds 205. -/
theorem container_size_field_wraps :
    (startVideoOnly 8 25 1 4294967295).frameCnt = 1 ∧
    (startVideoOnly 8 25 1 4294967295).audSize = 0 ∧
    (startVideoOnly 8 25 1 4294967295).haveSoundFile = false ∧
    (startVideoOnly 8 25 1 4294967295).fileSize = 4294967295 ∧
    92 * 1 + 36 ≤ 4294967295 ∧
    0 + 4294967295 - 92 * 1 - 36 + 310 + 24 * (1 + 0) = 4294967501 ∧
    memRead (buildAVIhdr (startVideoOnly 8 25 1 4294967295) []).2.2 4 4 = [205, 0, 0, 0] ∧
    leValue (memRead (buildAVIhdr (startVideoOnly 8 25 1 4294967295) []).2.2 4 4) = 205 := by
  decide

/-! ## The size field of the movi list -/

theorem length_clipBytes_sum (fs : List (List Nat)) :
    (clipBytes fs).length = 92 * fs.length + (fs.map List.length).sum + 36 := by
  induction fs with
  | nil => exact length_clipBytes_nil
  | cons j rest ih =>
    rw [length_clipBytes_cons, ih]
    simp only [List.length_cons, List.map_cons, List.sum_cons]
    omega

theorem length_aviChunks_sum (fs : List (List Nat)) :
    (aviChunks fs).length = 8 * fs.length + (fs.map List.length).sum := by
  induction fs with
  | nil => rfl
  | cons j rest ih =>
    simp only [aviChunks, aviChunk, List.length_append, length_littleEndian, ih, dcBuf,
      List.length_cons, List.length_nil, List.map_cons, List.sum_cons]
    omega

/-- The field at offset 0x12E, whatever the sizes: the low 32 bits of
`moviSize + 8 * (F + audio) + 4`. -/
theorem moviList_field (s : Muxer) (buf : List Nat) (hl : s.aviHeader.length = 310) :
    memRead (buildAVIhdr s buf).2.2 0x12E 4
      = littleEndian (moviSize s + entryCount s * 8 + 4) := by
  rw [memRead_buildAVIhdr s buf 0x12E 4 hl (by norm_num)]
  have hw : ((0x12E : Nat), littleEndian (moviSize s + entryCount s * CHUNK_HDR + 4))
      ∈ headerWrites s := by
    unfold headerWrites
    simp only [List.mem_append, List.mem_cons, true_or, or_true]
  have hf := patchedHeader_field s hl _ hw
  rw [length_littleEndian] at hf
  exact hf

/-- The field at offset 0x12E against the chunk list of the clip. For a well-formed clip
of `F` frames whose declared frame count is `F`, with audio payload size `A` (below 2 GB,
audio present exactly when `A` is not 0), the 4-byte little-endian field at header offset
0x12E is 4 (the tag `movi`), plus the audio chunk (8-byte header and `A` bytes) when there
is audio, plus the length of `aviChunks frames`: for each frame the 8-byte chunk header
and the JPEG. What a session emits between the field and `idx1` is a separate
matter. -/
theorem movi_size_field_is_list_length (s : Muxer) (buf : List Nat) (frames : List (List Nat))
    (hl : s.aviHeader.length = 310) (hwf : WellFormed frames)
    (hF : s.frameCnt = frames.length) (hsz : s.fileSize = (clipBytes frames).length)
    (haud : s.haveSoundFile = true ↔ s.audSize ≠ 0) (hA : s.audSize < 2147483648) :
    memRead (buildAVIhdr s buf).2.2 0x12E 4
      = littleEndian (4 + (if s.haveSoundFile then 8 + s.audSize else 0)
          + (aviChunks frames).length) ∧
    leValue (memRead (buildAVIhdr s buf).2.2 0x12E 4)
      = 4 + (if s.haveSoundFile then 8 + s.audSize else 0) + (aviChunks frames).length ∧
    (aviChunks frames).length = (frames.map (fun jpeg => 8 + jpeg.length)).sum := by
  have hc := length_clipBytes_sum frames
  have ha := length_aviChunks_sum frames
  have hb := hwf.2
  have hm : moviSize s = s.audSize + (frames.map List.length).sum := by
    rw [moviSize_eq s (by rw [hsz, hc, hF]; omega), hsz, hc, hF]
    omega
  have hv : moviSize s + entryCount s * 8 + 4
      = 4 + (if s.haveSoundFile then 8 + s.audSize else 0) + (aviChunks frames).length := by
    rw [hm, ha, entryCount, hF]
    by_cases h : s.haveSoundFile = true
    · simp only [h, if_true]; omega
    · have h0 : s.audSize = 0 := by
        by_contra hne
        exact h (haud.2 hne)
      have h1 : s.haveSoundFile = false := by simpa using h
      simp only [h1, Bool.false_eq_true, if_false, h0]; omega
  have hlt : 4 + (if s.haveSoundFile then 8 + s.audSize else 0) + (aviChunks frames).length
      < 4294967296 := by
    rw [ha]
    split <;> omega
  have hfield := moviList_field s buf hl
  rw [hv] at hfield
  refine ⟨hfield, ?_, length_aviChunks frames⟩
  rw [hfield, leValue_littleEndian, Nat.mod_eq_of_lt hlt]

set_option maxRecDepth 100000 in
theorem movi_size_field_is_list_length_witness :
    (isAVI Muxer.init 8 25 0 2 227 (some ⟨List.replicate 50 0, 0⟩)).2.aviHeader.length = 310 ∧
    WellFormed [[1, 2, 3], [4, 5, 6, 7]] ∧
    (isAVI Muxer.init 8 25 0 2 227 (some ⟨List.replicate 50 0, 0⟩)).2.audSize = 6 ∧
    leValue (memRead (buildAVIhdr
        (isAVI Muxer.init 8 25 0 2 227 (some ⟨List.replicate 50 0, 0⟩)).2 []).2.2 0x12E 4)
      = 4 + (if (isAVI Muxer.init 8 25 0 2 227 (some ⟨List.replicate 50 0, 0⟩)).2.haveSoundFile
              then 8 + (isAVI Muxer.init 8 25 0 2 227 (some ⟨List.replicate 50 0, 0⟩)).2.audSize
              else 0)
          + (aviChunks [[1, 2, 3], [4, 5, 6, 7]]).length :=
  ⟨by decide, by decide, by decide,
   (movi_size_field_is_list_length
      (isAVI Muxer.init 8 25 0 2 227 (some ⟨List.replicate 50 0, 0⟩)).2 []
      [[1, 2, 3], [4, 5, 6, 7]] (by decide) (by decide) (by decide) (by decide) (by decide)
      (by decide)).2.1⟩

/-! ## C14: the stream count -/

set_option maxRecDepth 100000 in
/-- C14. The stream count depends on earlier sessions. A first upload with audio (calls
returning 318, 6, 9, 40 and 0 bytes) writes 2 at offset 0x38 of the static `aviHeader`;
the header of the next upload, a clip without audio, still carries 2 there, because
`buildAVIhdr` writes the field only when there is audio. The same clip uploaded first
gets 1. -/
theorem stream_count_kept_from_earlier_session :
    (runCalls 200 5 (isAVI Muxer.init 8 25 0 1 129 (some ⟨List.replicate 50 0, 0⟩)).2
        ⟨clipBytes [[7]], 0⟩ (List.replicate 300 0)).map CallResult.ret = [318, 6, 9, 40, 0] ∧
    headerOfSecondUpload.map
        (fun r => (r.ret, r.state.haveSoundFile, r.state.audSize, memRead r.clientBuf 0x38 4))
      = some (310, false, 0, littleEndian 2) ∧
    (runCalls 200 1 (startVideoOnly 8 25 1 129) ⟨clipBytes [[7]], 0⟩ (List.replicate 300 0)).map
        (fun r => (r.ret, r.state.haveSoundFile, r.state.audSize, memRead r.clientBuf 0x38 4))
      = [(310, false, 0, littleEndian 1)] := by
  decide

/-! ## C15: the frame size fields -/

theorem frameSizeRow_of_lt (t : Nat) (h : t < 14) :
    frameSizeData[t]? = some (frameSizeRow t) := by
  unfold frameSizeRow
  interval_cases t <;> rfl

/-- C15 (amended). For every frame type below 14, the number of rows of `frameSizeData`,
the lookup of `buildAVIhdr` is inside the table, and the header carries the two width
bytes of the row at offsets 0x40 and 0xA8 and the two height bytes at offsets 0x44 and
0xAC; for frame type 8 (vga) these are 640 and 480 in little endian. -/
theorem frame_size_fields (s : Muxer) (buf : List Nat) (hl : s.aviHeader.length = 310)
    (ht : s.frameType < 14) :
    ∃ row : frameSizeStruct, frameSizeData[s.frameType]? = some row ∧
      row.frameWidth.length = 2 ∧ row.frameHeight.length = 2 ∧
      memRead (buildAVIhdr s buf).2.2 0x40 2 = row.frameWidth ∧
      memRead (buildAVIhdr s buf).2.2 0x44 2 = row.frameHeight ∧
      memRead (buildAVIhdr s buf).2.2 0xA8 2 = row.frameWidth ∧
      memRead (buildAVIhdr s buf).2.2 0xAC 2 = row.frameHeight ∧
      (s.frameType = 8 → leValue row.frameWidth = 640 ∧ leValue row.frameHeight = 480) := by
  obtain ⟨w2, h2⟩ := length_frameSizeRow s.frameType
  have m1 : ((0x40 : Nat), (frameSizeRow s.frameType).frameWidth) ∈ headerWrites s := by
    unfold headerWrites
    simp only [List.mem_append, List.mem_cons, true_or, or_true]
  have m2 : ((0x44 : Nat), (frameSizeRow s.frameType).frameHeight) ∈ headerWrites s := by
    unfold headerWrites
    simp only [List.mem_append, List.mem_cons, true_or, or_true]
  have m3 : ((0xA8 : Nat), (frameSizeRow s.frameType).frameWidth) ∈ headerWrites s := by
    unfold headerWrites
    simp only [List.mem_append, List.mem_cons, true_or, or_true]
  have m4 : ((0xAC : Nat), (frameSizeRow s.frameType).frameHeight) ∈ headerWrites s := by
    unfold headerWrites
    simp only [List.mem_append, List.mem_cons, true_or, or_true]
  have f1 := patchedHeader_field s hl _ m1
  have f2 := patchedHeader_field s hl _ m2
  have f3 := patchedHeader_field s hl _ m3
  have f4 := patchedHeader_field s hl _ m4
  simp only [w2, h2] at f1 f2 f3 f4
  refine ⟨frameSizeRow s.frameType, frameSizeRow_of_lt _ ht, w2, h2, ?_, ?_, ?_, ?_, ?_⟩
  · rw [memRead_buildAVIhdr s buf _ _ hl (by norm_num)]; exact f1
  · rw [memRead_buildAVIhdr s buf _ _ hl (by norm_num)]; exact f2
  · rw [memRead_buildAVIhdr s buf _ _ hl (by norm_num)]; exact f3
  · rw [memRead_buildAVIhdr s buf _ _ hl (by norm_num)]; exact f4
  · intro h8
    rw [h8]
    exact ⟨rfl, rfl⟩

set_option maxRecDepth 100000 in
theorem frame_size_fields_witness :
    (startVideoOnly 8 25 3 3412).aviHeader.length = 310 ∧
    (startVideoOnly 8 25 3 3412).frameType < 14 ∧
    ∃ row : frameSizeStruct, frameSizeData[(startVideoOnly 8 25 3 3412).frameType]? = some row ∧
      memRead (buildAVIhdr (startVideoOnly 8 25 3 3412) []).2.2 0x40 2 = row.frameWidth ∧
      memRead (buildAVIhdr (startVideoOnly 8 25 3 3412) []).2.2 0x44 2 = row.frameHeight :=
  ⟨by decide, by decide,
   (frame_size_fields (startVideoOnly 8 25 3 3412) [] (by decide) (by decide)).imp
     (fun _ h => ⟨h.1, h.2.2.2.1, h.2.2.2.2.1⟩)⟩

/-- C15, counterexample. The frame type 14, which `isAVI` stores as it does any value up
to 255, is past the 14 rows of `frameSizeData`. -/
theorem frame_type_past_table :
    (isAVI Muxer.init 14 25 0 1 129 none).1 = true ∧
    (isAVI Muxer.init 14 25 0 1 129 none).2.frameType = 14 ∧
    (isAVI Muxer.init 255 25 0 1 129 none).2.frameType = 255 ∧
    frameSizeData.length = 14 ∧
    frameSizeData[(isAVI Muxer.init 14 25 0 1 129 none).2.frameType]? = none := by
  decide

/-! ## C16: classification by `isAVI` -/

/-- C16 (amended). For every metadata tuple, `isAVI` returns true exactly when `aviOn` is
true and the frame count as stored in the 16-bit `frameCnt` (the parsed count modulo
65536) is not zero; it then marks the session as AVI with the header pending. Otherwise it
returns false and leaves `doAVI` false, and `readClientBuf` (no end call pending) hands
the clip on unchanged, cluster by cluster. -/
theorem isAVI_accepts_iff (s : Muxer) (m0 m1 m2 m3 : Int) (size : Nat) (wav : Option File) :
    ((isAVI s m0 m1 m2 m3 size wav).1 = true ↔ s.aviOn = true ∧ m3 % 65536 ≠ 0) ∧
    ((isAVI s m0 m1 m2 m3 size wav).1 = true →
      (isAVI s m0 m1 m2 m3 size wav).2.doAVI = true ∧
      (isAVI s m0 m1 m2 m3 size wav).2.doAVIheader = true) ∧
    ((isAVI s m0 m1 m2 m3 size wav).1 = false →
      (isAVI s m0 m1 m2 m3 size wav).2.doAVI = false ∧
      (s.theEnd = false → ∀ (fh : File) (buf : List Nat) (b : Nat),
        readClientBuf (isAVI s m0 m1 m2 m3 size wav).2 fh buf b
          = some ⟨(fh.readBytes b).length, (isAVI s m0 m1 m2 m3 size wav).2, fh.advance b,
                  memWrite buf 0 (fh.readBytes b)⟩)) := by
  have key : ((if !s.aviOn then 0 else (m3 % 65536).toNat) > 0)
      ↔ (s.aviOn = true ∧ m3 % 65536 ≠ 0) := by
    cases s.aviOn
    · simp
    · simp only [Bool.not_true, Bool.false_eq_true, if_false, true_and]
      omega
  unfold isAVI
  dsimp only
  by_cases hc : (if !s.aviOn then 0 else (m3 % 65536).toNat) > 0
  · rw [if_pos hc]
    refine ⟨⟨fun _ => key.1 hc, fun _ => rfl⟩, fun _ => ?_, fun h => by simp at h⟩
    cases wav <;> simp [soundFile]
  · rw [if_neg hc]
    refine ⟨⟨fun h => by simp at h, fun h => absurd (key.2 h) hc⟩, fun h => by simp at h,
      fun _ => ⟨rfl, ?_⟩⟩
    intro hte fh buf b
    simp [readClientBuf, hte]

/-- C16, counterexample. With conversion enabled and a parsed frame count of 65536, which
is not zero, `isAVI` returns false: the 16-bit `frameCnt` receives 0. -/
theorem isAVI_rejects_65536 :
    Muxer.init.aviOn = true ∧ (65536 : Int) ≠ 0 ∧
    (isAVI Muxer.init 8 25 0 65536 129 none).1 = false ∧
    (isAVI Muxer.init 8 25 0 65536 129 none).2.frameCnt = 0 ∧
    (isAVI Muxer.init 8 25 0 65536 129 none).2.doAVI = false := by
  decide

/-! ## C17: the ring cursor -/

theorem sampleTicks_append (a b : List Nat) (r : SampleRing) :
    sampleTicks (a ++ b) r = (sampleTicks a r).bind (sampleTicks b) := by
  induction a generalizing r with
  | nil => rfl
  | cons x a ih =>
    simp only [List.cons_append, sampleTicks]
    cases onSampleISR r x with
    | none => rfl
    | some r1 => exact ih r1

theorem RAMSIZE_eq : RAMSIZE = 5513 := rfl

/-- While the cursor stays below `RAMSIZE - 1`, each tick moves it up by one and writes
inside the ring. -/
theorem sampleTicks_up (raws : List Nat) (r : SampleRing) (hl : r.ramBuf.length = 5513)
    (h : r.ramPtr + raws.length ≤ 5512) :
    ∃ r1, sampleTicks raws r = some r1 ∧ r1.ramPtr = r.ramPtr + raws.length ∧
      r1.ramBuf.length = 5513 := by
  induction raws generalizing r with
  | nil => exact ⟨r, rfl, rfl, hl⟩
  | cons x rest ih =>
    simp only [List.length_cons] at h
    have hn : nextSlot r.ramPtr = r.ramPtr + 1 := by
      unfold nextSlot
      rw [RAMSIZE_eq, if_neg (by omega)]
      omega
    have hstep : onSampleISR r x
        = some ⟨r.ramBuf.set (r.ramPtr + 1) ((x >>> 4) % 256), r.ramPtr + 1⟩ := by
      simp only [onSampleISR, hn, hl]
      rw [if_pos (by omega)]
    obtain ⟨r1, e1, e2, e3⟩ := ih ⟨r.ramBuf.set (r.ramPtr + 1) ((x >>> 4) % 256), r.ramPtr + 1⟩
      (by simp [hl]) (by simp only []; omega)
    refine ⟨r1, ?_, ?_, e3⟩
    · simp only [sampleTicks, hstep]
      exact e1
    · rw [e2]; simp only [List.length_cons]; omega

/-- C17. The slot written is not always inside the ring. From `ramPtr = 0` the first 5512
ticks write the slots 1 to 5512; the next tick finds `ramPtr = 5512`, which is not
`>= RAMSIZE`, moves it to 5513 and writes `ramBuf[5513]`, one past the last of the
`RAMSIZE = 5513` slots. Only the tick after that takes the cursor back to 0. -/
theorem tick_writes_past_ring (raws : List Nat) (raw : Nat) (h : raws.length = 5512) :
    RAMSIZE = 5513 ∧ SampleRing.start.ramBuf.length = RAMSIZE ∧
    (∃ r, sampleTicks raws SampleRing.start = some r ∧ r.ramPtr = 5512 ∧
      r.ramBuf.length = RAMSIZE ∧ nextSlot r.ramPtr = 5513 ∧ onSampleISR r raw = none) ∧
    sampleTicks (raws ++ [raw]) SampleRing.start = none ∧
    nextSlot 5513 = 0 := by
  have hs : SampleRing.start.ramBuf.length = 5513 := by
    show (List.replicate RAMSIZE 0).length = 5513
    rw [List.length_replicate]
    rfl
  have hp : SampleRing.start.ramPtr = 0 := rfl
  obtain ⟨r, e1, e2, e3⟩ := sampleTicks_up raws SampleRing.start hs (by rw [h, hp])
  have e2' : r.ramPtr = 5512 := by rw [e2, h, hp]
  have hn : nextSlot r.ramPtr = 5513 := by rw [e2']; decide
  have hnone : onSampleISR r raw = none := by
    simp only [onSampleISR, hn, e3]
    rw [if_neg (by omega)]
  refine ⟨rfl, by rw [hs, RAMSIZE_eq], ⟨r, e1, e2', by rw [e3, RAMSIZE_eq], hn, hnone⟩, ?_,
    by decide⟩
  rw [sampleTicks_append, e1]
  simp [sampleTicks, hnone]

theorem tick_writes_past_ring_witness :
    (List.replicate 5512 2048).length = 5512 ∧
    sampleTicks (List.replicate 5512 2048 ++ [2048]) SampleRing.start = none :=
  ⟨List.length_replicate _ _,
   (tick_writes_past_ring (List.replicate 5512 2048) 2048 (List.length_replicate _ _)).2.2.2.1⟩

/-! ## The noise filter -/

theorem getD_set_self (l : List Nat) (i v : Nat) (h : i < l.length) :
    (l.set i v).getD i 0 = v := by
  simp [List.getD_eq_getElem?_getD, List.getElem?_set, h]

theorem getD_set_ne (l : List Nat) (i j v : Nat) (h : i ≠ j) :
    (l.set i v).getD j 0 = l.getD j 0 := by
  simp [List.getD_eq_getElem?_getD, List.getElem?_set, h]

theorem sum7_mod (ib : List Nat) (init : Nat) :
    (List.range (bins - 1)).foldl (fun acc k => (acc + ib.getD k 0) % 65536) init
      = (init + (ib.getD 0 0 + ib.getD 1 0 + ib.getD 2 0 + ib.getD 3 0 + ib.getD 4 0
          + ib.getD 5 0 + ib.getD 6 0)) % 65536 := by
  have : List.range (bins - 1) = [0, 1, 2, 3, 4, 5, 6] := by decide
  rw [this]
  simp only [List.foldl]
  omega

theorem getD_lt_256 (x : List Nat) (hx : ∀ v ∈ x, v < 256) (i : Nat) : x.getD i 0 < 256 := by
  rw [List.getD_eq_getElem?_getD]
  cases h : x[i]? with
  | none => simp
  | some v => exact hx v (List.getElem?_mem h)

theorem noiseFilterStep_fields (f : FilterState) (s : Nat) :
    (noiseFilterStep f s).bufferPointer = (f.bufferPointer + 1) % 7 ∧
    (noiseFilterStep f s).integratingBuffer
      = f.integratingBuffer.set ((f.bufferPointer + 1) % 7) (f.psramBuf.getD s 0) ∧
    (noiseFilterStep f s).psramBuf
      = f.psramBuf.set s
          ((((List.range (bins - 1)).foldl
              (fun acc k => (acc + (f.integratingBuffer.set ((f.bufferPointer + 1) % 7)
                (f.psramBuf.getD s 0)).getD k 0) % 65536)
              ((f.integratingBuffer.set ((f.bufferPointer + 1) % 7)
                (f.psramBuf.getD s 0)).getD ((f.bufferPointer + 1) % 7) 0)) / 8) % 256) :=
  ⟨rfl, rfl, rfl⟩

/-- The slots of the integrating buffer after the pass for index `s`. -/
theorem noiseFilterStep_slots (x : List Nat) (s : Nat) (f : FilterState) (hinv : FilterInv x s f)
    (d : Nat) (hd : d < 7) (hds : 44 + d < s + 1) :
    (noiseFilterStep f s).integratingBuffer.getD
        (((noiseFilterStep f s).bufferPointer + 7 - d) % 7) 0 = x.getD (s - d) 0 := by
  obtain ⟨h1, h2, h3, h4⟩ := hinv
  obtain ⟨e1, e2, -⟩ := noiseFilterStep_fields f s
  rw [e1, e2, h3 s (Nat.le_refl s)]
  obtain ⟨c, hc⟩ : ∃ c, c = (f.bufferPointer + 1) % 7 := ⟨_, rfl⟩
  rw [← hc]
  have hc7 : c < 7 := by omega
  rcases Nat.eq_zero_or_pos d with h0 | hpos
  · subst h0
    have : (c + 7 - 0) % 7 = c := by omega
    rw [this]
    exact getD_set_self _ _ _ (by rw [h1]; exact hc7)
  · have hne : c ≠ (c + 7 - d) % 7 := by omega
    rw [getD_set_ne _ _ _ _ hne]
    have hidx : (c + 7 - d) % 7 = (f.bufferPointer + 7 - (d - 1)) % 7 := by omega
    rw [hidx, h4 (d - 1) (by omega) (by omega)]
    congr 1
    omega

theorem sum7_slots (ib : List Nat) (c : Nat) (hc : c < 7) :
    ib.getD 0 0 + ib.getD 1 0 + ib.getD 2 0 + ib.getD 3 0 + ib.getD 4 0 + ib.getD 5 0
        + ib.getD 6 0
      = ib.getD ((c + 7 - 0) % 7) 0 + ib.getD ((c + 7 - 1) % 7) 0 + ib.getD ((c + 7 - 2) % 7) 0
        + ib.getD ((c + 7 - 3) % 7) 0 + ib.getD ((c + 7 - 4) % 7) 0
        + ib.getD ((c + 7 - 5) % 7) 0 + ib.getD ((c + 7 - 6) % 7) 0 := by
  interval_cases c <;> simp <;> omega

theorem noiseFilterStep_inv (x : List Nat) (s : Nat) (f : FilterState) (hinv : FilterInv x s f)
    (hs : s < x.length) :
    FilterInv x (s + 1) (noiseFilterStep f s) ∧
    (∀ j, j ≠ s → (noiseFilterStep f s).psramBuf.getD j 0 = f.psramBuf.getD j 0) ∧
    (50 ≤ s → (∀ v ∈ x, v < 256) →
      (noiseFilterStep f s).psramBuf.getD s 0 = windowSum x s / 8) := by
  have slots := noiseFilterStep_slots x s f hinv
  obtain ⟨h1, h2, h3, h4⟩ := hinv
  obtain ⟨e1, e2, e3⟩ := noiseFilterStep_fields f s
  refine ⟨⟨?_, ?_, ?_, ?_⟩, ?_, ?_⟩
  · rw [e2, List.length_set, h1]
  · rw [e3, List.length_set, h2]
  · intro j hj
    rw [e3, getD_set_ne _ _ _ _ (by omega), h3 j (by omega)]
  · intro d hd hds
    have := slots d hd hds
    rw [show s + 1 - 1 - d = s - d by omega]
    exact this
  · intro j hj
    rw [e3, getD_set_ne _ _ _ _ (fun h => hj h.symm)]
  · intro h50 hx
    have hc7 : (f.bufferPointer + 1) % 7 < 7 := Nat.mod_lt _ (by norm_num)
    have s0 := slots 0 (by omega) (by omega)
    have s1 := slots 1 (by omega) (by omega)
    have s2 := slots 2 (by omega) (by omega)
    have s3 := slots 3 (by omega) (by omega)
    have s4 := slots 4 (by omega) (by omega)
    have s5 := slots 5 (by omega) (by omega)
    have s6 := slots 6 (by omega) (by omega)
    rw [e1, e2] at s0 s1 s2 s3 s4 s5 s6
    have hcur : (f.integratingBuffer.set ((f.bufferPointer + 1) % 7) (f.psramBuf.getD s 0)).getD
        ((f.bufferPointer + 1) % 7) 0 = x.getD s 0 := by
      have := s0
      rw [show ((f.bufferPointer + 1) % 7 + 7 - 0) % 7 = (f.bufferPointer + 1) % 7 by omega] at this
      exact this
    rw [e3, getD_set_self _ _ _ (by rw [h2]; exact hs), sum7_mod, hcur,
      sum7_slots _ _ hc7, s0, s1, s2, s3, s4, s5, s6]
    have b0 := getD_lt_256 x hx s
    have b1 := getD_lt_256 x hx (s - 1)
    have b2 := getD_lt_256 x hx (s - 2)
    have b3 := getD_lt_256 x hx (s - 3)
    have b4 := getD_lt_256 x hx (s - 4)
    have b5 := getD_lt_256 x hx (s - 5)
    have b6 := getD_lt_256 x hx (s - 6)
    simp only [windowSum, Nat.sub_zero]
    omega

theorem noiseFilterLoop_spec (x : List Nat) (hx : ∀ v ∈ x, v < 256) (n : Nat) :
    ∀ (s : Nat) (f : FilterState), FilterInv x s f → s + n ≤ x.length → ∀ j,
      (j < s → (noiseFilterLoop n s f).psramBuf.getD j 0 = f.psramBuf.getD j 0) ∧
      (s ≤ j → j < s + n → 50 ≤ j →
        (noiseFilterLoop n s f).psramBuf.getD j 0 = windowSum x j / 8) := by
  induction n with
  | zero =>
    intro s f _ _ j
    exact ⟨fun _ => rfl, fun h1 h2 _ => by omega⟩
  | succ n ih =>
    intro s f hinv hle j
    obtain ⟨hinv1, hkeep, hval⟩ := noiseFilterStep_inv x s f hinv (by omega)
    have h := ih (s + 1) (noiseFilterStep f s) hinv1 (by omega) j
    show (j < s → (noiseFilterLoop n (s + 1) (noiseFilterStep f s)).psramBuf.getD j 0 = _) ∧
      (s ≤ j → j < s + (n + 1) → 50 ≤ j →
        (noiseFilterLoop n (s + 1) (noiseFilterStep f s)).psramBuf.getD j 0 = _)
    refine ⟨fun hj => ?_, fun h1 h2 h3 => ?_⟩
    · rw [h.1 (by omega), hkeep j (by omega)]
    · rcases Nat.eq_or_lt_of_le h1 with heq | hlt
      · subst heq
        rw [h.1 (by omega)]
        exact hval h3 hx
      · exact h.2 (by omega) (by omega) h3

/-! ## C18: the noise filter -/

/-- C18. For a captured buffer of bytes `x` and every sample index `s` with
`44 + 6 ≤ s < psramPtr`, `noiseFilter` leaves at `psramBuf[s]` the value
`(2 x[s] + x[s-1] + x[s-2] + x[s-3] + x[s-4] + x[s-5] + x[s-6]) / 8` of the raw samples,
whatever the integrating buffer and `bufferPointer` held before; the sum stays below
`2 ^ 16` and the quotient below `2 ^ 8`. -/
theorem noiseFilter_weighted_average (x : List Nat) (psramPtr bufferPointer : Nat)
    (integratingBuffer : List Nat) (s : Nat) (hx : ∀ v ∈ x, v < 256)
    (hp : psramPtr ≤ x.length) (hib : integratingBuffer.length = 7)
    (h1 : 44 + 6 ≤ s) (h2 : s < psramPtr) :
    (noiseFilter psramPtr ⟨x, bufferPointer, integratingBuffer⟩).psramBuf.getD s 0
      = (2 * x.getD s 0 + x.getD (s - 1) 0 + x.getD (s - 2) 0 + x.getD (s - 3) 0
          + x.getD (s - 4) 0 + x.getD (s - 5) 0 + x.getD (s - 6) 0) / 8 ∧
    2 * x.getD s 0 + x.getD (s - 1) 0 + x.getD (s - 2) 0 + x.getD (s - 3) 0
        + x.getD (s - 4) 0 + x.getD (s - 5) 0 + x.getD (s - 6) 0 < 65536 ∧
    (2 * x.getD s 0 + x.getD (s - 1) 0 + x.getD (s - 2) 0 + x.getD (s - 3) 0
        + x.getD (s - 4) 0 + x.getD (s - 5) 0 + x.getD (s - 6) 0) / 8 < 256 := by
  have hinv : FilterInv x 44 ⟨x, bufferPointer, integratingBuffer⟩ :=
    ⟨hib, rfl, fun _ _ => rfl, fun d _ h => by omega⟩
  have h := (noiseFilterLoop_spec x hx (psramPtr - 44) 44 _ hinv (by omega) s).2 (by omega)
    (by omega) (by omega)
  have b0 := getD_lt_256 x hx s
  have b1 := getD_lt_256 x hx (s - 1)
  have b2 := getD_lt_256 x hx (s - 2)
  have b3 := getD_lt_256 x hx (s - 3)
  have b4 := getD_lt_256 x hx (s - 4)
  have b5 := getD_lt_256 x hx (s - 5)
  have b6 := getD_lt_256 x hx (s - 6)
  refine ⟨h, by omega, by omega⟩

theorem noiseFilter_weighted_average_witness :
    (∀ v ∈ List.replicate 44 0 ++ [10, 20, 30, 40, 50, 60, 70, 80], v < 256) ∧
    52 ≤ (List.replicate 44 0 ++ [10, 20, 30, 40, 50, 60, 70, 80]).length ∧
    [200, 201, 202, 203, 204, 205, 206].length = 7 ∧ 44 + 6 ≤ 51 ∧ 51 < 52 ∧
    (noiseFilter 52 ⟨List.replicate 44 0 ++ [10, 20, 30, 40, 50, 60, 70, 80], 3,
        [200, 201, 202, 203, 204, 205, 206]⟩).psramBuf.getD 51 0
      = (2 * (List.replicate 44 0 ++ [10, 20, 30, 40, 50, 60, 70, 80]).getD 51 0
          + (List.replicate 44 0 ++ [10, 20, 30, 40, 50, 60, 70, 80]).getD (51 - 1) 0
          + (List.replicate 44 0 ++ [10, 20, 30, 40, 50, 60, 70, 80]).getD (51 - 2) 0
          + (List.replicate 44 0 ++ [10, 20, 30, 40, 50, 60, 70, 80]).getD (51 - 3) 0
          + (List.replicate 44 0 ++ [10, 20, 30, 40, 50, 60, 70, 80]).getD (51 - 4) 0
          + (List.replicate 44 0 ++ [10, 20, 30, 40, 50, 60, 70, 80]).getD (51 - 5) 0
          + (List.replicate 44 0 ++ [10, 20, 30, 40, 50, 60, 70, 80]).getD (51 - 6) 0) / 8 :=
  ⟨by decide, by decide, by decide, by decide, by decide,
   (noiseFilter_weighted_average (List.replicate 44 0 ++ [10, 20, 30, 40, 50, 60, 70, 80]) 52 3
      [200, 201, 202, 203, 204, 205, 206] 51 (by decide) (by decide) (by decide) (by decide)
      (by decide)).1⟩


/-! ## The index is sent in slices -/

/-- The call that finds the clip exhausted and more of the index left than the buffer
takes: it sends `buffSize` bytes and advances `iPtr`. -/
theorem readClientBuf_index_more (s : Muxer) (fh : File) (buf : List Nat) (b : Nat)
    (h1 : s.theEnd = false) (h2 : s.doAVI = true) (h3 : s.doAVIheader = false)
    (h4 : s.haveSoundFile = false) (hav : fh.available = 0) (i : Nat) (hi : s.iPtr = (i : Int))
    (hle : i ≤ s.indexLen) (hgt : b < s.indexLen - i) (hlen : s.indexLen < 2147483648) :
    readClientBuf s fh buf b
      = some ⟨b, { s with readLen := 0, iPtr := ((i + b : Nat) : Int) }, fh,
              memWrite buf 0 (memRead s.idxBuf i b)⟩ := by
  have e : toUInt32 ((s.indexLen : Int) - s.iPtr) = s.indexLen - i := by
    rw [hi]
    have : ((s.indexLen : Int) - (i : Int)) = ((s.indexLen - i : Nat) : Int) := by omega
    rw [this, toUInt32_natCast _ (by omega)]
  have hgt' : s.indexLen - i > b := hgt
  have hto : s.iPtr.toNat = i := by rw [hi]; simp
  have hadd : toInt32 (s.iPtr + (b : Int)) = ((i + b : Nat) : Int) := by
    rw [hi, toInt32_eq _ (by omega) (by omega)]
    push_cast
    rfl
  rw [readClientBuf_video s fh buf b h1 h2 h3 h4]
  have ht : toInt32 (([] : List Nat).length : Int) = 0 := by simp [toInt32]
  simp only [processVideo, hav, bne_self_eq_false, Bool.false_eq_true, if_false, ht, if_true,
    indexSlice, e, hgt', hto, hadd]
  simp [memWrite]

theorem memRead_add (l : List Nat) (i a c : Nat) :
    memRead l i a ++ memRead l (i + a) c = memRead l i (a + c) := by
  unfold memRead
  rw [List.take_add, List.drop_drop]

theorem length_memRead (l : List Nat) (i n : Nat) (h : i + n ≤ l.length) :
    (memRead l i n).length = n := by
  simp [memRead]; omega

/-- The index stage from the cursor `i`: `k + 1` calls when `k * b < indexLen - i` and
`indexLen - i ≤ (k + 1) * b`. -/
theorem indexCalls (b : Nat) (hb : 1 ≤ b) (fh : File) (hav : fh.available = 0) (k : Nat) :
    ∀ (s : Muxer) (buf : List Nat) (i : Nat),
      s.theEnd = false → s.doAVI = true → s.doAVIheader = false → s.haveSoundFile = false →
      s.iPtr = (i : Int) → i < s.indexLen → s.indexLen ≤ s.idxBuf.length →
      s.indexLen < 2147483648 → k * b < s.indexLen - i → s.indexLen - i ≤ (k + 1) * b →
      ∃ rs : List CallResult, runCalls b (k + 1) s fh buf = rs ∧ rs.length = k + 1 ∧
        (rs.map CallResult.output).flatten = memRead s.idxBuf i (s.indexLen - i) ∧
        (∀ r ∈ rs, 1 ≤ r.ret ∧ r.ret ≤ b) ∧
        rs.map (fun r => r.state.theEnd) = List.replicate k false ++ [true] := by
  induction k with
  | zero =>
    intro s buf i h1 h2 h3 h4 hi hlt hfit hlen _ hhi
    have hcall := readClientBuf_index_last s fh buf b h1 h2 h3 h4 hav i hi (by omega)
      (by omega) hlen
    refine ⟨_, runCalls_succ hcall, rfl, ?_, ?_, rfl⟩
    · simp only [runCalls, List.map_cons, List.map_nil, List.flatten_cons, List.flatten_nil,
        List.append_nil, CallResult.output]
      have := take_memWrite_zero buf (memRead s.idxBuf i (s.indexLen - i))
      rw [length_memRead _ _ _ (by omega)] at this
      exact this
    · intro r hr
      simp only [runCalls, List.mem_singleton] at hr
      subst hr
      constructor <;> simp only [] <;> omega
  | succ k ih =>
    intro s buf i h1 h2 h3 h4 hi hlt hfit hlen hlo hhi
    have hkb : (k + 1) * b = k * b + b := Nat.succ_mul k b
    have hkb2 : (k + 1 + 1) * b = (k + 1) * b + b := Nat.succ_mul (k + 1) b
    have hcall := readClientBuf_index_more s fh buf b h1 h2 h3 h4 hav i hi (by omega)
      (by omega) hlen
    obtain ⟨rs, hrun, hlenrs, hout, hret, hflags⟩ :=
      ih { s with readLen := 0, iPtr := ((i + b : Nat) : Int) }
        (memWrite buf 0 (memRead s.idxBuf i b)) (i + b) h1 h2 h3 h4 rfl
        (by show i + b < s.indexLen; omega) hfit hlen
        (by show k * b < s.indexLen - (i + b); omega)
        (by show s.indexLen - (i + b) ≤ (k + 1) * b; omega)
    refine ⟨_, runCalls_succ hcall, ?_, ?_, ?_, ?_⟩
    · simp only [List.length_cons]
      rw [hrun, hlenrs]
    · simp only [List.map_cons, List.flatten_cons]
      rw [hrun, hout]
      have h0 : CallResult.output ⟨b, { s with readLen := 0, iPtr := ((i + b : Nat) : Int) }, fh,
          memWrite buf 0 (memRead s.idxBuf i b)⟩ = memRead s.idxBuf i b := by
        have := take_memWrite_zero buf (memRead s.idxBuf i b)
        rw [length_memRead _ _ _ (by omega)] at this
        exact this
      rw [h0]
      show memRead s.idxBuf i b ++ memRead s.idxBuf (i + b) (s.indexLen - (i + b)) = _
      rw [memRead_add]
      congr 1
      omega
    · intro r hr
      rcases List.mem_cons.1 hr with rfl | hmem
      · exact ⟨hb, Nat.le_refl _⟩
      · rw [hrun] at hmem
        exact hret r hmem
    · simp only [List.map_cons]
      rw [hrun, hflags, h1]
      rfl

/-- The index stage while the index block lies inside `idxBuf`. Once the clip is
exhausted (video stage over, `iPtr = 0`), for an index block of `L = 8 + 16 n` bytes with
`L ≤ idxBuf.length` and every buffer size `buffSize ≥ 1`, the next `⌈L / buffSize⌉` calls
of `readClientBuf` return slices of `idxBuf` whose concatenation is its first `L` bytes in
order; every slice has at least one and at most `buffSize` bytes, and `theEnd` is set by
the last of these calls and by none before it. -/
theorem index_sent_in_slices (s : Muxer) (fh : File) (buf : List Nat) (b n : Nat)
    (h1 : s.theEnd = false) (h2 : s.doAVI = true) (h3 : s.doAVIheader = false)
    (h4 : s.haveSoundFile = false) (hi : s.iPtr = 0) (hav : fh.available = 0) (hb : 1 ≤ b)
    (hL : s.indexLen = 8 + 16 * n) (hn : n ≤ 65536) (hfit : s.indexLen ≤ s.idxBuf.length) :
    ∃ rs : List CallResult,
      runCalls b ((s.indexLen + b - 1) / b) s fh buf = rs ∧
      rs.length = (s.indexLen + b - 1) / b ∧
      (rs.map CallResult.output).flatten = s.idxBuf.take s.indexLen ∧
      (∀ r ∈ rs, 1 ≤ r.ret ∧ r.ret ≤ b) ∧
      rs.map (fun r => r.state.theEnd)
        = List.replicate ((s.indexLen + b - 1) / b - 1) false ++ [true] := by
  have hpos : 0 < b := hb
  have hdm := Nat.div_mul_le_self (s.indexLen + b - 1) b
  have hlt := Nat.lt_div_mul_add hpos (a := s.indexLen + b - 1)
  obtain ⟨k, hk⟩ : ∃ k, (s.indexLen + b - 1) / b = k + 1 := by
    have : 0 < (s.indexLen + b - 1) / b := Nat.div_pos (by omega) hpos
    exact ⟨(s.indexLen + b - 1) / b - 1, by omega⟩
  rw [hk] at hdm hlt ⊢
  have hkb : (k + 1) * b = k * b + b := Nat.succ_mul k b
  obtain ⟨rs, e1, e2, e3, e4, e5⟩ := indexCalls b hb fh hav k s buf 0 h1 h2 h3 h4
    (by rw [hi]; rfl) (by omega) hfit (by omega) (by omega) (by omega)
  refine ⟨rs, e1, e2, ?_, e4, ?_⟩
  · rw [e3]; simp [memRead]
  · rw [e5]; simp

set_option maxRecDepth 100000 in
theorem index_sent_in_slices_witness :
    ({ Muxer.init with doAVI := true, indexLen := 24, idxBuf := List.range 40 } : Muxer).iPtr = 0 ∧
    (File.mk [] 0).available = 0 ∧ 1 ≤ 10 ∧ (24 : Nat) = 8 + 16 * 1 ∧
    ∃ rs : List CallResult,
      runCalls 10 ((24 + 10 - 1) / 10)
        ({ Muxer.init with doAVI := true, indexLen := 24, idxBuf := List.range 40 } : Muxer)
        ⟨[], 0⟩ (List.replicate 16 0) = rs ∧
      rs.length = (24 + 10 - 1) / 10 ∧
      (rs.map CallResult.output).flatten = (List.range 40).take 24 ∧
      (∀ r ∈ rs, 1 ≤ r.ret ∧ r.ret ≤ 10) ∧
      rs.map (fun r => r.state.theEnd) = List.replicate ((24 + 10 - 1) / 10 - 1) false ++ [true] :=
  ⟨by decide, by decide, by decide, by decide,
   index_sent_in_slices
     ({ Muxer.init with doAVI := true, indexLen := 24, idxBuf := List.range 40 } : Muxer)
     ⟨[], 0⟩ (List.replicate 16 0) 10 1 (by decide) (by decide) (by decide) (by decide)
     (by decide) (by decide) (by decide) (by decide) (by decide) (by decide)⟩

/-! ## C20: the framing constants against the stream strings -/

/-- C20. The framing constants of the muxer agree with what the stream code formats. For
every 32-bit JPEG length `n`, `_STREAM_BOUNDARY` followed by `_STREAM_PART` formatted with
`n` is 92 = `MJPEG_HDR` bytes long, with `streamBoundaryLen = 36` and
`streamPartLen = strlen(_STREAM_PART) + 6 = 56`; the ten characters that `%10u` prints,
the decimal digits of `n`, are the bytes 78 to 87 (`LENGTH_OFFSET`) of that block; and the
JPEG data behind the block starts at offset `LENGTH_OFFSET + REMAINDER_OFFSET = 92`. -/
theorem framing_constants_agree (n : Nat) (hn : n < 4294967296) (jpeg : List Nat) :
    streamBoundaryLen = 36 ∧ _STREAM_PART.length = 50 ∧ streamPartLen = _STREAM_PART.length + 6 ∧
    streamPartLen = 56 ∧ (streamPart n).length = streamPartLen ∧
    (_STREAM_BOUNDARY ++ streamPart n).length = MJPEG_HDR ∧ MJPEG_HDR = 92 ∧
    memRead (_STREAM_BOUNDARY ++ streamPart n ++ jpeg) LENGTH_OFFSET 10 = format10u n ∧
    (format10u n).length = 10 ∧ digitsValue 0 (decDigits 10 n) = n ∧
    LENGTH_OFFSET + REMAINDER_OFFSET = 92 ∧
    (_STREAM_BOUNDARY ++ streamPart n ++ jpeg).drop (LENGTH_OFFSET + REMAINDER_OFFSET) = jpeg := by
  have hlen : (_STREAM_BOUNDARY ++ streamPart n).length = 92 := length_framingBlock n
  have hsp : (streamPart n).length = 56 := by
    simp [streamPart, streamPartHead, streamPartTail, length_format10u]
  refine ⟨rfl, rfl, rfl, rfl, hsp, hlen, rfl, ?_, length_format10u n, ?_, rfl, ?_⟩
  · have := framingBlock_field n jpeg [] []
    simpa [framingBlock] using this
  · rw [digitsValue_decDigits]
    exact Nat.mod_eq_of_lt (by omega)
  · show List.drop 92 _ = jpeg
    rw [List.drop_append_of_le_length (by omega), ← hlen, List.drop_length, List.nil_append]

theorem framing_constants_agree_witness :
    (1000 : Nat) < 4294967296 ∧
    memRead (_STREAM_BOUNDARY ++ streamPart 1000 ++ [255, 216, 255]) LENGTH_OFFSET 10
      = format10u 1000 ∧
    (_STREAM_BOUNDARY ++ streamPart 1000 ++ [255, 216, 255]).drop
      (LENGTH_OFFSET + REMAINDER_OFFSET) = [255, 216, 255] :=
  ⟨by decide,
   (framing_constants_agree 1000 (by decide) [255, 216, 255]).2.2.2.2.2.2.2.1,
   (framing_constants_agree 1000 (by decide) [255, 216, 255]).2.2.2.2.2.2.2.2.2.2.2⟩

/-! ## C21: the splice of a carried fragment against `buffSize` -/

set_option maxRecDepth 1000000 in
/-- C21. A call can return more than `buffSize` bytes and write past index `buffSize`.
A well-formed clip of two frames (JPEGs of 128 and 400 bytes, 748 clip bytes) read with
`buffSize = 310` into a buffer of 620 zero bytes: the first cluster ends 90 bytes into the
second framing block, so the second call returns 136 bytes and carries 90
(`hdrOffset = 90`). The third call loads a full cluster of 310 bytes, moves it up by 90
(`memmove(clientBuf + hdrOffset, clientBuf, buffSize)` writes the indices 90 to 399),
and returns `310 + 90 - 84 = 316` bytes; 82 bytes of the buffer from index 310 on are no
longer zero. The bytes returned in total are the right ones: 310, 136, 316, 92, 40. -/
theorem splice_overruns_buffSize :
    WellFormed [List.replicate 128 7, List.replicate 400 7] ∧
    (clipBytes [List.replicate 128 7, List.replicate 400 7]).length = 748 ∧
    sessionReturns [List.replicate 128 7, List.replicate 400 7] 310 620 6
      = [310, 136, 316, 92, 40, 0] ∧
    (runCalls 310 3 (startVideoOnly 8 25 2 748)
        ⟨clipBytes [List.replicate 128 7, List.replicate 400 7], 0⟩ (List.replicate 620 0)).map
      (fun r => (r.ret, r.state.hdrOffset, decide (r.ret ≤ 310), (r.clientBuf.drop 310).take 16,
                 ((r.clientBuf.drop 310).filter (fun v => v != 0)).length))
      = [(310, 0, true, [0, 0, 0, 0, 0, 0, 0, 0, 0, 0, 0, 0, 0, 0, 0, 0], 0),
         (136, 90, true, [0, 0, 0, 0, 0, 0, 0, 0, 0, 0, 0, 0, 0, 0, 0, 0], 0),
         (316, 0, false, [7, 7, 7, 7, 7, 7, 0, 0, 0, 0, 0, 0, 0, 0, 7, 7], 82)] := by
  decide

/-! ## C13: the movi size field against what a session emits -/

set_option maxRecDepth 1000000 in
/-- C13. The field at offset 0x12E does not always give the length of the movi list the
session emits. For the well-formed one-frame clip with a 50-byte JPEG the header carries
62 at 0x12E (4 for `movi`, 8 and 50 for the chunk). Read in clusters of 200 bytes the
session puts `idx1` 62 bytes behind the field; read in clusters of 150 bytes it emits
`movi`, the 58-byte chunk and 28 bytes of the trailing boundary, so that `idx1` comes 90
bytes behind the field. -/
theorem movi_field_short_of_emitted_list :
    WellFormed [List.replicate 50 7] ∧
    sessionReturns [List.replicate 50 7] 150 300 5 = [310, 58, 28, 24, 0] ∧
    leValue (memRead (sessionStream [List.replicate 50 7] 150 300 5) 0x12E 4) = 62 ∧
    memRead (sessionStream [List.replicate 50 7] 150 300 5) (0x12E + 4) 4
      = [0x6D, 0x6F, 0x76, 0x69] ∧
    memRead (sessionStream [List.replicate 50 7] 150 300 5) (0x12E + 4 + 90) 4 = idx1Buf ∧
    memRead (sessionStream [List.replicate 50 7] 150 300 5) (0x12E + 4 + 62) 4 ≠ idx1Buf ∧
    (sessionStream [List.replicate 50 7] 150 300 5).length = 0x12E + 4 + 90 + 24 ∧
    leValue (memRead (sessionStream [List.replicate 50 7] 200 300 4) 0x12E 4) = 62 ∧
    memRead (sessionStream [List.replicate 50 7] 200 300 4) (0x12E + 4 + 62) 4 = idx1Buf ∧
    (sessionStream [List.replicate 50 7] 200 300 4).length = 0x12E + 4 + 62 + 24 := by
  decide

/-- The first three calls of a session whose clip fits in one cluster: header, video and
the call that sends the index, whatever the number of frames. -/
theorem session_three_calls (frames : List (List Nat)) (b : Nat) (s0 : Muxer) (buf : List Nat)
    (hs : SessionStart s0 frames.length) (hwf : WellFormed frames)
    (hfit : (clipBytes frames).length ≤ b) (hidx : 16 * frames.length + 8 ≤ b) :
    ∃ r1 r2 r3 : CallResult,
      runCalls b 3 s0 ⟨clipBytes frames, 0⟩ buf = [r1, r2, r3] ∧
      r1.ret = 310 ∧ r1.state.indexLen = 16 * frames.length + 8 ∧
      r1.state.idxBuf.length = 320016 ∧
      r2.ret = (aviChunks frames).length ∧ r2.output = aviChunks frames ∧
      r2.fh.available = 0 ∧ r2.state.iPtr = 0 ∧
      r2.state.indexLen = 16 * frames.length + 8 ∧ r2.state.idxBuf.length = 320016 ∧
      r3.ret = 16 * frames.length + 8 ∧ r3.state.theEnd = true ∧
      r3.clientBuf = memWrite r2.clientBuf 0 (memRead r2.state.idxBuf 0 (16 * frames.length + 8)) := by
  obtain ⟨h1, h2, h3, h4, hj, hh, hi, hf⟩ := hs
  have hcl := length_clipBytes_sum frames
  have hbound := hwf.2
  obtain ⟨n1, buf1, hc1, hret1⟩ : ∃ (n1 : Nat) (buf1 : List Nat),
      readClientBuf s0 ⟨clipBytes frames, 0⟩ buf b
        = some ⟨n1, stateAfterHeader s0 buf, ⟨clipBytes frames, 0⟩, buf1⟩ ∧ n1 = 310 :=
    ⟨_, _, readClientBuf_header s0 ⟨clipBytes frames, 0⟩ buf b h1 h2 h3,
      buildAVIhdr_ret { s0 with framePtr := 0 } buf h4⟩
  have hs1 := stateAfterHeader_noAudio s0 buf h4
  obtain ⟨s1, hs1'⟩ : ∃ s1, s1 = stateAfterHeader s0 buf := ⟨_, rfl⟩
  rw [← hs1'] at hc1 hs1
  have v1 : VideoReady s1 := by
    rw [hs1]; exact ⟨h1, h2, rfl, h4, hj, hh⟩
  have i1 : s1.iPtr = 0 := by rw [hs1]; exact hi
  have l1 : s1.indexLen = 16 * frames.length + 8 := by
    rw [hs1]; show s0.frameCnt * 16 + 8 = _; rw [hf]; omega
  have p1 : s1.idxPtr < 65536 := by rw [hs1]; show 8 < 65536; omega
  have b1 : s1.idxBuf.length = 320016 := by rw [hs1]; exact length_freshIdxBuf s0
  clear hs1
  obtain ⟨r2, hc2, hret2, hout2, hfh2, hsame2, hidx2⟩ :=
    readClientBuf_whole_clip frames b s1 buf1 hwf v1 hfit
  obtain ⟨q1, q2, q3, q4, q5, q6, -⟩ := hsame2
  have hib : r2.state.idxBuf = (buildIdxAll s1 frames).idxBuf := congrArg Prod.fst hidx2
  have hav2 : r2.fh.available = 0 := by rw [hfh2]; simp [File.available]
  have hbl : r2.state.idxBuf.length = 320016 := by
    rw [hib, length_buildIdxAll frames s1 p1 (by rw [b1]; norm_num), b1]
  obtain ⟨s3, hc3, e3⟩ : ∃ s3 : Muxer,
      readClientBuf r2.state r2.fh r2.clientBuf b
        = some ⟨r2.state.indexLen - 0, s3, r2.fh,
            memWrite r2.clientBuf 0 (memRead r2.state.idxBuf 0 (r2.state.indexLen - 0))⟩
      ∧ s3.theEnd = true :=
    ⟨_, readClientBuf_index_last r2.state r2.fh r2.clientBuf b (q4.trans v1.1)
      (q1.trans v1.2.1) (q2.trans v1.2.2.1) (q3.trans v1.2.2.2.1)
      hav2 0 (by rw [q5, i1]; rfl) (by omega)
      (by rw [q6, l1]; omega) (by rw [q6, l1]; omega), rfl⟩
  rw [q6, l1, Nat.sub_zero] at hc3
  refine ⟨⟨n1, s1, ⟨clipBytes frames, 0⟩, buf1⟩, r2,
    ⟨16 * frames.length + 8, s3, r2.fh,
      memWrite r2.clientBuf 0 (memRead r2.state.idxBuf 0 (16 * frames.length + 8))⟩,
    ?_, hret1, l1, b1, hret2, ?_, hav2, by rw [q5, i1], by rw [q6, l1], hbl, rfl, e3, rfl⟩
  · rw [runCalls_succ hc1, runCalls_succ hc2, runCalls_succ hc3]
    rfl
  · rw [CallResult.output, hout2]

theorem sessionStart_startVideoOnly (F n : Nat) (h1 : 1 ≤ F) (h2 : F < 65536) :
    SessionStart (startVideoOnly 8 25 (F : Int) n) F := by
  have e : (((F : Int) % 65536).toNat) = F := by omega
  have hpos : (if !Muxer.init.aviOn then 0 else ((F : Int) % 65536).toNat) > 0 := by
    show ((F : Int) % 65536).toNat > 0
    omega
  unfold SessionStart startVideoOnly isAVI
  dsimp only
  rw [if_pos hpos]
  refine ⟨rfl, rfl, rfl, rfl, rfl, rfl, rfl, ?_⟩
  show ((F : Int) % 65536).toNat = F
  exact e

theorem length_clipBytes_replicate (n : Nat) :
    (clipBytes (List.replicate n [0])).length = 93 * n + 36 := by
  rw [length_clipBytes_sum, List.length_replicate, List.map_replicate, List.sum_replicate]
  simp only [List.length_cons, List.length_nil, smul_eq_mul]
  omega

theorem wellFormed_replicate (n : Nat) (h : 93 * n + 36 < 2147483000) :
    WellFormed (List.replicate n [0]) := by
  refine ⟨fun jpeg hj => ?_, by rw [length_clipBytes_replicate]; exact h⟩
  rw [List.eq_of_mem_replicate hj]
  exact Nat.succ_pos 0

/-! ## C19: the index slices of a session with more than 20000 records -/

/-- C19. The slices of the index are not always bytes of the index buffer. For a
well-formed clip of 20001 frames, uploaded in one cluster, the header call allocates
320016 bytes for `idxBuf` and sets `indexLen` to `8 + 16 * 20001 = 320024`; once the
clip is exhausted the next call returns one slice of 320024 bytes and sets `theEnd`,
copying `indexLen - iPtr = 320024` bytes from the start of a buffer that holds 320016:
the last 8 bytes of the slice come from behind `idxBuf`. -/
theorem index_slice_longer_than_idxBuf (frames : List (List Nat)) (b : Nat) (buf : List Nat)
    (hwf : WellFormed frames) (hF : frames.length = 20001)
    (hfit : (clipBytes frames).length ≤ b) :
    ∃ r1 r2 r3 : CallResult,
      runCalls b 3 (startVideoOnly 8 25 20001 (clipBytes frames).length)
        ⟨clipBytes frames, 0⟩ buf = [r1, r2, r3] ∧
      r1.ret = 310 ∧ r2.ret = (aviChunks frames).length ∧ r2.output = aviChunks frames ∧
      r2.fh.available = 0 ∧ r2.state.iPtr = 0 ∧
      r2.state.indexLen = 320024 ∧ r2.state.idxBuf.length = 320016 ∧
      r3.ret = 320024 ∧ r3.state.theEnd = true ∧
      r3.clientBuf = memWrite r2.clientBuf 0 (memRead r2.state.idxBuf 0 320024) ∧
      (memRead r2.state.idxBuf 0 320024).length = 320016 ∧
      r2.state.idxBuf.take 320024 = r2.state.idxBuf := by
  have hcl := length_clipBytes_sum frames
  have hs : SessionStart (startVideoOnly 8 25 ((20001 : Nat) : Int) (clipBytes frames).length)
      frames.length := by
    rw [hF]
    exact sessionStart_startVideoOnly 20001 _ (by norm_num) (by norm_num)
  obtain ⟨r1, r2, r3, hrun, e1, -, -, e2, e3, e4, e5, e6, e7, e8, e9, e10⟩ :=
    session_three_calls frames b _ buf hs hwf hfit (by rw [hF]; omega)
  rw [hF] at e6 e8 e10
  refine ⟨r1, r2, r3, hrun, e1, e2, e3, e4, e5, e6, e7, e8, e9, e10, ?_, ?_⟩
  · rw [memRead, List.drop_zero, List.length_take, e7]
    rfl
  · exact List.take_of_length_le (by rw [e7]; norm_num)

theorem index_slice_longer_than_idxBuf_witness :
    WellFormed (List.replicate 20001 [0]) ∧
    (List.replicate 20001 ([0] : List Nat)).length = 20001 ∧
    (clipBytes (List.replicate 20001 [0])).length ≤ 2000000 ∧
    ∃ r1 r2 r3 : CallResult,
      runCalls 2000000 3 (startVideoOnly 8 25 20001 (clipBytes (List.replicate 20001 [0])).length)
        ⟨clipBytes (List.replicate 20001 [0]), 0⟩ [] = [r1, r2, r3] ∧
      r2.state.idxBuf.length = 320016 ∧ r3.ret = 320024 ∧ r3.state.theEnd = true :=
  ⟨wellFormed_replicate 20001 (by norm_num), List.length_replicate _ _,
   by rw [length_clipBytes_replicate]; norm_num,
   (index_slice_longer_than_idxBuf (List.replicate 20001 [0]) 2000000 []
      (wellFormed_replicate 20001 (by norm_num)) (List.length_replicate _ _)
      (by rw [length_clipBytes_replicate]; norm_num)).imp
    (fun _ h1 => h1.imp (fun _ h2 => h2.imp (fun _ h3 =>
      ⟨h3.1, h3.2.2.2.2.2.2.2.1, h3.2.2.2.2.2.2.2.2.1, h3.2.2.2.2.2.2.2.2.2.1⟩)))⟩

end Avi
